import Mathlib

/-!
# NetMap: target expansion and work partitioning

A shallow embedding of the target expander (`utils.cpp`: expandCIDR and
expandNetwork) and of the work partitioning done by the ping sweep and the TCP
sweep (`ScanHandler.cpp`: pingSweep, TCPSweep, scanHosts, scanHost), followed
by the properties proved about them.  The embedding also covers the ping probe
(ARPHost, pingHost, pingHosts), the aggregation loops of both sweeps, and the
queries on host records (getActivePorts, and the sort printResults applies),
the older port scanner of `NetHandler.cpp` (portScan), the validators of
`Validators.cpp`, the argument parsing of `CLIHandler.cpp` and the argument
set-up of `NetMap.cpp`.

Conventions of the embedding:
* C++ strings are `String`s, read through their character list;
* machine integers are `Nat` with an explicit `% 2 ^ 32` where the source
  computes in 32 bits;
* a thrown exception is the `Except.error` result;
* operating-system services (DNS, random sampling, the enabled flag seen by a
  worker, the outcome of a connect call) are explicit function arguments.
-/

namespace NetMap

/-! ## utils.cpp : CIDR expansion -/

/-- The exception class of utils.cpp, carrying its message. -/
structure UtilException where
  message : String
deriving DecidableEq, Repr

/-- Splits off the longest leading run of decimal digits. -/
def scanDigits : List Char → List Char × List Char
  | [] => ([], [])
  | c :: cs =>
    if c.isDigit then (c :: (scanDigits cs).1, (scanDigits cs).2) else ([], c :: cs)

/-- Decimal value of a digit string, most significant digit first. -/
def decVal (ds : List Char) : Nat :=
  ds.foldl (fun acc c => acc * 10 + (c.toNat - 48)) 0

/-- One `%hhu` conversion: the longest run of decimal digits is read, the
conversion fails when there is none, and the value is stored in an unsigned
char, that is modulo 256.  (Leading white space and a sign, which scanf would
also accept, cannot occur: the only caller passes strings that matched the
CIDR regular expression.) -/
def scanU8 (cs : List Char) : Option (Nat × List Char) :=
  if (scanDigits cs).1 = [] then none
  else some (decVal (scanDigits cs).1 % 256, (scanDigits cs).2)

/-- The items of a scanf format string that expandCIDR uses. -/
inductive FmtItem where
  | hhu : FmtItem
  | lit : Char → FmtItem
deriving DecidableEq, Repr

/-- Runs a format over the input and returns the values converted, in order;
scanning stops at the first item that does not match.  The return value of
the C function is the length of this list. -/
def sscanf : List FmtItem → List Char → List Nat
  | [], _ => []
  | FmtItem.lit _ :: _, [] => []
  | FmtItem.lit c :: fmt, x :: cs => if x = c then sscanf fmt cs else []
  | FmtItem.hhu :: fmt, cs =>
    match scanU8 cs with
    | none => []
    | some (v, rest) => v :: sscanf fmt rest

/-- The format `"%hhu.%hhu.%hhu.%hhu/%hhu"`. -/
def cidrFormat : List FmtItem :=
  [FmtItem.hhu, FmtItem.lit '.', FmtItem.hhu, FmtItem.lit '.', FmtItem.hhu, FmtItem.lit '.',
   FmtItem.hhu, FmtItem.lit '/', FmtItem.hhu]

/-- Rendering of four bytes with `"%d.%d.%d.%d"`. -/
def quadString (b1 b2 b3 b4 : Nat) : String :=
  toString b1 ++ "." ++ toString b2 ++ "." ++ toString b3 ++ "." ++ toString b4

/-- The text `inet_ntop(AF_INET, htonl(i))`: the four bytes of the 32-bit value,
most significant first, in dotted decimal. -/
def inet_ntop (i : Nat) : String :=
  quadString (i / 2 ^ 24 % 256) (i / 2 ^ 16 % 256) (i / 2 ^ 8 % 256) (i % 256)

/-- The loop `for (size_t i = firstIp + 1; i < lastIp; i++)` of expandCIDR,
pushing one rendered address per iteration. -/
def hostLoop (i lastIp : Nat) (allHosts : List String) : List String :=
  if i < lastIp then hostLoop (i + 1) lastIp (allHosts ++ [inet_ntop i]) else allHosts
termination_by lastIp - i

/-- The function expandCIDR of utils.cpp.  `maskBits` is the source's local
variable `notation`, which starts at 0 and keeps that value when the fifth
conversion does not happen. -/
def expandCIDR (networkNotation : String) : Except UtilException (List String) :=
  let vals := sscanf cidrFormat networkNotation.data
  if vals.length < 4 then Except.error ⟨"Provided with invalid IP"⟩
  else
    let firstByte := vals.getD 0 0
    let secondByte := vals.getD 1 0
    let thirdByte := vals.getD 2 0
    let fourthByte := vals.getD 3 0
    let maskBits := vals.getD 4 0
    if maskBits > 32 then Except.error ⟨"CIDR mask out of range"⟩
    else if maskBits = 32 ∨ maskBits = 0 then
      Except.ok [quadString firstByte secondByte thirdByte fourthByte]
    else
      let ip := ((firstByte <<< 24) ||| (secondByte <<< 16) ||| (thirdByte <<< 8) |||
        fourthByte) % 2 ^ 32
      let mask := ((0xFFFFFFFF <<< (32 - maskBits)) % 2 ^ 32) &&& 0xFFFFFFFF
      let firstIp := ip &&& mask
      let lastIp := firstIp ||| (0xFFFFFFFF - mask)
      Except.ok (hostLoop ((firstIp + 1) % 2 ^ 32) lastIp [])

/-- The text `da.db.dc.dd/dn` built from five digit strings. -/
def cidrText (da db dc dd dn : List Char) : String :=
  String.mk (da ++ '.' :: (db ++ '.' :: (dc ++ '.' :: (dd ++ '/' :: dn))))

/-- A non-empty string of decimal digits. -/
def IsDigits (ds : List Char) : Prop :=
  ds ≠ [] ∧ ∀ c ∈ ds, c.isDigit = true

instance (ds : List Char) : Decidable (IsDigits ds) := by
  unfold IsDigits; infer_instance

/-! ## utils.cpp : expandNetwork -/

/-- Matches one literal character and returns the rest of the input. -/
def expectChar (c : Char) : List Char → Option (List Char)
  | [] => none
  | x :: cs => if x = c then some cs else none

/-- The pattern piece `\d{lo,hi}` in a position where the next pattern piece
is not a digit: it matches exactly when the maximal run of digits has between
`lo` and `hi` characters, and leaves the rest of the input. -/
def digitRun (lo hi : Nat) (cs : List Char) : Option (List Char) :=
  if lo ≤ (scanDigits cs).1.length ∧ (scanDigits cs).1.length ≤ hi then some (scanDigits cs).2
  else none

/-- The test `std::regex_match` makes in expandNetwork, against the pattern
`^\d{1,3}(\.\d{1,3}){3}/\d{1,2}$`. -/
def regexMatchCIDR (hostString : String) : Bool :=
  (digitRun 1 3 hostString.data >>= expectChar '.' >>= digitRun 1 3 >>= expectChar '.'
    >>= digitRun 1 3 >>= expectChar '.' >>= digitRun 1 3 >>= expectChar '/'
    >>= digitRun 1 2) == some []

/-- One part of a dotted-decimal address as `inet_pton` reads it: one to three
digits, of value at most 255, and no leading zero before another digit. -/
def octetPart (cs : List Char) : Option (List Char) :=
  if 1 ≤ (scanDigits cs).1.length ∧ (scanDigits cs).1.length ≤ 3 ∧
      decVal (scanDigits cs).1 ≤ 255 ∧
      ((scanDigits cs).1.length = 1 ∨ (scanDigits cs).1.head? ≠ some '0')
  then some (scanDigits cs).2
  else none

/-- The test `inet_pton(AF_INET, hostString, &addr) == 1`, an operating-system
service: the text must be exactly four dotted-decimal parts. -/
def inet_pton (hostString : String) : Bool :=
  (octetPart hostString.data >>= expectChar '.' >>= octetPart >>= expectChar '.'
    >>= octetPart >>= expectChar '.' >>= octetPart) == some []

/-- The function expandNetwork of utils.cpp.  DNS resolution is an effect of
the surrounding monad; `resolveHostname` yields the empty string when nothing
resolves. -/
def expandNetwork {m : Type → Type} [Monad m] (resolveHostname : String → m String)
    (hostString : String) : m (Except UtilException (List String)) :=
  if inet_pton hostString then pure (Except.ok [hostString])
  else if regexMatchCIDR hostString then pure (expandCIDR hostString)
  else do
    let hostResult ← resolveHostname hostString
    if hostResult.length > 0 then pure (Except.ok [hostResult]) else pure (Except.ok [])

/-! ## ScanHandler.cpp : the ping sweep's host groups -/

/-- The sizing at the top of ScanHandler::pingSweep, as the pair
`(finalThreads, pingRange)`.  With fewer hosts than threads there is one group
holding every host; otherwise the group size is `ceil(hostCount / maxThreads)`,
an integer division that has no result when `maxThreads` is 0. -/
def pingSizing (hostCount maxThreads : Nat) : Option (Nat × Nat) :=
  if hostCount < maxThreads then some (1, hostCount)
  else if maxThreads = 0 then none
  else some (maxThreads, (hostCount + maxThreads - 1) / maxThreads)

/-- The statement `pingTargets.erase(std::remove(begin, end, host), end)`:
every element equal to `host` leaves the pool. -/
def eraseAll (pingTargets : List String) (host : String) : List String :=
  pingTargets.filter (fun x => x != host)

/-- The loop of pingSweep that builds one host group per thread.  `sample i
pool n` is what `std::sample` draws from `pool` in round `i` when asked for `n`
elements, `shuffle i l` the order `std::shuffle` leaves `l` in; the drawn hosts
are erased from the pool before the next round. -/
def pingGroupsLoop (sample : Nat → List String → Nat → List String)
    (shuffle : Nat → List String → List String) (pingRange : Nat) :
    Nat → Nat → List String → List (List String)
  | 0, _, _ => []
  | rounds + 1, i, pingTargets =>
    let threadHosts := sample i pingTargets pingRange
    let remaining := threadHosts.foldl eraseAll pingTargets
    shuffle i threadHosts :: pingGroupsLoop sample shuffle pingRange rounds (i + 1) remaining

/-- The host groups ScanHandler::pingSweep hands to its workers, in launch
order; `none` when the sizing divides by zero. -/
def pingSweepGroups (sample : Nat → List String → Nat → List String)
    (shuffle : Nat → List String → List String) (hostNames : List String)
    (maxThreads : Nat) : Option (List (List String)) :=
  match pingSizing hostNames.length maxThreads with
  | none => none
  | some (finalThreads, pingRange) =>
    some (pingGroupsLoop sample shuffle pingRange finalThreads 0 hostNames)

/-- What `std::sample` guarantees: the draw keeps the pool's order, takes its
elements from the pool without replacement, and has the requested size or the
whole pool when that is smaller. -/
def ValidSample (sample : Nat → List String → Nat → List String) : Prop :=
  ∀ i pool n, (sample i pool n).Sublist pool ∧ (sample i pool n).length = min n pool.length

/-- What `std::shuffle` guarantees: the result is a rearrangement of its input. -/
def ValidShuffle (shuffle : Nat → List String → List String) : Prop :=
  ∀ i l, (shuffle i l).Perm l

/-! ## ScanHandler.cpp : the TCP sweep -/

/-- The loop `for (i = 0; i < items.size(); ++i) buckets[i % finalThreads]
.push_back(items[i])`, started at index `i`. -/
def roundRobinLoop {α : Type} (finalThreads : Nat) :
    List α → Nat → List (List α) → List (List α)
  | [], _, buckets => buckets
  | x :: rest, i, buckets =>
    roundRobinLoop finalThreads rest (i + 1)
      (buckets.modify (fun b => b ++ [x]) (i % finalThreads))

/-- The buckets TCPSweep builds for hosts (`threadHosts`) and for ports
(`threadPorts`): `finalThreads` empty buckets filled round robin. -/
def roundRobin {α : Type} (finalThreads : Nat) (items : List α) : List (List α) :=
  roundRobinLoop finalThreads items 0 (List.replicate finalThreads [])

/-- The argument lists of the scanHosts calls TCPSweep launches, one pair
`(hosts, ports)` per worker in launch order.  With `maxThreads = 0` the
bucketing computes `i % 0` for the first item, which has no result. -/
def TCPSweepJobs (hostNames : List String) (targetPorts : List Int) (maxThreads : Nat) :
    Option (List (List String × List Int)) :=
  if maxThreads = 0 ∧ (hostNames ≠ [] ∨ targetPorts ≠ []) then none
  else
    let threadHosts := roundRobin maxThreads hostNames
    let threadPorts := roundRobin maxThreads targetPorts
    if hostNames.length > maxThreads ∧ targetPorts.length > maxThreads then
      some ((List.range maxThreads).map (fun i => (threadHosts.getD i [], threadPorts.getD i [])))
    else if hostNames.length > maxThreads ∧ targetPorts.length < maxThreads then
      some ((List.range maxThreads).map (fun i => (threadHosts.getD i [], targetPorts)))
    else if hostNames.length < maxThreads ∧ targetPorts.length > maxThreads then
      some ((List.range maxThreads).map (fun i => (hostNames, threadPorts.getD i [])))
    else
      some [(hostNames, targetPorts)]

/-- A port probe result: the class NetworkPort. -/
structure NetworkPort where
  portNumber : Int
  portStatus : Bool
  portReason : Int
deriving DecidableEq, Repr

/-- A host record as a worker returns it: the constructor
`NetworkNode(hostAddress, hostPorts)` stores the port list in `requestedPorts`
and leaves the other fields at their defaults. -/
structure NetworkNode where
  networkAddress : String
  requestedPorts : List NetworkPort := []
  portResults : List NetworkPort := []
  isActive : Bool := false
  macAddr : String := ""
deriving DecidableEq, Repr

/-- What one scan worker has done so far: how many times it has read the
monitor's enabled flag, the connect attempts it has made, in order, and what it
has added to the monitor's `portsDone`. -/
structure WorkerState where
  checks : Nat := 0
  probes : List (String × Int) := []
  portsDone : Nat := 0
deriving DecidableEq, Repr

/-- The function scanHost.  `scanPort host port` is the value the connect call
returns for that pair, `enabled n` the value of `threadsEnabled` this worker
reads at its check number `n`. -/
def scanHost (scanPort : String → Int → Int) (enabled : Nat → Bool) (targetHost : String) :
    List Int → WorkerState → List NetworkPort → NetworkNode × WorkerState
  | [], st, portResults => ({ networkAddress := targetHost, requestedPorts := portResults }, st)
  | port :: rest, st, portResults =>
    if !enabled st.checks then
      ({ networkAddress := targetHost, requestedPorts := portResults },
        { st with checks := st.checks + 1 })
    else
      let portRes := scanPort targetHost port
      scanHost scanPort enabled targetHost rest
        { st with checks := st.checks + 1, probes := st.probes ++ [(targetHost, port)] }
        (portResults ++ [{ portNumber := port, portStatus := portRes == 0, portReason := portRes }])

/-- The function scanHosts, one worker of the TCP sweep: the flag is read
before each host, a cleared flag returns the results gathered so far, and
`portsDone` grows by the port count once the host loop has run to its end. -/
def scanHosts (scanPort : String → Int → Int) (enabled : Nat → Bool) (targetPorts : List Int) :
    List String → WorkerState → List NetworkNode → List NetworkNode × WorkerState
  | [], st, hostResults =>
    (hostResults, { st with portsDone := st.portsDone + targetPorts.length })
  | host :: rest, st, hostResults =>
    if !enabled st.checks then (hostResults, { st with checks := st.checks + 1 })
    else
      let r := scanHost scanPort enabled host targetPorts { st with checks := st.checks + 1 } []
      scanHosts scanPort enabled targetPorts rest r.2 (hostResults ++ [r.1])

/-- The workers of one TCP sweep, run to completion: for each launched job its
result list and final worker state.  `enabled w n` is the flag value worker
`w` reads at its check number `n`. -/
def TCPSweepWorkers (scanPort : String → Int → Int) (enabled : Nat → Nat → Bool)
    (hostNames : List String) (targetPorts : List Int) (maxThreads : Nat) :
    Option (List (List NetworkNode × WorkerState)) :=
  (TCPSweepJobs hostNames targetPorts maxThreads).map (fun jobs =>
    jobs.enum.map (fun wj => scanHosts scanPort (enabled wj.1) wj.2.2 wj.2.1 {} []))

/-! ## ScanHandler.cpp : the ping probe -/

/-- The exception class of ScanHandler.cpp, carrying its message. -/
structure NetException where
  message : String
deriving DecidableEq, Repr

/-- The Windows error code `NO_ERROR`. -/
def NO_ERROR : Nat := 0

/-- The Windows error code `ERROR_NOT_SUPPORTED`. -/
def ERROR_NOT_SUPPORTED : Nat := 50

/-- The Windows error code `ERROR_BAD_NET_NAME`. -/
def ERROR_BAD_NET_NAME : Nat := 67

/-- The ICMP reply status `IP_SUCCESS`. -/
def IP_SUCCESS : Nat := 0

/-- The ICMP reply status `IP_DEST_HOST_UNREACHABLE`. -/
def IP_DEST_HOST_UNREACHABLE : Nat := 11003

/-- The constant ICMP_MAX_TRIES of ScanHandler.cpp. -/
def ICMP_MAX_TRIES : Nat := 3

/-- What one call of `SendARP` leaves behind: its return code and the
`macAddrLen` address bytes it wrote. -/
structure ArpReply where
  retVal : Nat
  mac : List Nat
deriving DecidableEq, Repr

/-- One upper-case hexadecimal digit. -/
def hexDigitUpper (n : Nat) : Char :=
  if n < 10 then Char.ofNat (48 + n) else Char.ofNat (55 + n)

/-- The text `std::format("{:02X}", b)` of one byte. -/
def formatByte (b : Nat) : String :=
  String.mk [hexDigitUpper (b / 16 % 16), hexDigitUpper (b % 16)]

/-- The function ARPHost: the MAC address as dash-separated hexadecimal bytes,
the empty string when nothing resolved, and a NetException for the two return
codes the source singles out. -/
def ARPHost (sendARP : String → ArpReply) (targetHost : String) : Except NetException String :=
  if !inet_pton targetHost then
    Except.error ⟨"Failed to convert address: " ++ targetHost⟩
  else if (sendARP targetHost).retVal = NO_ERROR then
    if (sendARP targetHost).mac.length = 0 then Except.ok ""
    else Except.ok (String.intercalate "-" ((sendARP targetHost).mac.map formatByte))
  else if (sendARP targetHost).retVal = ERROR_BAD_NET_NAME then
    Except.error ⟨"ARP target could not be resolved"⟩
  else if (sendARP targetHost).retVal = ERROR_NOT_SUPPORTED then
    Except.error ⟨"ARP is not supported on this device"⟩
  else Except.ok ""

/-- What one call of `IcmpSendEcho` yields: no reply (a reply count of 0), or
a reply carrying a status code. -/
inductive EchoOutcome where
  | noReply : EchoOutcome
  | reply : Nat → EchoOutcome
deriving DecidableEq, Repr

/-- How a ping probe ends: the number of echo requests it sent, and either the
exception it raised or its return value together with the `macAddr` it
assigned (empty when it assigned none). -/
structure PingOutcome where
  attempts : Nat
  result : Except NetException (Bool × String)

/-- The retry loop `while (currentAttempts < ICMP_MAX_TRIES)` of pingHost;
`echo n` is the outcome of the echo request sent when `currentAttempts` is
`n`. -/
def pingLoop (echo : Nat → EchoOutcome) (sendARP : String → ArpReply) (targetHost : String)
    (currentAttempts : Nat) : PingOutcome :=
  if currentAttempts < ICMP_MAX_TRIES then
    match echo currentAttempts with
    | EchoOutcome.reply status =>
      if status = IP_SUCCESS then
        match ARPHost sendARP targetHost with
        | Except.ok macAddr => ⟨currentAttempts + 1, Except.ok (true, macAddr)⟩
        | Except.error e => ⟨currentAttempts + 1, Except.error e⟩
      else if status = IP_DEST_HOST_UNREACHABLE then
        ⟨currentAttempts + 1, Except.ok (false, "")⟩
      else ⟨currentAttempts + 1, Except.ok (false, "")⟩
    | EchoOutcome.noReply => pingLoop echo sendARP targetHost (currentAttempts + 1)
  else ⟨currentAttempts, Except.ok (false, "")⟩
termination_by ICMP_MAX_TRIES - currentAttempts

/-- The function pingHost.  An address `inet_pton` rejects raises; the address
`255.255.255.255`, the only text whose value is `INADDR_NONE`, is reported
unreachable without any echo request; every other address enters the retry
loop.  (A failing `malloc` is left out.) -/
def pingHost (echo : Nat → EchoOutcome) (sendARP : String → ArpReply) (targetHost : String) :
    PingOutcome :=
  if !inet_pton targetHost then
    ⟨0, Except.error ⟨"Failed to convert address: " ++ targetHost⟩⟩
  else if targetHost = "255.255.255.255" then ⟨0, Except.ok (false, "")⟩
  else pingLoop echo sendARP targetHost 0

/-! ## ScanHandler.cpp : the ping worker and the ping aggregation -/

/-- What a worker does, in the order it does it: a read of the monitor's
`threadsEnabled` with the value read, a call of pingHost, a call of
scanPort. -/
inductive WorkerEvent where
  | check : Bool → WorkerEvent
  | ping : String → WorkerEvent
  | connect : String → Int → WorkerEvent
deriving DecidableEq, Repr

/-- The struct tempResult: one ping result as a worker returns it. -/
structure tempResult where
  hostAddress : String
  hostStatus : Bool := false
  macAddr : String := ""
deriving DecidableEq, Repr

/-- What one ping worker has done so far: how many times it has read the
enabled flag, its events in order, and what it has added to the monitor's
`hostsDone`. -/
structure PingWorkerState where
  checks : Nat := 0
  events : List WorkerEvent := []
  hostsDone : Nat := 0
deriving DecidableEq, Repr

/-- The function pingHosts, one worker of the ping sweep.  `echo host n` is
the outcome of echo request number `n` to `host`, `enabled n` the flag value
the worker reads at its check number `n`; an exception of pingHost ends the
worker. -/
def pingHosts (echo : String → Nat → EchoOutcome) (sendARP : String → ArpReply)
    (enabled : Nat → Bool) :
    List String → PingWorkerState → List tempResult →
      Except NetException (List tempResult) × PingWorkerState
  | [], st, pingResults => (Except.ok pingResults, st)
  | host :: rest, st, pingResults =>
    if enabled st.checks then
      match (pingHost (echo host) sendARP host).result with
      | Except.error e =>
        (Except.error e,
          { st with checks := st.checks + 1,
                    events := st.events ++ [WorkerEvent.check true, WorkerEvent.ping host] })
      | Except.ok (pingResult, macAddr) =>
        pingHosts echo sendARP enabled rest
          { checks := st.checks + 1,
            events := st.events ++ [WorkerEvent.check true, WorkerEvent.ping host],
            hostsDone := st.hostsDone + 1 }
          (pingResults ++
            [{ hostAddress := host, hostStatus := pingResult, macAddr := macAddr }])
    else
      (Except.ok pingResults,
        { st with checks := st.checks + 1, events := st.events ++ [WorkerEvent.check false] })

/-- The host records the constructor of ScanHandler builds: one per target
address, not active, with the requested ports as closed ports of reason 0. -/
def initTargetHosts (targetAddresses : List String) (targetPorts : List Int) :
    List NetworkNode :=
  targetAddresses.map (fun hostAddress =>
    { networkAddress := hostAddress,
      isActive := false,
      requestedPorts := targetPorts.map (fun p =>
        { portNumber := p, portStatus := false, portReason := 0 }) })

/-- The inner loop of the ping aggregation for one result: every host record
with the result's address is set active and receives the result's MAC. -/
def mergePingResult (targetHosts : List NetworkNode) (r : tempResult) : List NetworkNode :=
  targetHosts.map (fun testedHost =>
    if testedHost.networkAddress = r.hostAddress then
      { testedHost with isActive := true, macAddr := r.macAddr }
    else testedHost)

/-- The aggregation loops of ScanHandler::pingSweep over the workers' result
lists: the host records after all merges, and the final `pingCount`.  (The
joins of the console thread are not part of this function.) -/
def pingAggregate (targetHosts : List NetworkNode) (futureResults : List (List tempResult)) :
    List NetworkNode × Nat :=
  futureResults.foldl (fun acc futureResult =>
    futureResult.foldl (fun a r => (mergePingResult a.1 r, a.2 + 1)) acc) (targetHosts, 0)

/-! ## ScanHandler.cpp : the TCP sweep's events, merge and queries -/

/-- The events of scanHost in order, with the number of flag reads made once
it returns; `checks` is the number of reads made before it starts. -/
def scanHostEvents (enabled : Nat → Bool) (targetHost : String) :
    List Int → Nat → List WorkerEvent × Nat
  | [], checks => ([], checks)
  | port :: rest, checks =>
    if !enabled checks then ([WorkerEvent.check false], checks + 1)
    else
      (WorkerEvent.check true :: WorkerEvent.connect targetHost port ::
          (scanHostEvents enabled targetHost rest (checks + 1)).1,
        (scanHostEvents enabled targetHost rest (checks + 1)).2)

/-- The events of scanHosts in order; `checks` is the number of flag reads
made before it starts. -/
def scanHostsEvents (enabled : Nat → Bool) (targetPorts : List Int) :
    List String → Nat → List WorkerEvent
  | [], _ => []
  | host :: rest, checks =>
    if !enabled checks then [WorkerEvent.check false]
    else
      WorkerEvent.check true ::
        ((scanHostEvents enabled host targetPorts (checks + 1)).1 ++
          scanHostsEvents enabled targetPorts rest
            (scanHostEvents enabled host targetPorts (checks + 1)).2)

/-- The connect attempt an event stands for, if it is one. -/
def WorkerEvent.probe? : WorkerEvent → Option (String × Int)
  | WorkerEvent.connect host port => some (host, port)
  | _ => none

/-- The body of the TCP aggregation's inner loop: a host record with the
returned node's address receives the node's port results after its own and is
set active; any other record is left as it is. -/
def mergeNode (testedNode targetHost : NetworkNode) : NetworkNode :=
  if testedNode.networkAddress = targetHost.networkAddress then
    { targetHost with
        portResults := targetHost.portResults ++ testedNode.requestedPorts,
        isActive := true }
  else targetHost

/-- The inner loop of the TCP aggregation for one returned node, over all
host records. -/
def mergeScanResult (targetHosts : List NetworkNode) (testedNode : NetworkNode) :
    List NetworkNode :=
  targetHosts.map (mergeNode testedNode)

/-- The port result scanHost records for one connect attempt: open exactly
when the connect call returned 0, with that return value as the reason. -/
def probeResult (scanPort : String → Int → Int) (host : String) (port : Int) : NetworkPort :=
  { portNumber := port, portStatus := scanPort host port == 0, portReason := scanPort host port }

/-- The node scanHost returns for a host when no check reads a cleared flag:
one port result per target port, in order. -/
def resultNode (scanPort : String → Int → Int) (targetPorts : List Int) (host : String) :
    NetworkNode :=
  { networkAddress := host, requestedPorts := targetPorts.map (probeResult scanPort host) }

/-- The function ScanHandler::TCPSweep on the session's host records: the
workers run, then their results are merged worker by worker and node by
node. -/
def TCPSweep (scanPort : String → Int → Int) (enabled : Nat → Nat → Bool)
    (targetHosts : List NetworkNode) (hostNames : List String) (targetPorts : List Int)
    (maxThreads : Nat) : Option (List NetworkNode) :=
  (TCPSweepWorkers scanPort enabled hostNames targetPorts maxThreads).map (fun workers =>
    workers.foldl (fun hosts w => w.1.foldl mergeScanResult hosts) targetHosts)

/-- The port results a worker returns, host by host in the order returned,
each paired with the address of its node. -/
def workerPortResults (nodes : List NetworkNode) : List (String × NetworkPort) :=
  nodes.flatMap (fun n => n.requestedPorts.map (fun port => (n.networkAddress, port)))

/-- The function NetworkNode::getActivePorts: the loop that keeps the port
results whose status is open. -/
def getActivePorts (node : NetworkNode) : List NetworkPort :=
  node.portResults.foldl
    (fun activePorts port => if port.portStatus then activePorts ++ [port] else activePorts) []

/-- The list ScanHandler::printResults shows for a host outside verbose mode:
the active ports after `std::sort`, which orders them by port number (the
order among equal port numbers is the sort's choice). -/
def printedActivePorts (node : NetworkNode) : List NetworkPort :=
  (getActivePorts node).insertionSort (fun a b => a.portNumber ≤ b.portNumber)


/-! ## ScanHandler.cpp and NetHandler.cpp : what a connect attempt records -/

/-- The value `connect` returns when it fails. -/
def SOCKET_ERROR : Int := -1

/-- What one connect call leaves behind: the value it returned, and the error
code `WSAGetLastError` reports after it. -/
structure ConnectOutcome where
  connectionResult : Int
  lastError : Int
deriving DecidableEq, Repr

/-- The function scanPort of ScanHandler.cpp on the path where the address
resolves and the socket is created: its result is the value `connect`
returned.  `connect host port` is the outcome of the connect call for that
pair. -/
def scanPort (connect : String → Int → ConnectOutcome) (targetHost : String)
    (targetPort : Int) : Int :=
  (connect targetHost targetPort).connectionResult

/-- The class PortResult of NetHandler.h with its default member values. -/
structure PortResult where
  portNumber : Int := 0
  portOpen : Bool := false
  closeReason : Int := 0
deriving DecidableEq, Repr

/-- The function portScan of NetHandler.cpp on the path where every address
resolves and every socket is created.  `stopFlag n` is the value of the stop
flag at the worker's read number `n`; the progress counter is left out.
`resultFreed` tells whether the pointer `result` holds a list that was freed
already: it is null before the first iteration, and every iteration that runs
to its end frees the list it resolved and leaves the pointer on it.  A set
stop flag returns the results gathered so far.  When the loop runs to its end
`freeaddrinfo(result)` is called once more: on the null pointer it frees
nothing, on a freed list it frees it a second time, which is undefined and is
the result `none`. -/
def portScan (connect : String → Int → ConnectOutcome) (stopFlag : Nat → Bool)
    (targetHost : String) : List Int → Nat → Bool → List PortResult → Option (List PortResult)
  | [], _, resultFreed, portResults => if resultFreed then none else some portResults
  | targetPort :: rest, reads, _, portResults =>
    if stopFlag reads then some portResults
    else
      let c := connect targetHost targetPort
      let portRes : PortResult :=
        if c.connectionResult = SOCKET_ERROR then
          { portNumber := targetPort, closeReason := c.lastError, portOpen := false }
        else { portNumber := targetPort, portOpen := true }
      portScan connect stopFlag targetHost rest (reads + 1) true (portResults ++ [portRes])

/-! ## ScanHandler.cpp : service names -/

/-- The function NetworkPort::getExpectedService.  `serviceMap n` is the name
the map holds under key `n`, if it holds one; `std::map::at` throws for a
missing key and the handler returns the label for that case. -/
def getExpectedService (netPort : NetworkPort) (serviceMap : Int → Option String) : String :=
  match serviceMap netPort.portNumber with
  | some serviceName => if serviceName.length = 0 then "unkown" else serviceName
  | none => "unknown"

/-! ## ScanHandler.cpp : the ping aggregation and the console thread -/

/-- The console thread as the aggregation of pingSweep sees it: whether it is
joinable, and how many joins have completed. -/
structure ConsoleThread where
  joinable : Bool := true
  joins : Nat := 0
deriving DecidableEq, Repr

/-- The call `std::thread::join`: a joinable thread is joined and is not
joinable afterwards; on a thread that is not joinable the call throws
`std::system_error`, which is the result `none`. -/
def ConsoleThread.join (consoleThread : ConsoleThread) : Option ConsoleThread :=
  if consoleThread.joinable then some { joinable := false, joins := consoleThread.joins + 1 }
  else none

/-- The aggregation loop of ScanHandler::pingSweep as far as `pingCount` and
the console thread go: each worker's results are counted, the thread is joined
after every worker at which `pingCount == hostCount` holds, and after the loop
it is joined if it is still joinable.  The result is `none` when a join
throws. -/
def pingSweepJoins (hostCount : Nat) :
    List (List tempResult) → Nat → ConsoleThread → Option ConsoleThread
  | [], _, consoleThread =>
    if consoleThread.joinable then consoleThread.join else some consoleThread
  | futureResult :: rest, pingCount, consoleThread =>
    if pingCount + futureResult.length = hostCount then
      match consoleThread.join with
      | none => none
      | some joined => pingSweepJoins hostCount rest (pingCount + futureResult.length) joined
    else pingSweepJoins hostCount rest (pingCount + futureResult.length) consoleThread

/-! ## Validators.cpp : the validators of command-line values -/

/-- The exceptions `std::stoi` throws. -/
inductive StoiException where
  | invalid_argument : StoiException
  | out_of_range : StoiException
deriving DecidableEq, Repr

/-- The classification `isspace` of the C locale: the space and the characters
9 to 13. -/
def isspace (c : Char) : Bool :=
  c.toNat = 32 || (9 ≤ c.toNat && c.toNat ≤ 13)

/-- The function `std::stoi` in base 10 for a 32-bit `int`: leading white
space is skipped, one sign is accepted, the longest run of digits is
converted and what follows it is ignored; without a digit the call throws
`invalid_argument`, with a value outside the `int` range `out_of_range`. -/
def stoi (str : String) : Except StoiException Int :=
  let cs := str.data.dropWhile isspace
  let body := if cs.head? = some '-' ∨ cs.head? = some '+' then cs.tail else cs
  let digits := (scanDigits body).1
  if digits = [] then Except.error StoiException.invalid_argument
  else
    let value : Int := if cs.head? = some '-' then -(decVal digits : Int) else (decVal digits : Int)
    if value < -2147483648 ∨ 2147483647 < value then Except.error StoiException.out_of_range
    else Except.ok value

/-- The struct validationResult: an outcome with its message. -/
structure validationResult where
  outcome : Bool
  outcomeMessage : String
deriving DecidableEq, Repr

/-- The variant `CLIArg::ArgValue`.  Its `double` alternative, which the
program never builds, is left out. -/
inductive ArgValue where
  | int : Int → ArgValue
  | string : String → ArgValue
  | bool : Bool → ArgValue
  | intVector : List Int → ArgValue
deriving DecidableEq, Repr

/-- The ways a call of the command-line code ends without a result: a thrown
`std::invalid_argument` (the class ArgException derives from it) with its
message, `std::bad_variant_access`, `std::bad_function_call`, or behaviour the
language leaves undefined. -/
inductive CLIFailure where
  | invalidArgument : String → CLIFailure
  | badVariantAccess : CLIFailure
  | badFunctionCall : CLIFailure
  | undefinedBehaviour : CLIFailure
deriving DecidableEq, Repr

/-- The constant PORT_LIMIT. -/
def PORT_LIMIT : Int := 65355

/-- The constant HOST_LEN_MAX. -/
def HOST_LEN_MAX : Nat := 253

/-- The constant MAX_THREADS. -/
def MAX_THREADS : Int := 1024

/-- The constant MAX_DELAY. -/
def MAX_DELAY : Int := 50000

/-- The constant MIN_DELAY. -/
def MIN_DELAY : Int := 30

/-- The function validatePort.  `std::get<std::string>` throws
`bad_variant_access` outside the try block when the value is not a string;
every exception of `std::stoi` is caught. -/
def validatePort (portValue : ArgValue) : Except CLIFailure validationResult :=
  match portValue with
  | ArgValue.string portValueString =>
    match stoi portValueString with
    | Except.ok port =>
      if port > PORT_LIMIT ∨ port ≤ 0 then
        Except.ok { outcome := false,
                    outcomeMessage :=
                      "Provided port: " ++ portValueString ++ " outside of valid range\n" }
      else Except.ok { outcome := true, outcomeMessage := "" }
    | Except.error _ =>
      Except.ok { outcome := false,
                  outcomeMessage := "Provided port: " ++ portValueString ++ " not valid\n" }
  | _ => Except.error CLIFailure.badVariantAccess

/-- The bytes of a text as the values 0 to 255: the UTF-8 encoding in which
the text reaches the program. -/
def bytes (str : String) : List Nat :=
  (str.data.flatMap String.utf8EncodeChar).map UInt8.toNat

/-- The value `std::string::size()` of a text: its number of bytes. -/
def byteSize (str : String) : Nat :=
  str.utf8ByteSize

/-- The test `std::isalpha` of the C locale on a byte. -/
def isalpha (c : Nat) : Bool :=
  (65 ≤ c && c ≤ 90) || (97 ≤ c && c ≤ 122)

/-- The function validateTarget.  The length test counts bytes; `front()` and
`back()` on an empty string are undefined, and on any other string the first
or last byte is a hyphen exactly when the first or last character is one; the
loop over the bytes has an `if` with an empty body, so it runs to its end
without an effect, whatever the test yields, and the function returns true. -/
def validateTarget (hostValue : ArgValue) : Except CLIFailure validationResult :=
  match hostValue with
  | ArgValue.string hostValueString =>
    if byteSize hostValueString > HOST_LEN_MAX then
      Except.ok { outcome := false,
                  outcomeMessage := "Provided target: \x27" ++ hostValueString ++
                    "\x27 exceeds host length maximum\n" }
    else
      match hostValueString.data.head?, hostValueString.data.getLast? with
      | some front, some back =>
        if front = '-' ∨ back = '-' then
          Except.ok { outcome := false,
                      outcomeMessage := "Provided target: \x27" ++ hostValueString ++
                        "\x27 has hyphens at end or start\n" }
        else
          match (bytes hostValueString).foldl
            (fun (u : Unit) c =>
              if !isalpha c && c != ('-').toNat && c != ('.').toNat then u else u) () with
          | () => Except.ok { outcome := true, outcomeMessage := "" }
      | _, _ => Except.error CLIFailure.undefinedBehaviour
  | _ => Except.error CLIFailure.badVariantAccess

/-- The function validateThreads. -/
def validateThreads (threadsValue : ArgValue) : Except CLIFailure validationResult :=
  match threadsValue with
  | ArgValue.string threadsString =>
    match stoi threadsString with
    | Except.ok requestedThreads =>
      if requestedThreads > MAX_THREADS ∨ requestedThreads ≤ 0 then
        Except.ok { outcome := false,
                    outcomeMessage := "Requested threads : \x27" ++ toString requestedThreads ++
                      "\x27 out of range\n" }
      else Except.ok { outcome := true, outcomeMessage := "" }
    | Except.error _ =>
      Except.ok { outcome := false,
                  outcomeMessage := "Provided thread request: \x27" ++ threadsString ++
                    "\x27 not valid\n" }
  | _ => Except.error CLIFailure.badVariantAccess

/-- The function validateDelay. -/
def validateDelay (delayValue : ArgValue) : Except CLIFailure validationResult :=
  match delayValue with
  | ArgValue.string delayString =>
    match stoi delayString with
    | Except.ok requestedDelay =>
      if requestedDelay > MAX_DELAY ∨ requestedDelay < MIN_DELAY then
        Except.ok { outcome := false,
                    outcomeMessage := "Requested delay \x27" ++ toString requestedDelay ++
                      "\x27 is out of range\n" }
      else Except.ok { outcome := true, outcomeMessage := "" }
    | Except.error _ =>
      Except.ok { outcome := false,
                  outcomeMessage := "Requested delay \x27" ++ delayString ++
                    "\x27 is not valid\n" }
  | _ => Except.error CLIFailure.badVariantAccess

/-! ## CLIHandler.cpp : command-line arguments -/

/-- The function setTrueValidator. -/
def setTrueValidator (_testVal : ArgValue) : Except CLIFailure validationResult :=
  Except.ok { outcome := true, outcomeMessage := "" }

/-- The class CLIArg with its default member values; `validator` is `none`
for an empty `std::function`. -/
structure CLIArg where
  value : ArgValue := ArgValue.int 0
  validator : Option (ArgValue → Except CLIFailure validationResult) := none
  longFlag : String := ""
  shortFlag : Char := Char.ofNat 0
  isRequired : Bool := false
  isValueNeeded : Bool := false
  isDefaultable : Bool := false
  isVector : Bool := false
  isHelp : Bool := false

/-- The character `longFlag[0]`, which is the terminating zero for an empty
string. -/
def firstChar (longFlag : String) : Char :=
  longFlag.data.headD (Char.ofNat 0)

/-- The constructor of an argument with a validator and an `int` default. -/
def CLIArg.withIntDefault (longFlag : String) (isRequired : Bool)
    (validator : ArgValue → Except CLIFailure validationResult) (defaultValue : Int) : CLIArg :=
  { longFlag := longFlag, shortFlag := firstChar longFlag, isRequired := isRequired,
    isValueNeeded := true, value := ArgValue.int defaultValue, validator := some validator,
    isDefaultable := true }

/-- The constructor of an argument with a validator and a vector default. -/
def CLIArg.withVectorDefault (longFlag : String) (isRequired : Bool)
    (validator : ArgValue → Except CLIFailure validationResult) (defaultValue : List Int) :
    CLIArg :=
  { longFlag := longFlag, shortFlag := firstChar longFlag, isRequired := isRequired,
    isValueNeeded := true, value := ArgValue.intVector defaultValue,
    validator := some validator, isDefaultable := true, isVector := true }

/-- The constructor of an argument with a validator and no default. -/
def CLIArg.withValidator (longFlag : String) (isRequired : Bool)
    (validator : ArgValue → Except CLIFailure validationResult) : CLIArg :=
  { longFlag := longFlag, shortFlag := firstChar longFlag, isRequired := isRequired,
    validator := some validator, isValueNeeded := true }

/-- The constructor of a help flag; it does not store `isRequired`. -/
def CLIArg.helpFlag (longFlag : String) (_isRequired : Bool) (_isHelp : Int) : CLIArg :=
  { longFlag := longFlag, shortFlag := firstChar longFlag, isHelp := true,
    validator := some setTrueValidator }

/-- The constructor of an argument without a value. -/
def CLIArg.basic (longFlag : String) (isRequired : Bool) : CLIArg :=
  { longFlag := longFlag, shortFlag := firstChar longFlag,
    validator := some setTrueValidator, isRequired := isRequired }

/-- The template CLIArg::setValue: the validator runs on the value, a false
outcome throws `std::invalid_argument` with the outcome's message, otherwise
the value is stored. -/
def CLIArg.setValue (arg : CLIArg) (val : ArgValue) : Except CLIFailure CLIArg :=
  match arg.validator with
  | none => Except.error CLIFailure.badFunctionCall
  | some validator =>
    match validator val with
    | Except.error e => Except.error e
    | Except.ok validateResult =>
      if !validateResult.outcome then
        Except.error (CLIFailure.invalidArgument validateResult.outcomeMessage)
      else Except.ok { arg with value := val }

/-- The struct RequiredArgTracker. -/
structure RequiredArgTracker where
  name : String
  isPresent : Bool := false
deriving DecidableEq, Repr

/-- The member variables of the class CLIHandler. -/
structure CLIHandler where
  definedArgs : List CLIArg
  handledArgs : List CLIArg := []
  argTracker : List RequiredArgTracker := []

/-- The constructor of CLIHandler: one tracker entry per required argument. -/
def newCLIHandler (desiredArgs : List CLIArg) : CLIHandler :=
  { definedArgs := desiredArgs,
    argTracker := (desiredArgs.filter (fun arg => arg.isRequired)).map
      (fun arg => { name := arg.longFlag, isPresent := false }) }

/-- The function CLIHandler::getDefinedArg: the flag found and the new content
of the buffer behind `argBuffer`.  A token that starts with a hyphen and does
not convert to a number loses one hyphen, and a second one when more than one
byte is left; the first defined argument whose short flag matches a name of
one byte, or whose long flag equals a longer name, is copied into the
buffer. -/
def getDefinedArg (definedArgs : List CLIArg) (longFlag : String) (argBuffer : CLIArg) :
    Except CLIFailure (Bool × CLIArg) :=
  match longFlag.data with
  | '-' :: erased =>
    match stoi longFlag with
    | Except.ok _ => Except.ok (false, argBuffer)
    | Except.error _ =>
      let name :=
        if byteSize (String.mk erased) > 1 ∧ erased.head? = some '-' then erased.tail else erased
      match definedArgs.find? (fun possibleArg =>
          (byteSize (String.mk name) == 1 &&
            name.headD (Char.ofNat 0) == possibleArg.shortFlag) ||
          (decide (byteSize (String.mk name) > 1) &&
            String.mk name == possibleArg.longFlag)) with
      | some possibleArg => Except.ok (true, possibleArg)
      | none =>
        Except.error (CLIFailure.invalidArgument
          ("Argument: " ++ String.mk name ++ " not supported"))
  | _ => Except.ok (false, argBuffer)

/-- The function CLIHandler::getHandledArg: the handled arguments with the
given long flag, or, when there is none, the defined argument of that flag if
it has a default. -/
def getHandledArg (handler : CLIHandler) (longFlag : String) : List CLIArg :=
  let selectedArgs := handler.handledArgs.filter (fun argument => argument.longFlag == longFlag)
  if selectedArgs.length = 0 then
    match handler.definedArgs.find? (fun definedArg =>
        definedArg.longFlag == longFlag && definedArg.isDefaultable) with
    | some definedArg => selectedArgs ++ [definedArg]
    | none => selectedArgs
  else selectedArgs

/-- The loop of CLIHandler::parseArgs over the raw tokens, with the local
`argBuffer` and the handler's member variables as state. -/
def parseLoop : List String → CLIArg → CLIHandler → Except CLIFailure CLIHandler
  | [], _, handler => Except.ok handler
  | argString :: rest, argBuffer, handler =>
    match getDefinedArg handler.definedArgs argString argBuffer with
    | Except.error e => Except.error e
    | Except.ok (argExpected, argBuffer) =>
      let stored : Except CLIFailure (CLIArg × List CLIArg) :=
        if !argExpected && argBuffer.isValueNeeded then
          (argBuffer.setValue (ArgValue.string argString)).map
            (fun updated => (updated, handler.handledArgs ++ [updated]))
        else if argExpected && !argBuffer.isValueNeeded then
          (argBuffer.setValue (ArgValue.bool true)).map
            (fun updated => (updated, handler.handledArgs ++ [updated]))
        else Except.ok (argBuffer, handler.handledArgs)
      match stored with
      | Except.error e => Except.error e
      | Except.ok (argBuffer, handledArgs) =>
        parseLoop rest argBuffer
          { handler with
              handledArgs := handledArgs,
              argTracker :=
                if argBuffer.isRequired then
                  handler.argTracker.map (fun t =>
                    if argBuffer.longFlag = t.name then { t with isPresent := true } else t)
                else handler.argTracker }

/-- The function CLIHandler::parseArgs on the tokens after the program name:
its return value and the handler afterwards.  A handled help flag returns
false; otherwise the first required argument not marked present throws. -/
def parseArgs (handler : CLIHandler) (rawArgs : List String) :
    Except CLIFailure (Bool × CLIHandler) :=
  match parseLoop rawArgs {} handler with
  | Except.error e => Except.error e
  | Except.ok parsed =>
    if (getHandledArg parsed "help").length > 0 then Except.ok (false, parsed)
    else
      match parsed.argTracker.find? (fun t => !t.isPresent) with
      | some t =>
        Except.error (CLIFailure.invalidArgument
          ("Missing argument: (" ++ t.name ++ ") is required!"))
      | none => Except.ok (true, parsed)

/-! ## NetMap.cpp : the arguments of the program -/

/-- The function argSetup; the default ports and the default thread count come
from the service list and the hardware. -/
def argSetup (defaultPorts : List Int) (defaultThreads : Int) : List CLIArg :=
  [CLIArg.helpFlag "help" false 1,
   CLIArg.basic "verbose" false,
   CLIArg.basic "fast-mode" false,
   CLIArg.withValidator "target" true validateTarget,
   CLIArg.withVectorDefault "port" false validatePort defaultPorts,
   CLIArg.withIntDefault "net-threads" false validateThreads defaultThreads,
   CLIArg.withIntDefault "delay" false validateDelay 0]

/-! ## ScanHandler.cpp : the session of the TCP sweep -/

/-- The member variables of the class ScanHandler that the sweeps read or
write: the host records, the host names and the thread count. -/
structure ScanHandler where
  targetHosts : List NetworkNode
  hostNames : List String
  maxThreads : Nat
deriving DecidableEq, Repr

/-- The constructor of ScanHandler: the addresses become the host names, and
one host record is built per address. -/
def newScanHandler (targetAddresses : List String) (targetPorts : List Int)
    (maxThreads : Nat) : ScanHandler :=
  { maxThreads := maxThreads,
    hostNames := targetAddresses,
    targetHosts := initTargetHosts targetAddresses targetPorts }

/-- The method ScanHandler::TCPSweep on a session: the session afterwards, and
the connect attempts of each worker in order.  The buckets and the jobs are
built from the member `hostNames` and the thread count; the results are merged
into the host records. -/
def ScanHandler.TCPSweep (scanPort : String → Int → Int) (enabled : Nat → Nat → Bool)
    (session : ScanHandler) (targetPorts : List Int) :
    Option (ScanHandler × List (List (String × Int))) :=
  (TCPSweepWorkers scanPort enabled session.hostNames targetPorts session.maxThreads).map
    (fun workers =>
      ({ session with
           targetHosts :=
             workers.foldl (fun hosts w => w.1.foldl mergeScanResult hosts) session.targetHosts },
        workers.map (fun w => w.2.probes)))

/-! # Properties -/

/-! ### Facts about the scanner -/

theorem scanDigits_append (ds : List Char) (x : Char) (rest : List Char)
    (hds : ∀ c ∈ ds, c.isDigit = true) (hx : x.isDigit = false) :
    scanDigits (ds ++ x :: rest) = (ds, x :: rest) := by
  induction ds with
  | nil => simp [scanDigits, hx]
  | cons c cs ih =>
    have hc : c.isDigit = true := hds c (List.mem_cons_self _ _)
    have ih2 := ih (fun y hy => hds y (List.mem_cons_of_mem _ hy))
    simp [scanDigits, hc, ih2]

theorem scanDigits_all (ds : List Char) (hds : ∀ c ∈ ds, c.isDigit = true) :
    scanDigits ds = (ds, []) := by
  induction ds with
  | nil => simp [scanDigits]
  | cons c cs ih =>
    have hc : c.isDigit = true := hds c (List.mem_cons_self _ _)
    have ih2 := ih (fun y hy => hds y (List.mem_cons_of_mem _ hy))
    simp [scanDigits, hc, ih2]

theorem scanU8_append (ds : List Char) (x : Char) (rest : List Char)
    (hds : IsDigits ds) (hx : x.isDigit = false) :
    scanU8 (ds ++ x :: rest) = some (decVal ds % 256, x :: rest) := by
  simp [scanU8, scanDigits_append ds x rest hds.2 hx, hds.1]

theorem scanU8_all (ds : List Char) (hds : IsDigits ds) :
    scanU8 ds = some (decVal ds % 256, []) := by
  simp [scanU8, scanDigits_all ds hds.2, hds.1]

set_option maxRecDepth 1000000 in
/-- The ordinary decimal text of an octet is a digit string with the octet as
its value, so the digit strings of the statements below include every address
written the usual way. -/
theorem canonical_octet_text :
    ∀ n < 256, IsDigits (toString n).data ∧ decVal (toString n).data = n := by
  decide

theorem sscanf_cidrText (da db dc dd dn : List Char)
    (ha : IsDigits da) (hb : IsDigits db) (hc : IsDigits dc) (hd : IsDigits dd)
    (hn : IsDigits dn) :
    sscanf cidrFormat (cidrText da db dc dd dn).data =
      [decVal da % 256, decVal db % 256, decVal dc % 256, decVal dd % 256, decVal dn % 256] := by
  have hdot : ('.' : Char).isDigit = false := by decide
  have hsl : ('/' : Char).isDigit = false := by decide
  simp only [cidrText, cidrFormat, sscanf]
  rw [scanU8_append da '.' _ ha hdot]
  simp only [sscanf]
  rw [scanU8_append db '.' _ hb hdot]
  simp only [sscanf]
  rw [scanU8_append dc '.' _ hc hdot]
  simp only [sscanf]
  rw [scanU8_append dd '/' _ hd hsl]
  simp only [sscanf]
  rw [scanU8_all dn hn]
  simp [sscanf]

theorem hostLoop_eq (i lastIp : Nat) (acc : List String) :
    hostLoop i lastIp acc = acc ++ (List.range' i (lastIp - i)).map inet_ntop := by
  generalize h : lastIp - i = k
  induction k generalizing i acc with
  | zero =>
    rw [hostLoop]
    have : ¬ i < lastIp := by omega
    simp [this]
  | succ k ih =>
    rw [hostLoop]
    have hlt : i < lastIp := by omega
    simp only [hlt, if_true]
    rw [ih (i + 1) _ (by omega)]
    simp [List.range'_succ]

/-! ### Facts about the address arithmetic -/

theorem ip_or_eq_add (a b c d : Nat) (hb : b < 256) (hc : c < 256) (hd : d < 256) :
    (a <<< 24) ||| (b <<< 16) ||| (c <<< 8) ||| d = a * 2 ^ 24 + b * 2 ^ 16 + c * 2 ^ 8 + d := by
  simp only [Nat.shiftLeft_eq]
  have h1 : a * 2 ^ 24 ||| b * 2 ^ 16 = a * 2 ^ 24 + b * 2 ^ 16 := by
    have := Nat.mul_add_lt_is_or (i := 24) (b := b * 2 ^ 16) (by omega) a
    rw [Nat.mul_comm (2 ^ 24) a] at this
    exact this.symm
  have h2 : (a * 2 ^ 24 + b * 2 ^ 16) ||| c * 2 ^ 8 = a * 2 ^ 24 + b * 2 ^ 16 + c * 2 ^ 8 := by
    have := Nat.mul_add_lt_is_or (i := 16) (b := c * 2 ^ 8) (by omega) (a * 2 ^ 8 + b)
    rw [show 2 ^ 16 * (a * 2 ^ 8 + b) = a * 2 ^ 24 + b * 2 ^ 16 by ring] at this
    exact this.symm
  have h3 : (a * 2 ^ 24 + b * 2 ^ 16 + c * 2 ^ 8) ||| d = a * 2 ^ 24 + b * 2 ^ 16 + c * 2 ^ 8 + d := by
    have := Nat.mul_add_lt_is_or (i := 8) (b := d) (by omega) (a * 2 ^ 16 + b * 2 ^ 8 + c)
    rw [show 2 ^ 8 * (a * 2 ^ 16 + b * 2 ^ 8 + c) = a * 2 ^ 24 + b * 2 ^ 16 + c * 2 ^ 8 by ring] at this
    exact this.symm
  rw [h1, h2, h3]

theorem mask_eq (n : Nat) (h0 : 0 < n) (h32 : n < 32) :
    ((0xFFFFFFFF <<< (32 - n)) % 2 ^ 32) &&& 0xFFFFFFFF = 2 ^ 32 - 2 ^ (32 - n) := by
  interval_cases n <;> decide

theorem and_mask_eq (ip k : Nat) (hip : ip < 2 ^ 32) (hk : k ≤ 32) :
    ip &&& (2 ^ 32 - 2 ^ k) = ip / 2 ^ k * 2 ^ k := by
  apply Nat.eq_of_testBit_eq
  intro i
  have hmask : 2 ^ 32 - 2 ^ k = 2 ^ k * (2 ^ (32 - k) - 1) := by
    rw [Nat.mul_sub, ← Nat.pow_add]
    congr 2
    · omega
    · simp
  rw [Nat.testBit_and, hmask, Nat.testBit_mul_pow_two, Nat.testBit_two_pow_sub_one,
    Nat.mul_comm, Nat.testBit_mul_pow_two, ← Nat.shiftRight_eq_div_pow, Nat.testBit_shiftRight]
  by_cases hik : k ≤ i
  · by_cases hi32 : i < 32
    · have : i - k < 32 - k := by omega
      simp [hik, this, Nat.add_sub_cancel' hik]
    · have hlt : ip < 2 ^ i := lt_of_lt_of_le hip (Nat.pow_le_pow_right (by decide) (by omega))
      have h1 : ip.testBit i = false := Nat.testBit_lt_two_pow hlt
      have : ¬ (i - k < 32 - k) := by omega
      simp [hik, this, h1, Nat.add_sub_cancel' hik]
  · simp [hik]

theorem net_or_eq (q k : Nat) : q * 2 ^ k ||| (2 ^ k - 1) = q * 2 ^ k + (2 ^ k - 1) := by
  have hpos : 0 < 2 ^ k := Nat.two_pow_pos k
  have := Nat.mul_add_lt_is_or (i := k) (b := 2 ^ k - 1) (by omega) q
  rw [Nat.mul_comm] at this
  exact this.symm

theorem expandCIDR_cidrText (da db dc dd dn : List Char)
    (ha : IsDigits da) (hb : IsDigits db) (hc : IsDigits dc) (hd : IsDigits dd)
    (hn : IsDigits dn)
    (hav : decVal da ≤ 255) (hbv : decVal db ≤ 255) (hcv : decVal dc ≤ 255)
    (hdv : decVal dd ≤ 255) (hnv : decVal dn ≤ 255) :
    expandCIDR (cidrText da db dc dd dn) =
      if decVal dn > 32 then Except.error ⟨"CIDR mask out of range"⟩
      else if decVal dn = 32 ∨ decVal dn = 0 then
        Except.ok [quadString (decVal da) (decVal db) (decVal dc) (decVal dd)]
      else
        Except.ok ((List.range'
          ((decVal da * 2 ^ 24 + decVal db * 2 ^ 16 + decVal dc * 2 ^ 8 + decVal dd)
              / 2 ^ (32 - decVal dn) * 2 ^ (32 - decVal dn) + 1)
          (2 ^ (32 - decVal dn) - 2)).map inet_ntop) := by
  unfold expandCIDR
  rw [sscanf_cidrText da db dc dd dn ha hb hc hd hn]
  simp only [Nat.mod_eq_of_lt (Nat.lt_succ_of_le hav), Nat.mod_eq_of_lt (Nat.lt_succ_of_le hbv),
    Nat.mod_eq_of_lt (Nat.lt_succ_of_le hcv), Nat.mod_eq_of_lt (Nat.lt_succ_of_le hdv),
    Nat.mod_eq_of_lt (Nat.lt_succ_of_le hnv)]
  simp only [List.length_cons, List.length_nil, List.getD_cons_zero, List.getD_cons_succ]
  rw [if_neg (by omega)]
  by_cases h32 : decVal dn > 32
  · rw [if_pos h32, if_pos h32]
  · rw [if_neg h32, if_neg h32]
    by_cases hz : decVal dn = 32 ∨ decVal dn = 0
    · rw [if_pos hz, if_pos hz]
    · rw [if_neg hz, if_neg hz]
      have h0 : 0 < decVal dn := by omega
      have h31 : decVal dn < 32 := by omega
      rw [ip_or_eq_add _ _ _ _ (by omega) (by omega) (by omega), mask_eq _ h0 h31]
      have hip : decVal da * 2 ^ 24 + decVal db * 2 ^ 16 + decVal dc * 2 ^ 8 + decVal dd
          < 2 ^ 32 := by omega
      rw [Nat.mod_eq_of_lt hip, and_mask_eq _ _ hip (by omega)]
      have hcompl : 0xFFFFFFFF - (2 ^ 32 - 2 ^ (32 - decVal dn)) = 2 ^ (32 - decVal dn) - 1 := by
        have : 2 ^ (32 - decVal dn) ≤ 2 ^ 32 := Nat.pow_le_pow_right (by decide) (by omega)
        omega
      rw [hcompl, net_or_eq, hostLoop_eq]
      have hk : 2 ≤ 2 ^ (32 - decVal dn) := by
        calc 2 = 2 ^ 1 := by norm_num
          _ ≤ 2 ^ (32 - decVal dn) := Nat.pow_le_pow_right (by decide) (by omega)
      have hpow : 2 ^ decVal dn * 2 ^ (32 - decVal dn) = 2 ^ 32 := by
        rw [← Nat.pow_add]
        congr 1
        omega
      have hq : (decVal da * 2 ^ 24 + decVal db * 2 ^ 16 + decVal dc * 2 ^ 8 + decVal dd)
          / 2 ^ (32 - decVal dn) < 2 ^ decVal dn := by
        rw [Nat.div_lt_iff_lt_mul (Nat.two_pow_pos _), hpow]
        exact hip
      have htop : ((decVal da * 2 ^ 24 + decVal db * 2 ^ 16 + decVal dc * 2 ^ 8 + decVal dd)
          / 2 ^ (32 - decVal dn) + 1) * 2 ^ (32 - decVal dn) ≤ 2 ^ 32 := by
        rw [← hpow]
        exact Nat.mul_le_mul_right _ hq
      rw [Nat.add_mul, Nat.one_mul] at htop
      generalize (decVal da * 2 ^ 24 + decVal db * 2 ^ 16 + decVal dc * 2 ^ 8 + decVal dd)
          / 2 ^ (32 - decVal dn) * 2 ^ (32 - decVal dn) = net at htop ⊢
      generalize 2 ^ (32 - decVal dn) = size at htop hk ⊢
      rw [Nat.mod_eq_of_lt (by omega)]
      simp only [List.nil_append]
      have hlen : net + (size - 1) - (net + 1) = size - 2 := by omega
      rw [hlen]

/-- C1: for digit strings `da.db.dc.dd/dn` with octets at most 255 and a mask
length `n` with `0 < n < 31`, expandCIDR returns the renderings of exactly the
`2 ^ (32 - n) - 2` values strictly between the network address (address AND
mask) and the broadcast address (network OR NOT mask), in ascending order. -/
theorem expandCIDR_hosts (da db dc dd dn : List Char)
    (ha : IsDigits da) (hb : IsDigits db) (hc : IsDigits dc) (hd : IsDigits dd)
    (hn : IsDigits dn)
    (hav : decVal da ≤ 255) (hbv : decVal db ≤ 255) (hcv : decVal dc ≤ 255)
    (hdv : decVal dd ≤ 255) (hn0 : 0 < decVal dn) (hn31 : decVal dn < 31) :
    expandCIDR (cidrText da db dc dd dn) =
      Except.ok ((List.range'
        (((decVal da * 2 ^ 24 + decVal db * 2 ^ 16 + decVal dc * 2 ^ 8 + decVal dd)
            &&& (2 ^ 32 - 2 ^ (32 - decVal dn))) + 1)
        (2 ^ (32 - decVal dn) - 2)).map inet_ntop) ∧
    ((List.range'
        (((decVal da * 2 ^ 24 + decVal db * 2 ^ 16 + decVal dc * 2 ^ 8 + decVal dd)
            &&& (2 ^ 32 - 2 ^ (32 - decVal dn))) + 1)
        (2 ^ (32 - decVal dn) - 2)).map inet_ntop).length = 2 ^ (32 - decVal dn) - 2 ∧
    (List.range'
        (((decVal da * 2 ^ 24 + decVal db * 2 ^ 16 + decVal dc * 2 ^ 8 + decVal dd)
            &&& (2 ^ 32 - 2 ^ (32 - decVal dn))) + 1)
        (2 ^ (32 - decVal dn) - 2)).Pairwise (fun x y => x < y) ∧
    ∀ v : Nat,
      v ∈ List.range'
        (((decVal da * 2 ^ 24 + decVal db * 2 ^ 16 + decVal dc * 2 ^ 8 + decVal dd)
            &&& (2 ^ 32 - 2 ^ (32 - decVal dn))) + 1)
        (2 ^ (32 - decVal dn) - 2) ↔
      ((decVal da * 2 ^ 24 + decVal db * 2 ^ 16 + decVal dc * 2 ^ 8 + decVal dd)
          &&& (2 ^ 32 - 2 ^ (32 - decVal dn))) < v ∧
      v < (((decVal da * 2 ^ 24 + decVal db * 2 ^ 16 + decVal dc * 2 ^ 8 + decVal dd)
          &&& (2 ^ 32 - 2 ^ (32 - decVal dn))) ||| (2 ^ (32 - decVal dn) - 1)) := by
  have hip : decVal da * 2 ^ 24 + decVal db * 2 ^ 16 + decVal dc * 2 ^ 8 + decVal dd
      < 2 ^ 32 := by omega
  rw [and_mask_eq _ _ hip (by omega)]
  refine ⟨?_, ?_, ?_, ?_⟩
  · rw [expandCIDR_cidrText da db dc dd dn ha hb hc hd hn hav hbv hcv hdv (by omega),
      if_neg (by omega), if_neg (by omega)]
  · simp
  · exact List.pairwise_lt_range' _ _
  · intro v
    rw [net_or_eq, List.mem_range'_1]
    have hk : 4 ≤ 2 ^ (32 - decVal dn) := by
      calc 4 = 2 ^ 2 := by norm_num
        _ ≤ 2 ^ (32 - decVal dn) := Nat.pow_le_pow_right (by decide) (by omega)
    generalize (decVal da * 2 ^ 24 + decVal db * 2 ^ 16 + decVal dc * 2 ^ 8 + decVal dd)
          / 2 ^ (32 - decVal dn) * 2 ^ (32 - decVal dn) = net
    generalize 2 ^ (32 - decVal dn) = size at hk ⊢
    omega

theorem expandCIDR_hosts_witness :
    expandCIDR "192.168.1.0/30" = Except.ok ["192.168.1.1", "192.168.1.2"] :=
  (expandCIDR_hosts "192".data "168".data "1".data "0".data "30".data
    (by decide) (by decide) (by decide) (by decide) (by decide)
    (by decide) (by decide) (by decide) (by decide) (by decide) (by decide)).1.trans (congrArg Except.ok (by decide))

/-- C2 does not hold as stated: `10.1.2.3/0` expands to the single address
`10.1.2.3`, not to the `2 ^ 32 - 2` addresses strictly between `0.0.0.0` and
`255.255.255.255`. -/
theorem expandCIDR_zero_counterexample :
    expandCIDR "10.1.2.3/0" = Except.ok ["10.1.2.3"] ∧
    expandCIDR "10.1.2.3/0" ≠ Except.ok ((List.range' 1 (2 ^ 32 - 2)).map inet_ntop) := by
  have h : expandCIDR "10.1.2.3/0" = Except.ok ["10.1.2.3"] := by
    have := expandCIDR_cidrText "10".data "1".data "2".data "3".data "0".data
      (by decide) (by decide) (by decide) (by decide) (by decide)
      (by decide) (by decide) (by decide) (by decide) (by decide)
    rw [if_neg (by decide), if_pos (by decide)] at this
    exact this.trans (congrArg Except.ok (by decide))
  refine ⟨h, ?_⟩
  rw [h]
  intro hEq
  have hlen := congrArg List.length (Except.ok.inj hEq)
  simp at hlen

/-- C2 (as the code behaves): for digit strings `da.db.dc.dd/dn` with octets at
most 255 and mask length 0, expandCIDR skips the range computation and returns
the single address `a.b.c.d`. -/
theorem expandCIDR_zero (da db dc dd dn : List Char)
    (ha : IsDigits da) (hb : IsDigits db) (hc : IsDigits dc) (hd : IsDigits dd)
    (hn : IsDigits dn)
    (hav : decVal da ≤ 255) (hbv : decVal db ≤ 255) (hcv : decVal dc ≤ 255)
    (hdv : decVal dd ≤ 255) (hn0 : decVal dn = 0) :
    expandCIDR (cidrText da db dc dd dn) =
      Except.ok [quadString (decVal da) (decVal db) (decVal dc) (decVal dd)] := by
  rw [expandCIDR_cidrText da db dc dd dn ha hb hc hd hn hav hbv hcv hdv (by omega),
    if_neg (by omega), if_pos (Or.inr hn0)]

theorem expandCIDR_zero_witness :
    expandCIDR "172.16.254.9/0" = Except.ok ["172.16.254.9"] :=
  (expandCIDR_zero "172".data "16".data "254".data "9".data "0".data
    (by decide) (by decide) (by decide) (by decide) (by decide)
    (by decide) (by decide) (by decide) (by decide) (by decide)).trans
    (congrArg Except.ok (by decide))

/-- C3: for digit strings `da.db.dc.dd/dn` with octets at most 255 and mask
length 32, expandCIDR returns the one-element list holding `a.b.c.d`. -/
theorem expandCIDR_single (da db dc dd dn : List Char)
    (ha : IsDigits da) (hb : IsDigits db) (hc : IsDigits dc) (hd : IsDigits dd)
    (hn : IsDigits dn)
    (hav : decVal da ≤ 255) (hbv : decVal db ≤ 255) (hcv : decVal dc ≤ 255)
    (hdv : decVal dd ≤ 255) (hn32 : decVal dn = 32) :
    expandCIDR (cidrText da db dc dd dn) =
      Except.ok [quadString (decVal da) (decVal db) (decVal dc) (decVal dd)] := by
  rw [expandCIDR_cidrText da db dc dd dn ha hb hc hd hn hav hbv hcv hdv (by omega),
    if_neg (by omega), if_pos (Or.inl hn32)]

theorem expandCIDR_single_witness :
    expandCIDR "192.168.1.7/32" = Except.ok ["192.168.1.7"] :=
  (expandCIDR_single "192".data "168".data "1".data "7".data "32".data
    (by decide) (by decide) (by decide) (by decide) (by decide)
    (by decide) (by decide) (by decide) (by decide) (by decide)).trans
    (congrArg Except.ok (by decide))

/-- C4: for digit strings `da.db.dc.dd/dn` with octets at most 255 and mask
length 31, expandCIDR returns the empty list. -/
theorem expandCIDR_31_empty (da db dc dd dn : List Char)
    (ha : IsDigits da) (hb : IsDigits db) (hc : IsDigits dc) (hd : IsDigits dd)
    (hn : IsDigits dn)
    (hav : decVal da ≤ 255) (hbv : decVal db ≤ 255) (hcv : decVal dc ≤ 255)
    (hdv : decVal dd ≤ 255) (hn31 : decVal dn = 31) :
    expandCIDR (cidrText da db dc dd dn) = Except.ok [] := by
  rw [expandCIDR_cidrText da db dc dd dn ha hb hc hd hn hav hbv hcv hdv (by omega),
    if_neg (by omega), if_neg (by omega), hn31]
  rfl

theorem expandCIDR_31_empty_witness :
    expandCIDR "192.168.1.6/31" = Except.ok [] :=
  expandCIDR_31_empty "192".data "168".data "1".data "6".data "31".data
    (by decide) (by decide) (by decide) (by decide) (by decide)
    (by decide) (by decide) (by decide) (by decide) (by decide)

/-! ### Facts about expandNetwork -/

theorem digitRun_append (lo hi : Nat) (ds : List Char) (x : Char) (rest : List Char)
    (hds : IsDigits ds) (hx : x.isDigit = false) (hlo : lo ≤ ds.length) (hhi : ds.length ≤ hi) :
    digitRun lo hi (ds ++ x :: rest) = some (x :: rest) := by
  simp [digitRun, scanDigits_append ds x rest hds.2 hx, hlo, hhi]

theorem digitRun_all (lo hi : Nat) (ds : List Char)
    (hds : IsDigits ds) (hlo : lo ≤ ds.length) (hhi : ds.length ≤ hi) :
    digitRun lo hi ds = some [] := by
  simp [digitRun, scanDigits_all ds hds.2, hlo, hhi]

theorem octetPart_append (ds : List Char) (x : Char) (rest : List Char)
    (hds : IsDigits ds) (hx : x.isDigit = false) :
    octetPart (ds ++ x :: rest) = none ∨ octetPart (ds ++ x :: rest) = some (x :: rest) := by
  unfold octetPart
  rw [scanDigits_append ds x rest hds.2 hx]
  split
  · exact Or.inr rfl
  · exact Or.inl rfl

theorem length_pos_of_isDigits {ds : List Char} (hds : IsDigits ds) : 1 ≤ ds.length :=
  List.length_pos.mpr hds.1

theorem regexMatchCIDR_cidrText (da db dc dd dn : List Char)
    (ha : IsDigits da) (hb : IsDigits db) (hc : IsDigits dc) (hd : IsDigits dd)
    (hn : IsDigits dn)
    (hal : da.length ≤ 3) (hbl : db.length ≤ 3) (hcl : dc.length ≤ 3) (hdl : dd.length ≤ 3)
    (hnl : dn.length ≤ 2) :
    regexMatchCIDR (cidrText da db dc dd dn) = true := by
  have hdot : ('.' : Char).isDigit = false := by decide
  have hsl : ('/' : Char).isDigit = false := by decide
  simp only [regexMatchCIDR, cidrText, Option.bind_eq_bind]
  rw [digitRun_append 1 3 da '.' _ ha hdot (length_pos_of_isDigits ha) hal]
  simp only [Option.some_bind, Option.bind_eq_bind, expectChar, if_true]
  rw [digitRun_append 1 3 db '.' _ hb hdot (length_pos_of_isDigits hb) hbl]
  simp only [Option.some_bind, Option.bind_eq_bind, expectChar, if_true]
  rw [digitRun_append 1 3 dc '.' _ hc hdot (length_pos_of_isDigits hc) hcl]
  simp only [Option.some_bind, Option.bind_eq_bind, expectChar, if_true]
  rw [digitRun_append 1 3 dd '/' _ hd hsl (length_pos_of_isDigits hd) hdl]
  simp only [Option.some_bind, Option.bind_eq_bind, expectChar, if_true]
  rw [digitRun_all 1 2 dn hn (length_pos_of_isDigits hn) hnl]
  rfl

theorem inet_pton_cidrText (da db dc dd dn : List Char)
    (ha : IsDigits da) (hb : IsDigits db) (hc : IsDigits dc) (hd : IsDigits dd) :
    inet_pton (cidrText da db dc dd dn) = false := by
  have hdot : ('.' : Char).isDigit = false := by decide
  have hsl : ('/' : Char).isDigit = false := by decide
  simp only [inet_pton, cidrText, Option.bind_eq_bind]
  rcases octetPart_append da '.' (db ++ '.' :: (dc ++ '.' :: (dd ++ '/' :: dn))) ha hdot with h | h
  · rw [h]; rfl
  rw [h]
  simp only [Option.some_bind, Option.bind_eq_bind, expectChar, if_true]
  rcases octetPart_append db '.' (dc ++ '.' :: (dd ++ '/' :: dn)) hb hdot with h | h
  · rw [h]; rfl
  rw [h]
  simp only [Option.some_bind, Option.bind_eq_bind, expectChar, if_true]
  rcases octetPart_append dc '.' (dd ++ '/' :: dn) hc hdot with h | h
  · rw [h]; rfl
  rw [h]
  simp only [Option.some_bind, Option.bind_eq_bind, expectChar, if_true]
  rcases octetPart_append dd '/' dn hd hsl with h | h
  · rw [h]; rfl
  rw [h]
  rfl

theorem decVal_le_99 (ds : List Char) (hds : IsDigits ds) (hl : ds.length ≤ 2) :
    decVal ds ≤ 99 := by
  obtain ⟨hne, hdig⟩ := hds
  have hdv : ∀ c : Char, c.isDigit = true → c.toNat - 48 ≤ 9 := by
    intro c hc
    simp only [Char.isDigit, Bool.and_eq_true, decide_eq_true_eq] at hc
    have h2 : c.toNat ≤ 57 := hc.2
    omega
  match ds, hne, hdig, hl with
  | [x], _, hdig, _ =>
    have := hdv x (hdig x (by simp))
    simp only [decVal, List.foldl]
    omega
  | [x, y], _, hdig, _ =>
    have h1 := hdv x (hdig x (by simp))
    have h2 := hdv y (hdig y (by simp))
    simp only [decVal, List.foldl]
    omega
  | _ :: _ :: _ :: _, _, _, hl => simp at hl

/-- C5: for every text `da.db.dc.dd/dn` that matches the CIDR pattern (one to
three digits per octet, one or two for the mask length) with octets at most
255, expandNetwork performs no resolution and yields the outcome of expandCIDR,
which is an error exactly when the mask length exceeds 32 and an address list
otherwise. -/
theorem expandNetwork_cidr_error_iff {m : Type → Type} [Monad m]
    (resolveHostname : String → m String) (da db dc dd dn : List Char)
    (ha : IsDigits da) (hb : IsDigits db) (hc : IsDigits dc) (hd : IsDigits dd)
    (hn : IsDigits dn)
    (hal : da.length ≤ 3) (hbl : db.length ≤ 3) (hcl : dc.length ≤ 3) (hdl : dd.length ≤ 3)
    (hnl : dn.length ≤ 2)
    (hav : decVal da ≤ 255) (hbv : decVal db ≤ 255) (hcv : decVal dc ≤ 255)
    (hdv : decVal dd ≤ 255) :
    expandNetwork resolveHostname (cidrText da db dc dd dn) =
      pure (expandCIDR (cidrText da db dc dd dn)) ∧
    ((∃ e, expandCIDR (cidrText da db dc dd dn) = Except.error e) ↔ 32 < decVal dn) ∧
    (decVal dn ≤ 32 → ∃ hosts, expandCIDR (cidrText da db dc dd dn) = Except.ok hosts) := by
  have h99 := decVal_le_99 dn hn hnl
  have hE := expandCIDR_cidrText da db dc dd dn ha hb hc hd hn hav hbv hcv hdv (by omega)
  refine ⟨?_, ?_, ?_⟩
  · simp [expandNetwork, inet_pton_cidrText da db dc dd dn ha hb hc hd,
      regexMatchCIDR_cidrText da db dc dd dn ha hb hc hd hn hal hbl hcl hdl hnl]
  · constructor
    · rintro ⟨e, he⟩
      by_contra hle
      rw [hE, if_neg hle] at he
      split at he <;> cases he
    · intro hgt
      rw [hE, if_pos hgt]
      exact ⟨_, rfl⟩
  · intro hle
    rw [hE, if_neg (by omega)]
    split <;> exact ⟨_, rfl⟩

theorem expandNetwork_cidr_error_iff_witness :
    expandNetwork (m := Id) (fun _ => "") "10.0.0.0/33" =
        pure (expandCIDR "10.0.0.0/33") ∧
    ((∃ e, expandCIDR "10.0.0.0/33" = Except.error e) ↔ 32 < 33) ∧
    (33 ≤ 32 → ∃ hosts, expandCIDR "10.0.0.0/33" = Except.ok hosts) :=
  expandNetwork_cidr_error_iff (m := Id) (fun _ => "")
    "10".data "0".data "0".data "0".data "33".data
    (by decide) (by decide) (by decide) (by decide) (by decide)
    (by decide) (by decide) (by decide) (by decide) (by decide)
    (by decide) (by decide) (by decide) (by decide)

/-- C6: for every target that `inet_pton` accepts as a literal IPv4 address,
expandNetwork returns the one-element list holding that very string, with no
CIDR expansion and no effect of the resolver. -/
theorem expandNetwork_literal {m : Type → Type} [Monad m]
    (resolveHostname : String → m String) (hostString : String)
    (h : inet_pton hostString = true) :
    expandNetwork resolveHostname hostString = pure (Except.ok [hostString]) := by
  simp [expandNetwork, h]

theorem expandNetwork_literal_witness :
    expandNetwork (m := Id) (fun _ => "203.0.113.9") "10.0.0.5" = pure (Except.ok ["10.0.0.5"]) :=
  expandNetwork_literal (m := Id) (fun _ => "203.0.113.9") "10.0.0.5" (by decide)

/-! ### Facts about the ping sweep's groups -/

theorem foldl_eraseAll (s pool : List String) :
    s.foldl eraseAll pool = pool.filter (fun x => decide (x ∉ s)) := by
  induction s generalizing pool with
  | nil => simp
  | cons h t ih =>
    simp only [List.foldl_cons, ih, eraseAll, List.filter_filter]
    congr 1
    funext x
    by_cases hx : x = h <;> simp [hx]

theorem sample_append_remaining_perm (s pool : List String) (hpool : pool.Nodup)
    (hs : s.Sublist pool) :
    (s ++ s.foldl eraseAll pool).Perm pool := by
  rw [foldl_eraseAll]
  have h1 : s.Perm (pool.filter (fun x => decide (x ∈ s))) := by
    rw [List.perm_ext_iff_of_nodup (hpool.sublist hs) (hpool.filter _)]
    intro a
    simp only [List.mem_filter, decide_eq_true_eq]
    exact ⟨fun ha => ⟨hs.subset ha, ha⟩, fun ha => ha.2⟩
  have h2 := List.filter_append_perm (fun x => decide (x ∈ s)) pool
  refine List.Perm.trans (List.Perm.append_right _ h1) ?_
  refine List.Perm.trans ?_ h2
  apply List.Perm.append_left
  apply List.Perm.of_eq
  congr 1
  funext x
  simp

theorem pingGroupsLoop_perm (sample : Nat → List String → Nat → List String)
    (shuffle : Nat → List String → List String) (hsample : ValidSample sample)
    (hshuffle : ValidShuffle shuffle) (pingRange rounds i : Nat) (pool : List String)
    (hpool : pool.Nodup) (hlen : pool.length ≤ rounds * pingRange) :
    (pingGroupsLoop sample shuffle pingRange rounds i pool).flatten.Perm pool := by
  induction rounds generalizing i pool with
  | zero =>
    have : pool = [] := List.eq_nil_of_length_eq_zero (by omega)
    subst this
    simp [pingGroupsLoop]
  | succ k ih =>
    simp only [pingGroupsLoop, List.flatten_cons]
    obtain ⟨hsub, hslen⟩ := hsample i pool pingRange
    have hperm := sample_append_remaining_perm _ pool hpool hsub
    have hnd : ((sample i pool pingRange).foldl eraseAll pool).Nodup := by
      rw [foldl_eraseAll]
      exact hpool.filter _
    have hl := hperm.length_eq
    rw [List.length_append, hslen] at hl
    have hrem : ((sample i pool pingRange).foldl eraseAll pool).length ≤ k * pingRange := by
      rw [Nat.succ_mul] at hlen
      omega
    have h1 := ih (i + 1) _ hnd hrem
    exact ((hshuffle i _).append h1).trans hperm

theorem le_threads_mul_ceil (hostCount maxThreads : Nat) (hT : 1 ≤ maxThreads) :
    hostCount ≤ maxThreads * ((hostCount + maxThreads - 1) / maxThreads) := by
  have h1 := Nat.div_add_mod (hostCount + maxThreads - 1) maxThreads
  have h2 := Nat.mod_lt (hostCount + maxThreads - 1) (show 0 < maxThreads by omega)
  omega

/-- C7: for pairwise-distinct hosts, at least one thread, and whatever
`std::sample` and `std::shuffle` return, the groups pingSweep builds partition
the host list: joined together they are a rearrangement of it, so every host
occurs exactly once over all groups. -/
theorem pingSweepGroups_partition (sample : Nat → List String → Nat → List String)
    (shuffle : Nat → List String → List String) (hostNames : List String) (maxThreads : Nat)
    (hsample : ValidSample sample) (hshuffle : ValidShuffle shuffle)
    (hdistinct : hostNames.Nodup) (hT : 1 ≤ maxThreads) :
    ∃ groups, pingSweepGroups sample shuffle hostNames maxThreads = some groups ∧
      groups.flatten.Perm hostNames ∧
      (∀ h ∈ hostNames, (groups.map (List.count h)).sum = 1) ∧
      (∀ h, h ∉ hostNames → ∀ g ∈ groups, h ∉ g) := by
  have key : ∃ groups, pingSweepGroups sample shuffle hostNames maxThreads = some groups ∧
      groups.flatten.Perm hostNames := by
    unfold pingSweepGroups pingSizing
    by_cases hlt : hostNames.length < maxThreads
    · simp only [hlt, if_true]
      exact ⟨_, rfl, pingGroupsLoop_perm sample shuffle hsample hshuffle _ 1 0 hostNames
        hdistinct (by omega)⟩
    · have hne : ¬ maxThreads = 0 := by omega
      simp only [hlt, hne, if_false]
      exact ⟨_, rfl, pingGroupsLoop_perm sample shuffle hsample hshuffle _ maxThreads 0
        hostNames hdistinct (le_threads_mul_ceil _ _ hT)⟩
  obtain ⟨groups, hg, hperm⟩ := key
  refine ⟨groups, hg, hperm, ?_, ?_⟩
  · intro h hh
    rw [← List.count_flatten, hperm.count_eq]
    exact List.count_eq_one_of_mem hdistinct hh
  · intro h hh g hg' hmem
    exact hh (hperm.subset (List.mem_flatten.mpr ⟨g, hg', hmem⟩))

theorem pingSweepGroups_partition_witness :
    ∃ groups,
      pingSweepGroups (fun _ pool n => pool.take n) (fun _ l => l.reverse)
        ["10.0.0.1", "10.0.0.2", "10.0.0.3", "10.0.0.4", "10.0.0.5"] 2 = some groups ∧
      groups.flatten.Perm ["10.0.0.1", "10.0.0.2", "10.0.0.3", "10.0.0.4", "10.0.0.5"] ∧
      (∀ h ∈ ["10.0.0.1", "10.0.0.2", "10.0.0.3", "10.0.0.4", "10.0.0.5"],
        (groups.map (List.count h)).sum = 1) ∧
      (∀ h, h ∉ ["10.0.0.1", "10.0.0.2", "10.0.0.3", "10.0.0.4", "10.0.0.5"] →
        ∀ g ∈ groups, h ∉ g) :=
  pingSweepGroups_partition (fun _ pool n => pool.take n) (fun _ l => l.reverse)
    ["10.0.0.1", "10.0.0.2", "10.0.0.3", "10.0.0.4", "10.0.0.5"] 2
    (fun _ pool n => ⟨List.take_sublist n pool, List.length_take n pool⟩)
    (fun _ l => List.reverse_perm l) (by decide) (by decide)

/-- C8 (where the code departs from it): with a thread count of 0 the test
`hostCount < finalThreads` is false for every host list, so pingSweep goes on
to divide by the thread count and has no group size, instead of falling back
to one worker; seen here for one host and for every host list. -/
theorem pingSweepGroups_zero_threads :
    pingSizing 1 0 = none ∧
    ∀ (sample : Nat → List String → Nat → List String)
      (shuffle : Nat → List String → List String) (hostNames : List String),
      pingSweepGroups sample shuffle hostNames 0 = none := by
  refine ⟨by decide, ?_⟩
  intro sample shuffle hostNames
  simp [pingSweepGroups, pingSizing]

/-- C9 (where the code departs from it): at the boundaries the strict
comparisons of TCPSweep fall through to the last branch.  Three hosts and two
ports on two threads, and two hosts and three ports on two threads, each give
a single worker holding every host and every port. -/
theorem TCPSweepJobs_boundary :
    TCPSweepJobs ["10.0.0.1", "10.0.0.2", "10.0.0.3"] [80, 443] 2 =
      some [(["10.0.0.1", "10.0.0.2", "10.0.0.3"], [80, 443])] ∧
    TCPSweepJobs ["10.0.0.1", "10.0.0.2"] [22, 80, 443] 2 =
      some [(["10.0.0.1", "10.0.0.2"], [22, 80, 443])] := by
  constructor <;> decide

/-! ### Facts about the round-robin buckets -/

theorem roundRobinLoop_length {α : Type} (T : Nat) (items : List α) (i0 : Nat)
    (buckets : List (List α)) :
    (roundRobinLoop T items i0 buckets).length = buckets.length := by
  induction items generalizing i0 buckets with
  | nil => rfl
  | cons x rest ih => simp [roundRobinLoop, ih, List.length_modify]

theorem getD_modify_append {α : Type} (buckets : List (List α)) (x : α) (n b : Nat)
    (hb : b < buckets.length) :
    (buckets.modify (fun l => l ++ [x]) n).getD b [] =
      buckets.getD b [] ++ (if n = b then [x] else []) := by
  rw [List.getD_eq_getElem?_getD, List.getD_eq_getElem?_getD, List.getElem?_modify,
    List.getElem?_eq_getElem hb]
  by_cases h : n = b <;> simp [h]

theorem roundRobinLoop_getD {α : Type} (T : Nat) (d : α) (items : List α) (i0 : Nat)
    (buckets : List (List α)) (b : Nat) (hb : b < buckets.length) :
    (roundRobinLoop T items i0 buckets).getD b [] =
      buckets.getD b [] ++
        ((List.range items.length).filter (fun j => decide ((i0 + j) % T = b))).map
          (fun j => items.getD j d) := by
  induction items generalizing i0 buckets with
  | nil => simp [roundRobinLoop]
  | cons x rest ih =>
    rw [roundRobinLoop, ih (i0 + 1) _ (by rw [List.length_modify]; exact hb),
      getD_modify_append _ _ _ _ hb, List.length_cons, List.range_succ_eq_map,
      List.filter_cons, List.filter_map, List.append_assoc]
    congr 1
    have htail : List.map (fun j => (x :: rest).getD j d)
        (List.map Nat.succ (List.filter ((fun j => decide ((i0 + j) % T = b)) ∘ Nat.succ)
          (List.range rest.length))) =
        List.map (fun j => rest.getD j d)
          (List.filter (fun j => decide ((i0 + 1 + j) % T = b)) (List.range rest.length)) := by
      rw [List.map_map]
      congr 1
      congr 1
      funext j
      simp only [Function.comp, Nat.succ_eq_add_one]
      rw [show i0 + (j + 1) = i0 + 1 + j by omega]
    by_cases h0 : i0 % T = b
    · simp only [h0, if_true, Nat.add_zero, decide_True, List.map_cons, List.getD_cons_zero,
        List.singleton_append]
      rw [htail]
    · simp only [h0, if_false, Nat.add_zero, decide_False, List.nil_append, Bool.false_eq_true]
      rw [htail]

theorem roundRobin_getD {α : Type} (T : Nat) (d : α) (items : List α) (b : Nat) (hb : b < T) :
    (roundRobin T items).getD b [] =
      ((List.range items.length).filter (fun j => decide (j % T = b))).map
        (fun j => items.getD j d) := by
  unfold roundRobin
  rw [roundRobinLoop_getD T d items 0 _ b (by simpa using hb)]
  have : (List.replicate T ([] : List α)).getD b [] = [] := by
    rw [List.getD_eq_getElem?_getD, List.getElem?_replicate]
    simp [hb]
  rw [this, List.nil_append]
  congr 2
  funext j
  simp

/-! ### Facts about the scan workers -/

theorem scanHost_enabled_probes (scanPort : String → Int → Int) (targetHost : String)
    (targetPorts : List Int) (st : WorkerState) (portResults : List NetworkPort) :
    (scanHost scanPort (fun _ => true) targetHost targetPorts st portResults).2.probes =
      st.probes ++ targetPorts.map (fun p => (targetHost, p)) := by
  induction targetPorts generalizing st portResults with
  | nil => simp [scanHost]
  | cons p rest ih => simp [scanHost, ih]

theorem scanHosts_enabled_probes (scanPort : String → Int → Int) (targetPorts : List Int)
    (targetHosts : List String) (st : WorkerState) (hostResults : List NetworkNode) :
    (scanHosts scanPort (fun _ => true) targetPorts targetHosts st hostResults).2.probes =
      st.probes ++ targetHosts ×ˢ targetPorts := by
  induction targetHosts generalizing st hostResults with
  | nil => simp [scanHosts]
  | cons h rest ih =>
    simp only [scanHosts, Bool.not_true, Bool.false_eq_true, if_false, ih,
      scanHost_enabled_probes, List.append_assoc]
    rfl

theorem product_map_map {α β γ δ : Type} (f : α → γ) (g : β → δ) (l₁ : List α) (l₂ : List β) :
    (l₁.map f) ×ˢ (l₂.map g) = (l₁ ×ˢ l₂).map (fun p => (f p.1, g p.2)) := by
  induction l₁ with
  | nil => rfl
  | cons a t ih =>
    simp only [List.map_cons, List.product_cons, ih, List.map_append, List.map_map]
    rfl

theorem TCPSweepJobs_both_large (hostNames : List String) (targetPorts : List Int)
    (maxThreads : Nat) (hT : 1 ≤ maxThreads) (hH : maxThreads < hostNames.length)
    (hP : maxThreads < targetPorts.length) :
    TCPSweepJobs hostNames targetPorts maxThreads =
      some ((List.range maxThreads).map (fun i =>
        ((roundRobin maxThreads hostNames).getD i [],
          (roundRobin maxThreads targetPorts).getD i []))) := by
  unfold TCPSweepJobs
  rw [if_neg (by omega)]
  simp only [gt_iff_lt, hH, hP, and_self, if_true]

theorem workers_probes_uncancelled (scanPort : String → Int → Int)
    (jobs : List (List String × List Int)) :
    (jobs.enum.map (fun wj =>
        scanHosts scanPort ((fun _ _ => true : Nat → Nat → Bool) wj.1) wj.2.2 wj.2.1 {} [])).map
      (fun w => w.2.probes) = jobs.map (fun job => job.1 ×ˢ job.2) := by
  rw [List.map_map]
  have : ((fun w : List NetworkNode × WorkerState => w.2.probes) ∘ fun wj : Nat × List String × List Int =>
      scanHosts scanPort ((fun _ _ => true : Nat → Nat → Bool) wj.1) wj.2.2 wj.2.1 {} []) =
      (fun job : List String × List Int => job.1 ×ˢ job.2) ∘ Prod.snd := by
    funext wj
    simp only [Function.comp, scanHosts_enabled_probes]
    rfl
  rw [this, ← List.map_map, List.enum_map_snd]

/-- C10: with more hosts and more ports than threads (at least one thread) and
no cancellation, worker `i` probes exactly the pairs of its host bucket with
its port bucket, the buckets holding the items at the indices congruent to `i`
modulo the thread count; so the pair of host index `j` and port index `k` is
probed exactly when `j % T = k % T`. -/
theorem TCPSweep_index_matched (scanPort : String → Int → Int) (hostNames : List String)
    (targetPorts : List Int) (maxThreads : Nat) (hT : 1 ≤ maxThreads)
    (hH : maxThreads < hostNames.length) (hP : maxThreads < targetPorts.length) :
    (∃ workers,
      TCPSweepWorkers scanPort (fun _ _ => true) hostNames targetPorts maxThreads =
        some workers ∧
      workers.map (fun w => w.2.probes) =
        (List.range maxThreads).map (fun i =>
          (((List.range hostNames.length).filter (fun j => decide (j % maxThreads = i))) ×ˢ
            ((List.range targetPorts.length).filter (fun k => decide (k % maxThreads = i)))).map
            (fun jk => (hostNames.getD jk.1 "", targetPorts.getD jk.2 0)))) ∧
    ∀ j k, j < hostNames.length → k < targetPorts.length →
      ((∃ i, i < maxThreads ∧
          (j, k) ∈ ((List.range hostNames.length).filter (fun j => decide (j % maxThreads = i))) ×ˢ
            ((List.range targetPorts.length).filter (fun k => decide (k % maxThreads = i)))) ↔
        j % maxThreads = k % maxThreads) := by
  constructor
  · refine ⟨((List.range maxThreads).map (fun i =>
        ((roundRobin maxThreads hostNames).getD i [],
          (roundRobin maxThreads targetPorts).getD i []))).enum.map (fun wj =>
        scanHosts scanPort ((fun _ _ => true : Nat → Nat → Bool) wj.1) wj.2.2 wj.2.1 {} []),
      ?_, ?_⟩
    · unfold TCPSweepWorkers
      rw [TCPSweepJobs_both_large hostNames targetPorts maxThreads hT hH hP]
      rfl
    · rw [workers_probes_uncancelled, List.map_map]
      apply List.map_congr_left
      intro i hi
      have hi' : i < maxThreads := List.mem_range.mp hi
      simp only [Function.comp]
      rw [roundRobin_getD maxThreads "" hostNames i hi',
        roundRobin_getD maxThreads (0 : Int) targetPorts i hi', product_map_map]
  · intro j k hj hk
    constructor
    · rintro ⟨i, _, hmem⟩
      rw [List.mem_product, List.mem_filter, List.mem_filter] at hmem
      have h1 := of_decide_eq_true hmem.1.2
      have h2 := of_decide_eq_true hmem.2.2
      omega
    · intro hjk
      refine ⟨j % maxThreads, Nat.mod_lt _ (by omega), ?_⟩
      rw [List.mem_product, List.mem_filter, List.mem_filter]
      exact ⟨⟨List.mem_range.mpr hj, by simp⟩, ⟨List.mem_range.mpr hk, by simp [hjk]⟩⟩

theorem TCPSweep_index_matched_witness :
    ∃ workers,
      TCPSweepWorkers (fun _ p => if p = 80 then 0 else -1) (fun _ _ => true)
        ["10.0.0.1", "10.0.0.2", "10.0.0.3"] [22, 80, 443] 2 = some workers ∧
      workers.map (fun w => w.2.probes) =
        [[("10.0.0.1", 22), ("10.0.0.1", 443), ("10.0.0.3", 22), ("10.0.0.3", 443)],
          [("10.0.0.2", 80)]] :=
  match (TCPSweep_index_matched (fun _ p => if p = 80 then 0 else -1)
    ["10.0.0.1", "10.0.0.2", "10.0.0.3"] [22, 80, 443] 2 (by decide) (by decide) (by decide)).1 with
  | ⟨workers, hrun, hprobes⟩ => ⟨workers, hrun, hprobes.trans (by decide)⟩

/-! ### Facts about the partition made by the round-robin buckets -/

theorem modify_append_flatten_perm {α : Type} (buckets : List (List α)) (x : α) (n : Nat)
    (hn : n < buckets.length) :
    (buckets.modify (fun b => b ++ [x]) n).flatten.Perm (buckets.flatten ++ [x]) := by
  induction buckets generalizing n with
  | nil => simp at hn
  | cons b rest ih =>
    cases n with
    | zero =>
      simp only [List.modify_zero_cons, List.flatten_cons, List.append_assoc]
      exact List.Perm.append_left b List.perm_append_comm
    | succ m =>
      simp only [List.modify_succ_cons, List.flatten_cons, List.append_assoc]
      exact List.Perm.append_left b (ih m (by simpa using hn))

theorem roundRobinLoop_flatten_perm {α : Type} (T : Nat) (hT : 1 ≤ T) (items : List α)
    (i0 : Nat) (buckets : List (List α)) (hlen : buckets.length = T) :
    (roundRobinLoop T items i0 buckets).flatten.Perm (buckets.flatten ++ items) := by
  induction items generalizing i0 buckets with
  | nil => simp [roundRobinLoop]
  | cons x rest ih =>
    rw [roundRobinLoop]
    have hmod : i0 % T < buckets.length := by rw [hlen]; exact Nat.mod_lt _ (by omega)
    refine (ih (i0 + 1) _ (by rw [List.length_modify]; exact hlen)).trans ?_
    refine (List.Perm.append_right rest (modify_append_flatten_perm buckets x _ hmod)).trans ?_
    simp

theorem roundRobin_length {α : Type} (T : Nat) (items : List α) :
    (roundRobin T items).length = T := by
  simp [roundRobin, roundRobinLoop_length]

theorem roundRobin_flatten_perm {α : Type} (T : Nat) (hT : 1 ≤ T) (items : List α) :
    (roundRobin T items).flatten.Perm items := by
  have h := roundRobinLoop_flatten_perm T hT items 0 (List.replicate T []) (by simp)
  have hnil : (List.replicate T ([] : List α)).flatten = [] := by
    induction T with
    | zero => rfl
    | succ n _ => simp [List.replicate_succ]
  rw [hnil, List.nil_append] at h
  exact h

theorem map_getD_range {α : Type} (l : List (List α)) :
    (List.range l.length).map (fun i => l.getD i []) = l := by
  apply List.ext_getElem
  · simp
  · intro n h1 h2
    simp [List.getD_eq_getElem?_getD, List.getElem?_eq_getElem h2]

theorem append_product {α β : Type} (l₁ l₂ : List α) (t : List β) :
    (l₁ ++ l₂) ×ˢ t = l₁ ×ˢ t ++ l₂ ×ˢ t := by
  induction l₁ with
  | nil => simp
  | cons a l ih => simp [List.product_cons, ih]

theorem flatten_product {α β : Type} (B : List (List α)) (t : List β) :
    (B.map (fun b => b ×ˢ t)).flatten = B.flatten ×ˢ t := by
  induction B with
  | nil => simp
  | cons b rest ih => simp [append_product, ih]

theorem product_append_perm {α β : Type} (l : List α) (t₁ t₂ : List β) :
    (l ×ˢ (t₁ ++ t₂)).Perm (l ×ˢ t₁ ++ l ×ˢ t₂) := by
  induction l with
  | nil => simp
  | cons a l ih =>
    simp only [List.product_cons, List.map_append, List.append_assoc]
    refine List.Perm.append_left _ ?_
    refine (List.Perm.append_left _ ih).trans ?_
    rw [← List.append_assoc, ← List.append_assoc]
    exact List.Perm.append_right _ List.perm_append_comm

theorem product_flatten_perm {α β : Type} (l : List α) (B : List (List β)) :
    (B.map (fun b => l ×ˢ b)).flatten.Perm (l ×ˢ B.flatten) := by
  induction B with
  | nil => simp
  | cons b rest ih =>
    simp only [List.map_cons, List.flatten_cons]
    exact (List.Perm.append_left _ ih).trans (product_append_perm l b rest.flatten).symm

theorem roundRobin_one_getD_perm {α : Type} (items : List α) :
    ((roundRobin 1 items).getD 0 []).Perm items := by
  have hlen := roundRobin_length 1 items
  have hperm := roundRobin_flatten_perm 1 (le_refl 1) items
  match h : roundRobin 1 items, hlen with
  | [b], _ =>
    rw [h] at hperm
    simpa using hperm

theorem TCPSweepJobs_probes_perm (hostNames : List String) (targetPorts : List Int)
    (maxThreads : Nat) (hT : 1 ≤ maxThreads)
    (h : hostNames.length ≤ maxThreads ∨ targetPorts.length ≤ maxThreads ∨ maxThreads = 1) :
    ∃ jobs, TCPSweepJobs hostNames targetPorts maxThreads = some jobs ∧
      (jobs.map (fun job => job.1 ×ˢ job.2)).flatten.Perm (hostNames ×ˢ targetPorts) := by
  unfold TCPSweepJobs
  rw [if_neg (by omega)]
  by_cases h1 : hostNames.length > maxThreads ∧ targetPorts.length > maxThreads
  · have hone : maxThreads = 1 := by omega
    subst hone
    simp only [h1, and_self, if_true]
    refine ⟨_, rfl, ?_⟩
    have hr1 : List.range 1 = [0] := rfl
    simp only [hr1, List.map_cons, List.map_nil, List.flatten_cons, List.flatten_nil,
      List.append_nil]
    exact List.Perm.product (roundRobin_one_getD_perm hostNames)
      (roundRobin_one_getD_perm targetPorts)
  · rw [if_neg h1]
    by_cases h2 : hostNames.length > maxThreads ∧ targetPorts.length < maxThreads
    · rw [if_pos h2]
      refine ⟨_, rfl, ?_⟩
      rw [List.map_map]
      have hmap : ((fun job : List String × List Int => job.1 ×ˢ job.2) ∘
          fun i => ((roundRobin maxThreads hostNames).getD i [], targetPorts)) =
          (fun b : List String => b ×ˢ targetPorts) ∘
            (fun i => (roundRobin maxThreads hostNames).getD i []) := rfl
      rw [hmap, ← List.map_map]
      have hr := map_getD_range (roundRobin maxThreads hostNames)
      rw [roundRobin_length] at hr
      rw [hr, flatten_product]
      exact List.Perm.product_right _ (roundRobin_flatten_perm maxThreads hT hostNames)
    · rw [if_neg h2]
      by_cases h3 : hostNames.length < maxThreads ∧ targetPorts.length > maxThreads
      · rw [if_pos h3]
        refine ⟨_, rfl, ?_⟩
        rw [List.map_map]
        have hmap : ((fun job : List String × List Int => job.1 ×ˢ job.2) ∘
            fun i => (hostNames, (roundRobin maxThreads targetPorts).getD i [])) =
            (fun b : List Int => hostNames ×ˢ b) ∘
              (fun i => (roundRobin maxThreads targetPorts).getD i []) := rfl
        rw [hmap, ← List.map_map]
        have hr := map_getD_range (roundRobin maxThreads targetPorts)
        rw [roundRobin_length] at hr
        rw [hr]
        exact (product_flatten_perm hostNames _).trans
          (List.Perm.product_left _ (roundRobin_flatten_perm maxThreads hT targetPorts))
      · rw [if_neg h3]
        exact ⟨_, rfl, by simp⟩

/-- C12: with at least one thread, no cancellation, and at most as many hosts
as threads or at most as many ports as threads, the probes of all workers of
TCPSweep taken together are a rearrangement of the full product of the host
list with the port list: every pair is probed exactly once, in each of the
three strategies the code can pick. -/
theorem TCPSweep_full_cross_product (scanPort : String → Int → Int) (hostNames : List String)
    (targetPorts : List Int) (maxThreads : Nat) (hT : 1 ≤ maxThreads)
    (h : hostNames.length ≤ maxThreads ∨ targetPorts.length ≤ maxThreads) :
    ∃ workers,
      TCPSweepWorkers scanPort (fun _ _ => true) hostNames targetPorts maxThreads =
        some workers ∧
      (workers.map (fun w => w.2.probes)).flatten.Perm (hostNames ×ˢ targetPorts) := by
  obtain ⟨jobs, hjobs, hperm⟩ := TCPSweepJobs_probes_perm hostNames targetPorts maxThreads hT
    (by omega)
  refine ⟨jobs.enum.map (fun wj =>
      scanHosts scanPort ((fun _ _ => true : Nat → Nat → Bool) wj.1) wj.2.2 wj.2.1 {} []), ?_, ?_⟩
  · unfold TCPSweepWorkers
    rw [hjobs]
    rfl
  · rw [workers_probes_uncancelled]
    exact hperm

theorem TCPSweep_full_cross_product_witness :
    ∃ workers,
      TCPSweepWorkers (fun _ p => if p = 80 then 0 else -1) (fun _ _ => true)
        ["10.0.0.1", "10.0.0.2", "10.0.0.3"] [80] 2 = some workers ∧
      (workers.map (fun w => w.2.probes)).flatten.Perm
        [("10.0.0.1", 80), ("10.0.0.2", 80), ("10.0.0.3", 80)] :=
  TCPSweep_full_cross_product (fun _ p => if p = 80 then 0 else -1)
    ["10.0.0.1", "10.0.0.2", "10.0.0.3"] [80] 2 (by decide) (by decide)

/-! ### Facts about the sizes of the round-robin buckets -/

theorem bucketIndices_length_le (T n i : Nat) (hT : 1 ≤ T) :
    ((List.range n).filter (fun j => decide (j % T = i))).length ≤ (n + T - 1) / T := by
  have hnd : (((List.range n).filter (fun j => decide (j % T = i))).map (fun j => j / T)).Nodup := by
    refine List.Nodup.map_on ?_ ((List.nodup_range n).filter _)
    intro a ha b hb hab
    rw [List.mem_filter] at ha hb
    have h1 := of_decide_eq_true ha.2
    have h2 := of_decide_eq_true hb.2
    have h3 := Nat.div_add_mod a T
    have h4 := Nat.div_add_mod b T
    rw [h1] at h3
    rw [h2, ← hab] at h4
    omega
  have hsub : ((List.range n).filter (fun j => decide (j % T = i))).map (fun j => j / T) ⊆
      List.range ((n + T - 1) / T) := by
    intro q hq
    rw [List.mem_map] at hq
    obtain ⟨j, hj, rfl⟩ := hq
    rw [List.mem_filter, List.mem_range] at hj
    rw [List.mem_range, Nat.div_lt_iff_lt_mul (by omega), Nat.lt_iff_add_one_le]
    have h5 := Nat.div_add_mod (n + T - 1) T
    have h6 := Nat.mod_lt (n + T - 1) (show 0 < T by omega)
    rw [Nat.mul_comm]
    omega
  have hle := (List.subperm_of_subset hnd hsub).length_le
  simpa using hle

theorem roundRobin_getD_length_le {α : Type} [Inhabited α] (T : Nat) (hT : 1 ≤ T)
    (items : List α) (i : Nat) (hi : i < T) :
    ((roundRobin T items).getD i []).length ≤ (items.length + T - 1) / T := by
  rw [roundRobin_getD T default items i hi, List.length_map]
  exact bucketIndices_length_le T items.length i hT

theorem roundRobin_lengths_sum {α : Type} (T : Nat) (hT : 1 ≤ T) (items : List α) :
    ((List.range T).map (fun i => ((roundRobin T items).getD i []).length)).sum =
      items.length := by
  have hr := map_getD_range (roundRobin T items)
  rw [roundRobin_length] at hr
  have hmap : (List.range T).map (fun i => ((roundRobin T items).getD i []).length) =
      ((List.range T).map (fun i => (roundRobin T items).getD i [])).map List.length := by
    rw [List.map_map]
    rfl
  rw [hmap, hr, ← List.length_flatten]
  exact (roundRobin_flatten_perm T hT items).length_eq

theorem ceil_lt_of_two_le (P T : Nat) (hT : 2 ≤ T) (hP : T < P) : (P + T - 1) / T < P := by
  rw [Nat.div_lt_iff_lt_mul (by omega)]
  have := Nat.mul_le_mul_left P hT
  omega

theorem workers_probe_counts (scanPort : String → Int → Int)
    (jobs : List (List String × List Int)) :
    (jobs.enum.map (fun wj =>
        scanHosts scanPort ((fun _ _ => true : Nat → Nat → Bool) wj.1) wj.2.2 wj.2.1 {} [])).map
      (fun w => w.2.probes.length) = jobs.map (fun job => job.1.length * job.2.length) := by
  have h := congrArg (List.map List.length) (workers_probes_uncancelled scanPort jobs)
  rw [List.map_map] at h
  rw [show (fun w : List NetworkNode × WorkerState => w.2.probes.length) =
    List.length ∘ (fun w => w.2.probes) from rfl, h, List.map_map]
  apply List.map_congr_left
  intro job _
  simp [List.length_product]

/-- C11: with more hosts and more ports than threads (at least one thread) and
no cancellation, the number of pairs probed by all workers together is at most
`T * ceil(H / T) * ceil(P / T)`, and it is below the full product `H * P`
whenever `T` fails to divide `H` or fails to divide `P`. -/
theorem TCPSweep_probe_count (scanPort : String → Int → Int) (hostNames : List String)
    (targetPorts : List Int) (maxThreads : Nat) (hT : 1 ≤ maxThreads)
    (hH : maxThreads < hostNames.length) (hP : maxThreads < targetPorts.length) :
    ∃ workers,
      TCPSweepWorkers scanPort (fun _ _ => true) hostNames targetPorts maxThreads =
        some workers ∧
      (workers.map (fun w => w.2.probes.length)).sum ≤
        maxThreads * ((hostNames.length + maxThreads - 1) / maxThreads) *
          ((targetPorts.length + maxThreads - 1) / maxThreads) ∧
      ((¬ maxThreads ∣ hostNames.length ∨ ¬ maxThreads ∣ targetPorts.length) →
        (workers.map (fun w => w.2.probes.length)).sum <
          hostNames.length * targetPorts.length) := by
  refine ⟨((List.range maxThreads).map (fun i =>
        ((roundRobin maxThreads hostNames).getD i [],
          (roundRobin maxThreads targetPorts).getD i []))).enum.map (fun wj =>
        scanHosts scanPort ((fun _ _ => true : Nat → Nat → Bool) wj.1) wj.2.2 wj.2.1 {} []),
      ?_, ?_, ?_⟩
  · unfold TCPSweepWorkers
    rw [TCPSweepJobs_both_large hostNames targetPorts maxThreads hT hH hP]
    rfl
  · rw [workers_probe_counts, List.map_map]
    have hb : ∀ x ∈ (List.range maxThreads).map
        ((fun job : List String × List Int => job.1.length * job.2.length) ∘ fun i =>
          ((roundRobin maxThreads hostNames).getD i [],
            (roundRobin maxThreads targetPorts).getD i [])),
        x ≤ ((hostNames.length + maxThreads - 1) / maxThreads) *
          ((targetPorts.length + maxThreads - 1) / maxThreads) := by
      intro x hx
      rw [List.mem_map] at hx
      obtain ⟨i, hi, rfl⟩ := hx
      have hi' : i < maxThreads := List.mem_range.mp hi
      exact Nat.mul_le_mul (roundRobin_getD_length_le maxThreads hT hostNames i hi')
        (roundRobin_getD_length_le maxThreads hT targetPorts i hi')
    have hs := List.sum_le_card_nsmul _ _ hb
    simp only [List.length_map, List.length_range, smul_eq_mul] at hs
    rw [Nat.mul_assoc]
    exact hs
  · intro hdiv
    have hT2 : 2 ≤ maxThreads := by
      rcases Nat.lt_or_ge maxThreads 2 with hlt | hge
      · have h1 : maxThreads = 1 := by omega
        rw [h1] at hdiv
        simp at hdiv
      · exact hge
    rw [workers_probe_counts, List.map_map]
    have hle : ((List.range maxThreads).map
        ((fun job : List String × List Int => job.1.length * job.2.length) ∘ fun i =>
          ((roundRobin maxThreads hostNames).getD i [],
            (roundRobin maxThreads targetPorts).getD i []))).sum ≤
        ((List.range maxThreads).map (fun i =>
          ((roundRobin maxThreads hostNames).getD i []).length *
            (targetPorts.length - 1))).sum := by
      apply List.sum_le_sum
      intro i hi
      have hi' : i < maxThreads := List.mem_range.mp hi
      have h1 := roundRobin_getD_length_le maxThreads hT targetPorts i hi'
      have h2 := ceil_lt_of_two_le targetPorts.length maxThreads hT2 hP
      have h3 : ((roundRobin maxThreads targetPorts).getD i []).length ≤
          targetPorts.length - 1 := by omega
      exact Nat.mul_le_mul_left _ h3
    have hsum : ((List.range maxThreads).map (fun i =>
          ((roundRobin maxThreads hostNames).getD i []).length *
            (targetPorts.length - 1))).sum = hostNames.length * (targetPorts.length - 1) := by
      rw [← roundRobin_lengths_sum maxThreads hT hostNames, List.sum_map_mul_right]
    rw [hsum] at hle
    have hlt : hostNames.length * (targetPorts.length - 1) <
        hostNames.length * targetPorts.length :=
      Nat.mul_lt_mul_of_pos_left (by omega) (by omega)
    omega

theorem TCPSweep_probe_count_witness :
    ∃ workers,
      TCPSweepWorkers (fun _ p => if p = 80 then 0 else -1) (fun _ _ => true)
        ["10.0.0.1", "10.0.0.2", "10.0.0.3"] [22, 80, 443] 2 = some workers ∧
      (workers.map (fun w => w.2.probes.length)).sum ≤ 2 * ((3 + 2 - 1) / 2) * ((3 + 2 - 1) / 2) ∧
      ((¬ 2 ∣ 3 ∨ ¬ 2 ∣ 3) → (workers.map (fun w => w.2.probes.length)).sum < 3 * 3) :=
  TCPSweep_probe_count (fun _ p => if p = 80 then 0 else -1)
    ["10.0.0.1", "10.0.0.2", "10.0.0.3"] [22, 80, 443] 2 (by decide) (by decide) (by decide)

/-! ### Facts about the ping probe -/

theorem pingLoop_noReply (echo : Nat → EchoOutcome) (sendARP : String → ArpReply)
    (targetHost : String) (c : Nat) (hc : c < ICMP_MAX_TRIES)
    (h : echo c = EchoOutcome.noReply) :
    pingLoop echo sendARP targetHost c = pingLoop echo sendARP targetHost (c + 1) := by
  rw [pingLoop, if_pos hc, h]

theorem pingLoop_reply (echo : Nat → EchoOutcome) (sendARP : String → ArpReply)
    (targetHost : String) (c s : Nat) (hc : c < ICMP_MAX_TRIES)
    (h : echo c = EchoOutcome.reply s) :
    pingLoop echo sendARP targetHost c =
      if s = IP_SUCCESS then
        match ARPHost sendARP targetHost with
        | Except.ok macAddr => ⟨c + 1, Except.ok (true, macAddr)⟩
        | Except.error e => ⟨c + 1, Except.error e⟩
      else ⟨c + 1, Except.ok (false, "")⟩ := by
  rw [pingLoop, if_pos hc, h]
  by_cases hs : s = IP_SUCCESS
  · simp only [hs, if_true]
  · simp only [hs, if_false, ite_self]

theorem pingLoop_exhausted (echo : Nat → EchoOutcome) (sendARP : String → ArpReply)
    (targetHost : String) (c : Nat) (hc : ¬ c < ICMP_MAX_TRIES) :
    pingLoop echo sendARP targetHost c = ⟨c, Except.ok (false, "")⟩ := by
  rw [pingLoop, if_neg hc]

theorem pingLoop_skip (echo : Nat → EchoOutcome) (sendARP : String → ArpReply)
    (targetHost : String) (k : Nat) (hk : k ≤ ICMP_MAX_TRIES)
    (h : ∀ m, m < k → echo m = EchoOutcome.noReply) :
    pingLoop echo sendARP targetHost 0 = pingLoop echo sendARP targetHost k := by
  induction k with
  | zero => rfl
  | succ n ih =>
    rw [ih (by omega) (fun m hm => h m (by omega))]
    exact pingLoop_noReply echo sendARP targetHost n (by omega) (h n (by omega))

theorem pingHost_eq_pingLoop (echo : Nat → EchoOutcome) (sendARP : String → ArpReply)
    (targetHost : String) (hvalid : inet_pton targetHost = true)
    (hnot : targetHost ≠ "255.255.255.255") :
    pingHost echo sendARP targetHost = pingLoop echo sendARP targetHost 0 := by
  simp [pingHost, hvalid, hnot]

theorem pingHost_first_reply (echo : Nat → EchoOutcome) (sendARP : String → ArpReply)
    (targetHost : String) (hvalid : inet_pton targetHost = true)
    (hnot : targetHost ≠ "255.255.255.255") (k s : Nat) (hk : k < ICMP_MAX_TRIES)
    (hbefore : ∀ m, m < k → echo m = EchoOutcome.noReply)
    (hreply : echo k = EchoOutcome.reply s) :
    pingHost echo sendARP targetHost =
      if s = IP_SUCCESS then
        match ARPHost sendARP targetHost with
        | Except.ok macAddr => ⟨k + 1, Except.ok (true, macAddr)⟩
        | Except.error e => ⟨k + 1, Except.error e⟩
      else ⟨k + 1, Except.ok (false, "")⟩ := by
  rw [pingHost_eq_pingLoop echo sendARP targetHost hvalid hnot,
    pingLoop_skip echo sendARP targetHost k (by omega) hbefore,
    pingLoop_reply echo sendARP targetHost k s hk hreply]

theorem pingHost_no_reply (echo : Nat → EchoOutcome) (sendARP : String → ArpReply)
    (targetHost : String) (hvalid : inet_pton targetHost = true)
    (hnot : targetHost ≠ "255.255.255.255")
    (hnone : ∀ m, m < ICMP_MAX_TRIES → echo m = EchoOutcome.noReply) :
    pingHost echo sendARP targetHost = ⟨ICMP_MAX_TRIES, Except.ok (false, "")⟩ := by
  rw [pingHost_eq_pingLoop echo sendARP targetHost hvalid hnot,
    pingLoop_skip echo sendARP targetHost ICMP_MAX_TRIES (le_refl _) hnone,
    pingLoop_exhausted echo sendARP targetHost ICMP_MAX_TRIES (by omega)]

theorem first_reply_cases (echo : Nat → EchoOutcome) (n : Nat) :
    (∀ m, m < n → echo m = EchoOutcome.noReply) ∨
    ∃ k s, k < n ∧ (∀ m, m < k → echo m = EchoOutcome.noReply) ∧ echo k = EchoOutcome.reply s := by
  induction n with
  | zero => exact Or.inl (fun m hm => absurd hm (Nat.not_lt_zero m))
  | succ n ih =>
    rcases ih with hall | ⟨k, s, hk, hb, hr⟩
    · cases hn : echo n with
      | noReply =>
        left
        intro m hm
        rcases Nat.lt_succ_iff_lt_or_eq.mp hm with h1 | h1
        · exact hall m h1
        · rw [h1]; exact hn
      | reply s => exact Or.inr ⟨n, s, by omega, hall, hn⟩
    · exact Or.inr ⟨k, s, by omega, hb, hr⟩

/-- C14 (where the code departs from it): the first echo request gets no
reply, the second a reply with status success, and the ARP lookup pingHost
then makes ends in `ERROR_NOT_SUPPORTED`.  ARPHost throws, pingHost does not
catch the exception, so it reports the host neither reachable nor unreachable
although the first reply's status is success, and the worker pingHosts ends
with the same exception.  (The comment of pingHost promises true for a reply
and false for no reply or an error.) -/
theorem pingHost_raises_after_reply :
    (fun n => if n = 0 then EchoOutcome.noReply else EchoOutcome.reply IP_SUCCESS) 1 =
      EchoOutcome.reply IP_SUCCESS ∧
    (pingHost (fun n => if n = 0 then EchoOutcome.noReply else EchoOutcome.reply IP_SUCCESS)
      (fun _ => ⟨ERROR_NOT_SUPPORTED, []⟩) "10.0.0.5").attempts = 2 ∧
    (pingHost (fun n => if n = 0 then EchoOutcome.noReply else EchoOutcome.reply IP_SUCCESS)
      (fun _ => ⟨ERROR_NOT_SUPPORTED, []⟩) "10.0.0.5").result =
      Except.error ⟨"ARP is not supported on this device"⟩ ∧
    (¬ ∃ mac, (pingHost
      (fun n => if n = 0 then EchoOutcome.noReply else EchoOutcome.reply IP_SUCCESS)
      (fun _ => ⟨ERROR_NOT_SUPPORTED, []⟩) "10.0.0.5").result = Except.ok (true, mac)) ∧
    (pingHosts (fun _ n => if n = 0 then EchoOutcome.noReply else EchoOutcome.reply IP_SUCCESS)
      (fun _ => ⟨ERROR_NOT_SUPPORTED, []⟩) (fun _ => true) ["10.0.0.5"] {} []).1 =
      Except.error ⟨"ARP is not supported on this device"⟩ := by
  have h := pingHost_first_reply
    (fun n => if n = 0 then EchoOutcome.noReply else EchoOutcome.reply IP_SUCCESS)
    (fun _ => ⟨ERROR_NOT_SUPPORTED, []⟩) "10.0.0.5" (by decide) (by decide) 1 IP_SUCCESS
    (by decide) (by intro m hm; have : m = 0 := by omega
                    subst this; rfl) rfl
  rw [if_pos rfl] at h
  have harp : ARPHost (fun _ => (⟨ERROR_NOT_SUPPORTED, []⟩ : ArpReply)) "10.0.0.5" =
      Except.error ⟨"ARP is not supported on this device"⟩ := by rfl
  rw [harp] at h
  refine ⟨rfl, ?_, ?_, ?_, ?_⟩
  · rw [h]
  · rw [h]
  · rintro ⟨mac, hmac⟩
    rw [h] at hmac
    cases hmac
  · simp only [pingHosts, if_true, h]

/-- How pingHost ends, for an address `inet_pton` accepts, other than
`255.255.255.255`, and every sequence of echo outcomes: it sends at most
3 echo requests and none after the first that gets a reply; a first reply
whose status is not success, or three requests without reply, give
unreachable; a first reply with status success gives reachable when the ARP
lookup returns and ends with the lookup's exception otherwise. -/
theorem pingHost_retry (echo : Nat → EchoOutcome) (sendARP : String → ArpReply)
    (targetHost : String) (hvalid : inet_pton targetHost = true)
    (hnot : targetHost ≠ "255.255.255.255") :
    (pingHost echo sendARP targetHost).attempts ≤ 3 ∧
    (∀ k s, k < 3 → (∀ m, m < k → echo m = EchoOutcome.noReply) →
      echo k = EchoOutcome.reply s →
      (pingHost echo sendARP targetHost).attempts = k + 1 ∧
      (s ≠ IP_SUCCESS →
        (pingHost echo sendARP targetHost).result = Except.ok (false, "")) ∧
      (s = IP_SUCCESS → ∀ mac, ARPHost sendARP targetHost = Except.ok mac →
        (pingHost echo sendARP targetHost).result = Except.ok (true, mac)) ∧
      (s = IP_SUCCESS → ∀ e, ARPHost sendARP targetHost = Except.error e →
        (pingHost echo sendARP targetHost).result = Except.error e)) ∧
    ((∀ m, m < 3 → echo m = EchoOutcome.noReply) →
      (pingHost echo sendARP targetHost).attempts = 3 ∧
      (pingHost echo sendARP targetHost).result = Except.ok (false, "")) ∧
    ((∃ mac, (pingHost echo sendARP targetHost).result = Except.ok (true, mac)) ↔
      ∃ k, k < 3 ∧ (∀ m, m < k → echo m = EchoOutcome.noReply) ∧
        echo k = EchoOutcome.reply IP_SUCCESS ∧
        ∃ mac, ARPHost sendARP targetHost = Except.ok mac) := by
  have hcases : ∀ k s, k < 3 → (∀ m, m < k → echo m = EchoOutcome.noReply) →
      echo k = EchoOutcome.reply s →
      (pingHost echo sendARP targetHost).attempts = k + 1 ∧
      (s ≠ IP_SUCCESS →
        (pingHost echo sendARP targetHost).result = Except.ok (false, "")) ∧
      (s = IP_SUCCESS → ∀ mac, ARPHost sendARP targetHost = Except.ok mac →
        (pingHost echo sendARP targetHost).result = Except.ok (true, mac)) ∧
      (s = IP_SUCCESS → ∀ e, ARPHost sendARP targetHost = Except.error e →
        (pingHost echo sendARP targetHost).result = Except.error e) := by
    intro k s hk hb hr
    have h := pingHost_first_reply echo sendARP targetHost hvalid hnot k s hk hb hr
    by_cases hs : s = IP_SUCCESS
    · rw [if_pos hs] at h
      cases harp : ARPHost sendARP targetHost with
      | ok mac =>
        rw [harp] at h
        refine ⟨by rw [h], fun hne => absurd hs hne, ?_, ?_⟩
        · intro _ mac' hmac'
          cases hmac'
          rw [h]
        · intro _ e he
          cases he
      | error e =>
        rw [harp] at h
        refine ⟨by rw [h], fun hne => absurd hs hne, ?_, ?_⟩
        · intro _ mac' hmac'
          cases hmac'
        · intro _ e' he'
          cases he'
          rw [h]
    · rw [if_neg hs] at h
      exact ⟨by rw [h], fun _ => by rw [h], fun h1 => absurd h1 hs, fun h1 => absurd h1 hs⟩
  have hnone : (∀ m, m < 3 → echo m = EchoOutcome.noReply) →
      (pingHost echo sendARP targetHost).attempts = 3 ∧
      (pingHost echo sendARP targetHost).result = Except.ok (false, "") := by
    intro hall
    have h := pingHost_no_reply echo sendARP targetHost hvalid hnot hall
    exact ⟨by rw [h]; rfl, by rw [h]⟩
  refine ⟨?_, hcases, hnone, ?_⟩
  · rcases first_reply_cases echo 3 with hall | ⟨k, s, hk, hb, hr⟩
    · rw [(hnone hall).1]
    · rw [(hcases k s hk hb hr).1]
      omega
  · constructor
    · rintro ⟨mac, hmac⟩
      rcases first_reply_cases echo 3 with hall | ⟨k, s, hk, hb, hr⟩
      · rw [(hnone hall).2] at hmac
        cases hmac
      · obtain ⟨_, h2, h3, h4⟩ := hcases k s hk hb hr
        by_cases hs : s = IP_SUCCESS
        · subst hs
          cases harp : ARPHost sendARP targetHost with
          | ok mac' => exact ⟨k, hk, hb, hr, mac', rfl⟩
          | error e =>
            rw [h4 rfl e harp] at hmac
            cases hmac
        · rw [h2 hs] at hmac
          cases hmac
    · rintro ⟨k, hk, hb, hr, mac, hmac⟩
      exact ⟨mac, (hcases k IP_SUCCESS hk hb hr).2.2.1 rfl mac hmac⟩

theorem pingHost_retry_witness :
    (pingHost (fun n => if n = 0 then EchoOutcome.noReply else EchoOutcome.reply 11010)
      (fun _ => ⟨NO_ERROR, []⟩) "10.0.0.5").attempts = 2 ∧
    (pingHost (fun n => if n = 0 then EchoOutcome.noReply else EchoOutcome.reply 11010)
      (fun _ => ⟨NO_ERROR, []⟩) "10.0.0.5").result = Except.ok (false, "") :=
  match (pingHost_retry (fun n => if n = 0 then EchoOutcome.noReply else EchoOutcome.reply 11010)
    (fun _ => ⟨NO_ERROR, []⟩) "10.0.0.5" (by decide) (by decide)).2.1 1 11010 (by decide)
    (by intro m hm; have : m = 0 := by omega
        subst this; rfl) rfl with
  | ⟨h1, h2, _, _⟩ => ⟨h1, h2 (by decide)⟩

/-- C15 (where the code departs from it): the echo request succeeds at once
and the ARP lookup ends in `ERROR_BAD_NET_NAME`.  ARPHost throws for this
return code, pingHost does not catch the exception, and the ping probe and its
worker end with it instead of reporting the host reachable with an empty MAC.
The default branch of the same switch returns the empty string: with the
return code 1168 the probe reports reachable with an empty MAC. -/
theorem pingHost_arp_raises :
    (pingHost (fun _ => EchoOutcome.reply IP_SUCCESS) (fun _ => ⟨ERROR_BAD_NET_NAME, []⟩)
      "10.0.0.5").result = Except.error ⟨"ARP target could not be resolved"⟩ ∧
    (pingHosts (fun _ _ => EchoOutcome.reply IP_SUCCESS) (fun _ => ⟨ERROR_BAD_NET_NAME, []⟩)
      (fun _ => true) ["10.0.0.5"] {} []).1 =
      Except.error ⟨"ARP target could not be resolved"⟩ ∧
    (pingHost (fun _ => EchoOutcome.reply IP_SUCCESS) (fun _ => ⟨1168, []⟩)
      "10.0.0.5").result = Except.ok (true, "") := by
  have h := pingHost_first_reply (fun _ => EchoOutcome.reply IP_SUCCESS)
    (fun _ => ⟨ERROR_BAD_NET_NAME, []⟩) "10.0.0.5" (by decide) (by decide) 0 IP_SUCCESS
    (by decide) (by intro m hm; omega) rfl
  rw [if_pos rfl] at h
  have harp : ARPHost (fun _ => (⟨ERROR_BAD_NET_NAME, []⟩ : ArpReply)) "10.0.0.5" =
      Except.error ⟨"ARP target could not be resolved"⟩ := by rfl
  rw [harp] at h
  have h2 := pingHost_first_reply (fun _ => EchoOutcome.reply IP_SUCCESS)
    (fun _ => ⟨1168, []⟩) "10.0.0.5" (by decide) (by decide) 0 IP_SUCCESS
    (by decide) (by intro m hm; omega) rfl
  rw [if_pos rfl] at h2
  have harp2 : ARPHost (fun _ => (⟨1168, []⟩ : ArpReply)) "10.0.0.5" = Except.ok "" := by rfl
  rw [harp2] at h2
  refine ⟨?_, ?_, ?_⟩
  · rw [h]
  · simp only [pingHosts, if_true, h]
  · rw [h2]

/-- How the ping probe ends after a reply with status success, the first reply
among at most 3 echo requests: it returns reachable for every ARP outcome
except the return codes `ERROR_BAD_NET_NAME` and `ERROR_NOT_SUPPORTED`, with
an empty MAC when the lookup failed or wrote no bytes; for those two return
codes it ends with the exception of ARPHost. -/
theorem pingHost_arp (echo : Nat → EchoOutcome) (sendARP : String → ArpReply)
    (targetHost : String) (hvalid : inet_pton targetHost = true)
    (hnot : targetHost ≠ "255.255.255.255") (k : Nat) (hk : k < 3)
    (hbefore : ∀ m, m < k → echo m = EchoOutcome.noReply)
    (hreply : echo k = EchoOutcome.reply IP_SUCCESS) :
    (((sendARP targetHost).retVal ≠ ERROR_BAD_NET_NAME ∧
        (sendARP targetHost).retVal ≠ ERROR_NOT_SUPPORTED) →
      ∃ mac, (pingHost echo sendARP targetHost).result = Except.ok (true, mac) ∧
        (((sendARP targetHost).retVal ≠ NO_ERROR ∨ (sendARP targetHost).mac = []) →
          mac = "")) ∧
    (((sendARP targetHost).retVal = ERROR_BAD_NET_NAME ∨
        (sendARP targetHost).retVal = ERROR_NOT_SUPPORTED) →
      ∃ e, (pingHost echo sendARP targetHost).result = Except.error e) := by
  have h := pingHost_first_reply echo sendARP targetHost hvalid hnot k IP_SUCCESS hk hbefore
    hreply
  rw [if_pos rfl] at h
  constructor
  · rintro ⟨hbad, hsup⟩
    by_cases hok : (sendARP targetHost).retVal = NO_ERROR
    · by_cases hlen : (sendARP targetHost).mac.length = 0
      · have harp : ARPHost sendARP targetHost = Except.ok "" := by
          simp [ARPHost, hvalid, hok, hlen]
        rw [harp] at h
        exact ⟨"", by rw [h], fun _ => rfl⟩
      · have harp : ARPHost sendARP targetHost =
            Except.ok (String.intercalate "-" ((sendARP targetHost).mac.map formatByte)) := by
          simp only [ARPHost, hvalid, hok, hlen]
          rfl
        rw [harp] at h
        refine ⟨_, by rw [h], ?_⟩
        rintro (h1 | h1)
        · exact absurd hok h1
        · rw [h1] at hlen
          exact absurd rfl hlen
    · have harp : ARPHost sendARP targetHost = Except.ok "" := by
        simp [ARPHost, hvalid, hok, hbad, hsup]
      rw [harp] at h
      exact ⟨"", by rw [h], fun _ => rfl⟩
  · intro hcode
    have harp : ∃ e, ARPHost sendARP targetHost = Except.error e := by
      rcases hcode with hc | hc
      · exact ⟨⟨"ARP target could not be resolved"⟩,
          by simp [ARPHost, hvalid, hc, ERROR_BAD_NET_NAME, NO_ERROR]⟩
      · exact ⟨⟨"ARP is not supported on this device"⟩,
          by simp [ARPHost, hvalid, hc, ERROR_BAD_NET_NAME, NO_ERROR, ERROR_NOT_SUPPORTED]⟩
    obtain ⟨e, he⟩ := harp
    rw [he] at h
    exact ⟨e, by rw [h]⟩

theorem pingHost_arp_witness :
    ∃ mac, (pingHost (fun _ => EchoOutcome.reply IP_SUCCESS) (fun _ => ⟨1168, []⟩)
        "10.0.0.5").result = Except.ok (true, mac) ∧
      (((1168 : Nat) ≠ NO_ERROR ∨ ([] : List Nat) = []) → mac = "") :=
  (pingHost_arp (fun _ => EchoOutcome.reply IP_SUCCESS) (fun _ => ⟨1168, []⟩) "10.0.0.5"
    (by decide) (by decide) 0 (by decide) (by intro m hm; omega) rfl).1 (by decide)

/-! ### Facts about the aggregation and the queries -/

/-- C13 (where the code departs from it): the aggregation of pingSweep calls
`setActive()` for every result without reading its `hostStatus`.  A host whose
three echo requests get no reply comes back with status false, and its record
is active after the merge; the same holds for every status and MAC a result
can carry. -/
theorem pingAggregate_ignores_status :
    (pingHosts (fun _ _ => EchoOutcome.noReply) (fun _ => ⟨NO_ERROR, []⟩) (fun _ => true)
      ["10.0.0.5"] {} []).1 =
      Except.ok [{ hostAddress := "10.0.0.5", hostStatus := false, macAddr := "" }] ∧
    ∀ (hostStatus : Bool) (macAddr : String),
      pingAggregate (initTargetHosts ["10.0.0.5"] [80])
        [[{ hostAddress := "10.0.0.5", hostStatus := hostStatus, macAddr := macAddr }]] =
      ([{ networkAddress := "10.0.0.5",
          requestedPorts := [{ portNumber := 80, portStatus := false, portReason := 0 }],
          isActive := true,
          macAddr := macAddr }], 1) := by
  constructor
  · have h := pingHost_no_reply (fun _ => EchoOutcome.noReply) (fun _ => ⟨NO_ERROR, []⟩)
      "10.0.0.5" (by decide) (by decide) (fun _ _ => rfl)
    simp only [pingHosts, if_true, h, List.nil_append]
  · intro hostStatus macAddr
    simp [pingAggregate, mergePingResult, initTargetHosts]

theorem scanHost_portsDone (scanPort : String → Int → Int) (enabled : Nat → Bool)
    (targetHost : String) (targetPorts : List Int) (st : WorkerState)
    (portResults : List NetworkPort) :
    (scanHost scanPort enabled targetHost targetPorts st portResults).2.portsDone =
      st.portsDone := by
  induction targetPorts generalizing st portResults with
  | nil => rfl
  | cons p rest ih =>
    rw [scanHost]
    split
    · rfl
    · rw [ih]

theorem scanHosts_enabled_portsDone (scanPort : String → Int → Int) (targetPorts : List Int)
    (targetHosts : List String) (st : WorkerState) (hostResults : List NetworkNode) :
    (scanHosts scanPort (fun _ => true) targetPorts targetHosts st hostResults).2.portsDone =
      st.portsDone + targetPorts.length := by
  induction targetHosts generalizing st hostResults with
  | nil => rfl
  | cons h rest ih =>
    simp only [scanHosts, Bool.not_true, Bool.false_eq_true, if_false, ih, scanHost_portsDone]

/-- C16 (where the code departs from it): scanHosts adds the port count to
`portsDone` once, after its host loop, so an uncancelled worker raises it by
`p` whatever the number of hosts; two hosts against three ports give 3, not
6. -/
theorem scanHosts_portsDone_once :
    (∀ (scanPort : String → Int → Int) (targetPorts : List Int) (targetHosts : List String),
      (scanHosts scanPort (fun _ => true) targetPorts targetHosts {} []).2.portsDone =
        targetPorts.length) ∧
    (scanHosts (fun _ _ => 0) (fun _ => true) [22, 80, 443] ["10.0.0.1", "10.0.0.2"]
      {} []).2.portsDone = 3 := by
  constructor
  · intro scanPort targetPorts targetHosts
    rw [scanHosts_enabled_portsDone]
    simp
  · decide

theorem getActivePorts_loop (ports : List NetworkPort) (acc : List NetworkPort) :
    ports.foldl
      (fun activePorts port => if port.portStatus then activePorts ++ [port] else activePorts)
      acc = acc ++ ports.filter (fun port => port.portStatus) := by
  induction ports generalizing acc with
  | nil => simp
  | cons p rest ih =>
    simp only [List.foldl_cons, ih, List.filter_cons]
    by_cases hp : p.portStatus = true
    · simp [hp]
    · simp [hp]

theorem getActivePorts_eq_filter (node : NetworkNode) :
    getActivePorts node = node.portResults.filter (fun port => port.portStatus) := by
  unfold getActivePorts
  rw [getActivePorts_loop]
  simp

/-- C20 does not hold as stated: for a record whose merged results are port
443 then port 80, both open, getActivePorts returns them in that order, which
is not ascending. -/
theorem getActivePorts_counterexample :
    getActivePorts
      { networkAddress := "10.0.0.5",
        portResults := [{ portNumber := 443, portStatus := true, portReason := 0 },
                        { portNumber := 80, portStatus := true, portReason := 0 }] } =
      [{ portNumber := 443, portStatus := true, portReason := 0 },
       { portNumber := 80, portStatus := true, portReason := 0 }] ∧
    ¬ (getActivePorts
      { networkAddress := "10.0.0.5",
        portResults := [{ portNumber := 443, portStatus := true, portReason := 0 },
                        { portNumber := 80, portStatus := true, portReason := 0 }] }).Pairwise
      (fun a b => a.portNumber ≤ b.portNumber) := by
  constructor <;> decide

/-- C20 (as the code behaves): getActivePorts returns exactly the port results
whose status is open, in the order they were merged; the ascending order is
made by printResults, whose list is a rearrangement of those results sorted by
port number. -/
theorem getActivePorts_unsorted_filter (node : NetworkNode) :
    getActivePorts node = node.portResults.filter (fun port => port.portStatus) ∧
    (∀ port, port ∈ getActivePorts node ↔ port ∈ node.portResults ∧ port.portStatus = true) ∧
    (getActivePorts node).Sublist node.portResults ∧
    (printedActivePorts node).Perm (getActivePorts node) ∧
    (printedActivePorts node).Sorted (fun a b => a.portNumber ≤ b.portNumber) := by
  refine ⟨getActivePorts_eq_filter node, ?_, ?_, ?_, ?_⟩
  · intro port
    rw [getActivePorts_eq_filter, List.mem_filter]
  · rw [getActivePorts_eq_filter]
    exact List.filter_sublist _
  · exact List.perm_insertionSort _ _
  · haveI : IsTotal NetworkPort (fun a b => a.portNumber ≤ b.portNumber) :=
      ⟨fun a b => le_total a.portNumber b.portNumber⟩
    haveI : IsTrans NetworkPort (fun a b => a.portNumber ≤ b.portNumber) :=
      ⟨fun a b c hab hbc => le_trans hab hbc⟩
    exact List.sorted_insertionSort _ _

/-! ### Facts about the uncancelled workers' results and their merge -/

theorem scanHost_enabled_result (scanPort : String → Int → Int) (targetHost : String)
    (targetPorts : List Int) (st : WorkerState) (portResults : List NetworkPort) :
    (scanHost scanPort (fun _ => true) targetHost targetPorts st portResults).1 =
      { networkAddress := targetHost,
        requestedPorts := portResults ++ targetPorts.map (probeResult scanPort targetHost) } := by
  induction targetPorts generalizing st portResults with
  | nil => simp [scanHost]
  | cons p rest ih =>
    simp only [scanHost, Bool.not_true, Bool.false_eq_true, if_false, ih, List.map_cons,
      List.append_assoc, List.singleton_append]
    rfl

theorem scanHosts_enabled_results (scanPort : String → Int → Int) (targetPorts : List Int)
    (targetHosts : List String) (st : WorkerState) (hostResults : List NetworkNode) :
    (scanHosts scanPort (fun _ => true) targetPorts targetHosts st hostResults).1 =
      hostResults ++ targetHosts.map (resultNode scanPort targetPorts) := by
  induction targetHosts generalizing st hostResults with
  | nil => simp [scanHosts]
  | cons h rest ih =>
    simp only [scanHosts, Bool.not_true, Bool.false_eq_true, if_false, ih,
      scanHost_enabled_result, List.nil_append, List.map_cons, List.append_assoc,
      List.singleton_append]
    rfl

theorem workers_results_uncancelled (scanPort : String → Int → Int)
    (jobs : List (List String × List Int)) :
    (jobs.enum.map (fun wj =>
        scanHosts scanPort ((fun _ _ => true : Nat → Nat → Bool) wj.1) wj.2.2 wj.2.1 {} [])).map
      (fun w => w.1) =
    jobs.map (fun job => job.1.map (resultNode scanPort job.2)) := by
  rw [List.map_map]
  have : ((fun w : List NetworkNode × WorkerState => w.1) ∘
      fun wj : Nat × List String × List Int =>
      scanHosts scanPort ((fun _ _ => true : Nat → Nat → Bool) wj.1) wj.2.2 wj.2.1 {} []) =
      (fun job : List String × List Int => job.1.map (resultNode scanPort job.2)) ∘
        Prod.snd := by
    funext wj
    simp only [Function.comp, scanHosts_enabled_results, List.nil_append]
  rw [this, ← List.map_map, List.enum_map_snd]

theorem foldl_mergeScanResult (nodes : List NetworkNode) (targetHosts : List NetworkNode) :
    nodes.foldl mergeScanResult targetHosts =
      targetHosts.map (fun r => nodes.foldl (fun r n => mergeNode n r) r) := by
  induction nodes generalizing targetHosts with
  | nil => simp
  | cons n rest ih =>
    simp only [List.foldl_cons, ih, mergeScanResult, List.map_map]
    rfl

theorem foldl_mergeNode (nodes : List NetworkNode) (r : NetworkNode) :
    (nodes.foldl (fun r n => mergeNode n r) r).networkAddress = r.networkAddress ∧
    (nodes.foldl (fun r n => mergeNode n r) r).portResults =
      r.portResults ++
        (nodes.filter (fun n => decide (n.networkAddress = r.networkAddress))).flatMap
          (fun n => n.requestedPorts) ∧
    ((∃ n ∈ nodes, n.networkAddress = r.networkAddress) →
      (nodes.foldl (fun r n => mergeNode n r) r).isActive = true) := by
  induction nodes generalizing r with
  | nil => simp
  | cons n rest ih =>
    simp only [List.foldl_cons]
    obtain ⟨h1, h2, h3⟩ := ih (mergeNode n r)
    by_cases hn : n.networkAddress = r.networkAddress
    · have hm : mergeNode n r =
          { r with portResults := r.portResults ++ n.requestedPorts, isActive := true } := by
        simp [mergeNode, hn]
      rw [hm] at h1 h2 h3 ⊢
      refine ⟨h1, ?_, ?_⟩
      · rw [h2]
        simp [List.filter_cons, hn, List.flatMap_cons]
      · intro _
        by_cases hex : ∃ n' ∈ rest, n'.networkAddress = r.networkAddress
        · exact h3 hex
        · have hkeep : ∀ (l : List NetworkNode) (x : NetworkNode), x.isActive = true →
              (l.foldl (fun r n => mergeNode n r) x).isActive = true := by
            intro l
            induction l with
            | nil => intro x hx; exact hx
            | cons a t iht =>
              intro x hx
              simp only [List.foldl_cons]
              apply iht
              unfold mergeNode
              split
              · rfl
              · exact hx
          exact hkeep rest _ rfl
    · have hm : mergeNode n r = r := by simp [mergeNode, hn]
      rw [hm] at h1 h2 h3 ⊢
      refine ⟨h1, ?_, ?_⟩
      · rw [h2]
        simp [List.filter_cons, hn]
      · rintro ⟨n', hn', hname⟩
        rcases List.mem_cons.mp hn' with heq | hmem
        · rw [heq] at hname
          exact absurd hname hn
        · exact h3 ⟨n', hmem, hname⟩

theorem job_nodes_filter (scanPort : String → Int → Int) (hs : List String) (ps : List Int)
    (h : String) :
    ((hs.map (resultNode scanPort ps)).filter
        (fun n => decide (n.networkAddress = h))).flatMap (fun n => n.requestedPorts) =
      ((hs ×ˢ ps).filter (fun hp => decide (hp.1 = h))).map
        (fun hp => probeResult scanPort hp.1 hp.2) := by
  induction hs with
  | nil => simp
  | cons a t ih =>
    simp only [List.map_cons, List.product_cons, List.filter_append, List.map_append]
    by_cases ha : a = h
    · subst ha
      have h1 : List.filter (fun hp : String × Int => decide (hp.1 = a))
          (List.map (fun b => (a, b)) ps) = List.map (fun b => (a, b)) ps := by
        rw [List.filter_eq_self]
        intro x hx
        rw [List.mem_map] at hx
        obtain ⟨b, _, rfl⟩ := hx
        simp
      rw [h1, List.filter_cons_of_pos (by simp [resultNode]), List.flatMap_cons, ih,
        List.map_map]
      rfl
    · have h1 : List.filter (fun hp : String × Int => decide (hp.1 = h))
          (List.map (fun b => (a, b)) ps) = [] := by
        rw [List.filter_eq_nil_iff]
        intro x hx
        rw [List.mem_map] at hx
        obtain ⟨b, _, rfl⟩ := hx
        simp [ha]
      rw [h1, List.filter_cons_of_neg (by simp [resultNode, ha]), ih]
      rfl

theorem jobs_nodes_filter (scanPort : String → Int → Int)
    (jobs : List (List String × List Int)) (h : String) :
    (((jobs.map (fun job => job.1.map (resultNode scanPort job.2))).flatten).filter
        (fun n => decide (n.networkAddress = h))).flatMap (fun n => n.requestedPorts) =
      (((jobs.map (fun job => job.1 ×ˢ job.2)).flatten).filter
        (fun hp => decide (hp.1 = h))).map (fun hp => probeResult scanPort hp.1 hp.2) := by
  induction jobs with
  | nil => simp
  | cons job rest ih =>
    simp only [List.map_cons, List.flatten_cons, List.filter_append, List.flatMap_append,
      List.map_append, ih, job_nodes_filter]

theorem product_filter_fst (hosts : List String) (ports : List Int) (h : String)
    (hnd : hosts.Nodup) (hmem : h ∈ hosts) :
    (hosts ×ˢ ports).filter (fun hp => decide (hp.1 = h)) = ports.map (fun p => (h, p)) := by
  induction hosts with
  | nil => simp at hmem
  | cons a t ih =>
    rw [List.nodup_cons] at hnd
    simp only [List.product_cons, List.filter_append]
    by_cases ha : a = h
    · subst ha
      have h1 : List.filter (fun hp : String × Int => decide (hp.1 = a))
          (List.map (fun b => (a, b)) ports) = List.map (fun b => (a, b)) ports := by
        rw [List.filter_eq_self]
        intro x hx
        rw [List.mem_map] at hx
        obtain ⟨b, _, rfl⟩ := hx
        simp
      have h2 : List.filter (fun hp : String × Int => decide (hp.1 = a)) (t ×ˢ ports) = [] := by
        rw [List.filter_eq_nil_iff]
        intro x hx
        obtain ⟨x1, x2⟩ := x
        rw [List.mem_product] at hx
        have : x1 ≠ a := fun heq => hnd.1 (heq ▸ hx.1)
        simp [this]
      rw [h1, h2, List.append_nil]
    · have h1 : List.filter (fun hp : String × Int => decide (hp.1 = h))
          (List.map (fun b => (a, b)) ports) = [] := by
        rw [List.filter_eq_nil_iff]
        intro x hx
        rw [List.mem_map] at hx
        obtain ⟨b, _, rfl⟩ := hx
        simp [ha]
      have hmem' : h ∈ t := by
        rcases List.mem_cons.mp hmem with heq | hm
        · exact absurd heq.symm ha
        · exact hm
      rw [h1, List.nil_append, ih hnd.2 hmem']

theorem TCPSweep_records (scanPort : String → Int → Int) (targetHosts : List NetworkNode)
    (hostNames : List String) (targetPorts : List Int) (maxThreads : Nat) (hT : 1 ≤ maxThreads)
    (hcover : hostNames.length ≤ maxThreads ∨ targetPorts.length ≤ maxThreads ∨
      maxThreads = 1) :
    ∃ nodes : List NetworkNode,
      TCPSweep scanPort (fun _ _ => true) targetHosts hostNames targetPorts maxThreads =
        some (targetHosts.map (fun r => nodes.foldl (fun r n => mergeNode n r) r)) ∧
      ∀ h, ((nodes.filter (fun n => decide (n.networkAddress = h))).flatMap
          (fun n => n.requestedPorts)).Perm
        (((hostNames ×ˢ targetPorts).filter (fun hp => decide (hp.1 = h))).map
          (fun hp => probeResult scanPort hp.1 hp.2)) := by
  obtain ⟨jobs, hjobs, hperm⟩ :=
    TCPSweepJobs_probes_perm hostNames targetPorts maxThreads hT hcover
  refine ⟨(jobs.map (fun job => job.1.map (resultNode scanPort job.2))).flatten, ?_, ?_⟩
  · unfold TCPSweep TCPSweepWorkers
    rw [hjobs]
    simp only [Option.map_some']
    rw [← foldl_mergeScanResult, List.foldl_flatten, ← workers_results_uncancelled]
    simp only [List.foldl_map]
  · intro h
    rw [jobs_nodes_filter]
    exact (hperm.filter _).map _

theorem openPorts_of_results (scanPort : String → Int → Int) (h : String) (ports : List Int) :
    (((ports.map (probeResult scanPort h)).filter (fun port => port.portStatus)).map
      (fun port => port.portNumber)) =
      ports.filter (fun p => decide (scanPort h p = 0)) := by
  induction ports with
  | nil => rfl
  | cons p rest ih =>
    by_cases hp : scanPort h p = 0
    · simp [List.filter_cons, probeResult, hp, ← ih]
    · simp [List.filter_cons, probeResult, hp, ← ih]

theorem insertionSort_eq_of_perm {l₁ l₂ : List Int} (hp : l₁.Perm l₂) :
    l₁.insertionSort (fun a b => a ≤ b) = l₂.insertionSort (fun a b => a ≤ b) :=
  List.eq_of_perm_of_sorted
    (((List.perm_insertionSort _ l₁).trans hp).trans (List.perm_insertionSort _ l₂).symm)
    (List.sorted_insertionSort _ l₁) (List.sorted_insertionSort _ l₂)

/-- C18 does not hold as stated.  With three hosts, three ports and two
threads every port accepts, yet the index-matched buckets leave the first host
with ports 22 and 443 only, where the requested open ports are 22, 80, 443;
and a host listed twice ends with every open port four times. -/
theorem TCPSweep_open_ports_counterexample :
    (TCPSweep (fun _ _ => 0) (fun _ _ => true)
        (initTargetHosts ["10.0.0.1", "10.0.0.2", "10.0.0.3"] [22, 80, 443])
        ["10.0.0.1", "10.0.0.2", "10.0.0.3"] [22, 80, 443] 2).map
      (fun records => records.map (fun r =>
        ((getActivePorts r).map (fun port => port.portNumber)).insertionSort
          (fun a b => a ≤ b))) =
      some [[22, 443], [80], [22, 443]] ∧
    ([22, 80, 443].filter (fun p => decide ((fun _ _ => 0 : String → Int → Int)
        "10.0.0.1" p = 0))).insertionSort (fun a b => a ≤ b) = [22, 80, 443] ∧
    (TCPSweep (fun _ _ => 0) (fun _ _ => true)
        (initTargetHosts ["10.0.0.1", "10.0.0.1"] [22, 80])
        ["10.0.0.1", "10.0.0.1"] [22, 80] 2).map
      (fun records => records.map (fun r =>
        ((getActivePorts r).map (fun port => port.portNumber)).insertionSort
          (fun a b => a ≤ b))) =
      some [[22, 22, 80, 80], [22, 22, 80, 80]] := by
  refine ⟨by decide, by decide, by decide⟩

/-- C18 (as the code behaves): for pairwise-distinct hosts, at least one
thread, and a session in which the hosts or the ports do not outnumber the
threads (or there is a single thread), after an uncancelled TCP sweep every
host record's open port numbers, sorted ascending, are the requested ports for
which the connect call to that host returns 0, sorted ascending. -/
theorem TCPSweep_open_ports (scanPort : String → Int → Int) (targetHosts : List NetworkNode)
    (hostNames : List String) (targetPorts : List Int) (maxThreads : Nat) (hT : 1 ≤ maxThreads)
    (hdistinct : hostNames.Nodup)
    (hcover : hostNames.length ≤ maxThreads ∨ targetPorts.length ≤ maxThreads ∨
      maxThreads = 1)
    (hnames : targetHosts.map (fun r => r.networkAddress) = hostNames)
    (hempty : ∀ r ∈ targetHosts, r.portResults = []) :
    ∃ records,
      TCPSweep scanPort (fun _ _ => true) targetHosts hostNames targetPorts maxThreads =
        some records ∧
      records.map (fun r => r.networkAddress) = hostNames ∧
      ∀ r ∈ records,
        ((getActivePorts r).map (fun port => port.portNumber)).insertionSort
            (fun a b => a ≤ b) =
          (targetPorts.filter (fun p => decide (scanPort r.networkAddress p = 0))).insertionSort
            (fun a b => a ≤ b) := by
  obtain ⟨nodes, hrun, hperm⟩ :=
    TCPSweep_records scanPort targetHosts hostNames targetPorts maxThreads hT hcover
  refine ⟨_, hrun, ?_, ?_⟩
  · rw [List.map_map, ← hnames]
    apply List.map_congr_left
    intro r _
    exact (foldl_mergeNode nodes r).1
  · intro r' hr'
    rw [List.mem_map] at hr'
    obtain ⟨r, hr, rfl⟩ := hr'
    obtain ⟨h1, h2, _⟩ := foldl_mergeNode nodes r
    have hmem : r.networkAddress ∈ hostNames := by
      rw [← hnames]
      exact List.mem_map.mpr ⟨r, hr, rfl⟩
    have hX := hperm r.networkAddress
    rw [product_filter_fst hostNames targetPorts r.networkAddress hdistinct hmem,
      List.map_map] at hX
    have hX' : ((nodes.filter (fun n => decide (n.networkAddress = r.networkAddress))).flatMap
        (fun n => n.requestedPorts)).Perm
        (targetPorts.map (probeResult scanPort r.networkAddress)) := hX
    rw [h1, getActivePorts_eq_filter, h2, hempty r hr, List.nil_append,
      ← openPorts_of_results]
    exact insertionSort_eq_of_perm ((hX'.filter _).map _)

theorem TCPSweep_open_ports_witness :
    ∃ records,
      TCPSweep (fun _ p => if p = 80 then 0 else -1) (fun _ _ => true)
        (initTargetHosts ["10.0.0.1", "10.0.0.2"] [443, 80, 22])
        ["10.0.0.1", "10.0.0.2"] [443, 80, 22] 2 = some records ∧
      records.map (fun r => r.networkAddress) = ["10.0.0.1", "10.0.0.2"] ∧
      ∀ r ∈ records,
        ((getActivePorts r).map (fun port => port.portNumber)).insertionSort
            (fun a b => a ≤ b) =
          ([443, 80, 22].filter (fun p => decide ((fun (_ : String) (p : Int) =>
            if p = 80 then (0 : Int) else -1) r.networkAddress p = 0))).insertionSort
            (fun a b => a ≤ b) :=
  TCPSweep_open_ports (fun _ p => if p = 80 then 0 else -1)
    (initTargetHosts ["10.0.0.1", "10.0.0.2"] [443, 80, 22])
    ["10.0.0.1", "10.0.0.2"] [443, 80, 22] 2 (by decide) (by decide) (by decide) (by decide)
    (by decide)

/-- C19: for the single target 10.0.0.5, ports 22, 80 and 8080, any thread
count of at least one and a connect call that returns 0 for port 80 only,
the TCP sweep leaves exactly one host record; it is active, its active ports
are exactly port 80, and its results hold 22 and 8080 as closed. -/
theorem TCPSweep_single_host_scenario (scanPort : String → Int → Int) (maxThreads : Nat)
    (hT : 1 ≤ maxThreads) (hdouble : ∀ h p, scanPort h p = 0 ↔ p = 80) :
    ∃ record,
      TCPSweep scanPort (fun _ _ => true) (initTargetHosts ["10.0.0.5"] [22, 80, 8080])
        ["10.0.0.5"] [22, 80, 8080] maxThreads = some [record] ∧
      record.networkAddress = "10.0.0.5" ∧
      record.isActive = true ∧
      getActivePorts record = [{ portNumber := 80, portStatus := true, portReason := 0 }] ∧
      printedActivePorts record = [{ portNumber := 80, portStatus := true, portReason := 0 }] ∧
      (∃ port ∈ record.portResults, port.portNumber = 22 ∧ port.portStatus = false) ∧
      (∃ port ∈ record.portResults, port.portNumber = 8080 ∧ port.portStatus = false) := by
  obtain ⟨nodes, hrun, hperm⟩ :=
    TCPSweep_records scanPort (initTargetHosts ["10.0.0.5"] [22, 80, 8080]) ["10.0.0.5"]
      [22, 80, 8080] maxThreads hT (Or.inl (by simpa using hT))
  have hinit : ∃ r0, initTargetHosts ["10.0.0.5"] [22, 80, 8080] = [r0] ∧
      r0.networkAddress = "10.0.0.5" ∧ r0.portResults = [] := ⟨_, rfl, rfl, rfl⟩
  obtain ⟨r0, hr0, hname, hres⟩ := hinit
  rw [hr0] at hrun ⊢
  simp only [List.map_cons, List.map_nil] at hrun
  obtain ⟨h1, h2, h3⟩ := foldl_mergeNode nodes r0
  rw [hname] at h1 h2 h3
  rw [hres] at h2
  have hX := hperm "10.0.0.5"
  rw [product_filter_fst ["10.0.0.5"] [22, 80, 8080] "10.0.0.5" (by decide) (by decide),
    List.map_map] at hX
  have h22 : scanPort "10.0.0.5" 22 ≠ 0 := fun h => by
    have := (hdouble "10.0.0.5" 22).mp h
    omega
  have h80 : scanPort "10.0.0.5" 80 = 0 := (hdouble "10.0.0.5" 80).mpr rfl
  have h8080 : scanPort "10.0.0.5" 8080 ≠ 0 := fun h => by
    have := (hdouble "10.0.0.5" 8080).mp h
    omega
  have hX' : ((nodes.filter (fun n => decide (n.networkAddress = "10.0.0.5"))).flatMap
      (fun n => n.requestedPorts)).Perm
      [{ portNumber := 22, portStatus := false, portReason := scanPort "10.0.0.5" 22 },
       { portNumber := 80, portStatus := true, portReason := 0 },
       { portNumber := 8080, portStatus := false, portReason := scanPort "10.0.0.5" 8080 }] := by
    refine hX.trans (List.Perm.of_eq ?_)
    simp [probeResult, h22, h80, h8080]
  simp only [List.nil_append] at h2
  have hactive : getActivePorts (nodes.foldl (fun r n => mergeNode n r) r0) =
      [{ portNumber := 80, portStatus := true, portReason := 0 }] := by
    rw [getActivePorts_eq_filter, h2]
    have hf := hX'.filter (fun port => port.portStatus)
    simp only [List.filter_cons, Bool.false_eq_true, if_false, if_true, List.filter_nil] at hf
    exact List.perm_singleton.mp hf
  refine ⟨_, hrun, h1, ?_, hactive, ?_, ?_, ?_⟩
  · apply h3
    have hmem : ({ portNumber := 80, portStatus := true, portReason := 0 } : NetworkPort) ∈
        (nodes.filter (fun n => decide (n.networkAddress = "10.0.0.5"))).flatMap
          (fun n => n.requestedPorts) := hX'.mem_iff.mpr (by simp)
    rw [List.mem_flatMap] at hmem
    obtain ⟨n, hn, _⟩ := hmem
    rw [List.mem_filter] at hn
    exact ⟨n, hn.1, of_decide_eq_true hn.2⟩
  · unfold printedActivePorts
    rw [hactive]
    rfl
  · refine ⟨{ portNumber := 22, portStatus := false, portReason := scanPort "10.0.0.5" 22 },
      ?_, rfl, rfl⟩
    rw [h2]
    exact hX'.mem_iff.mpr (by simp)
  · refine ⟨{ portNumber := 8080, portStatus := false, portReason := scanPort "10.0.0.5" 8080 },
      ?_, rfl, rfl⟩
    rw [h2]
    exact hX'.mem_iff.mpr (by simp)

theorem TCPSweep_single_host_scenario_witness :
    ∃ record,
      TCPSweep (fun _ p => if p = 80 then 0 else -1) (fun _ _ => true)
        (initTargetHosts ["10.0.0.5"] [22, 80, 8080]) ["10.0.0.5"] [22, 80, 8080] 2 =
        some [record] ∧
      record.networkAddress = "10.0.0.5" ∧
      record.isActive = true ∧
      getActivePorts record = [{ portNumber := 80, portStatus := true, portReason := 0 }] ∧
      printedActivePorts record = [{ portNumber := 80, portStatus := true, portReason := 0 }] ∧
      (∃ port ∈ record.portResults, port.portNumber = 22 ∧ port.portStatus = false) ∧
      (∃ port ∈ record.portResults, port.portNumber = 8080 ∧ port.portStatus = false) :=
  TCPSweep_single_host_scenario (fun _ p => if p = 80 then 0 else -1) 2 (by decide)
    (by intro h p; by_cases hp : p = 80 <;> simp [hp])

/-! ### Facts about cancellation -/

theorem pingHosts_events (echo : String → Nat → EchoOutcome) (sendARP : String → ArpReply)
    (enabled : Nat → Bool) (hosts : List String) (st : PingWorkerState)
    (pingResults : List tempResult) :
    ∃ E, (pingHosts echo sendARP enabled hosts st pingResults).2.events = st.events ++ E ∧
      E.Pairwise (fun e₁ e₂ => e₁ = WorkerEvent.check false → ∀ h, e₂ ≠ WorkerEvent.ping h) := by
  induction hosts generalizing st pingResults with
  | nil => exact ⟨[], by simp [pingHosts], List.Pairwise.nil⟩
  | cons host rest ih =>
    rw [pingHosts]
    by_cases hen : enabled st.checks = true
    · rw [if_pos hen]
      cases hres : (pingHost (echo host) sendARP host).result with
      | error e =>
        refine ⟨[WorkerEvent.check true, WorkerEvent.ping host], rfl, ?_⟩
        simp
      | ok val =>
        obtain ⟨pingResult, macAddr⟩ := val
        simp only
        obtain ⟨E, hE, hpw⟩ := ih
          { checks := st.checks + 1,
            events := st.events ++ [WorkerEvent.check true, WorkerEvent.ping host],
            hostsDone := st.hostsDone + 1 }
          (pingResults ++
            [{ hostAddress := host, hostStatus := pingResult, macAddr := macAddr }])
        refine ⟨[WorkerEvent.check true, WorkerEvent.ping host] ++ E, ?_, ?_⟩
        · rw [hE]
          simp
        · rw [List.pairwise_append]
          refine ⟨by simp, hpw, ?_⟩
          intro a ha b _ hab
          simp at ha
          rcases ha with rfl | rfl <;> cases hab
    · rw [if_neg hen]
      exact ⟨[WorkerEvent.check false], rfl, List.pairwise_singleton _ _⟩

theorem pingHosts_full_extends (echo : String → Nat → EchoOutcome)
    (sendARP : String → ArpReply) (hosts : List String) (st : PingWorkerState)
    (pingResults full : List tempResult)
    (hfull : (pingHosts echo sendARP (fun _ => true) hosts st pingResults).1 = Except.ok full) :
    pingResults <+: full := by
  induction hosts generalizing st pingResults with
  | nil =>
    simp only [pingHosts] at hfull
    cases hfull
    exact List.prefix_refl _
  | cons host rest ih =>
    rw [pingHosts, if_pos rfl] at hfull
    cases hres : (pingHost (echo host) sendARP host).result with
    | error e =>
      rw [hres] at hfull
      cases hfull
    | ok val =>
      obtain ⟨pingResult, macAddr⟩ := val
      rw [hres] at hfull
      exact (List.prefix_append _ _).trans (ih _ _ hfull)

theorem pingHosts_cancelled (echo : String → Nat → EchoOutcome) (sendARP : String → ArpReply)
    (enabled : Nat → Bool) (hosts : List String) (st st' : PingWorkerState)
    (pingResults full : List tempResult)
    (hfull : (pingHosts echo sendARP (fun _ => true) hosts st' pingResults).1 =
      Except.ok full) :
    ∃ r, (pingHosts echo sendARP enabled hosts st pingResults).1 = Except.ok r ∧
      r <+: full := by
  induction hosts generalizing st st' pingResults with
  | nil =>
    simp only [pingHosts] at hfull ⊢
    cases hfull
    exact ⟨_, rfl, List.prefix_refl _⟩
  | cons host rest ih =>
    have hext := pingHosts_full_extends echo sendARP (host :: rest) st' pingResults full hfull
    rw [pingHosts, if_pos rfl] at hfull
    rw [pingHosts]
    by_cases hen : enabled st.checks = true
    · rw [if_pos hen]
      cases hres : (pingHost (echo host) sendARP host).result with
      | error e =>
        rw [hres] at hfull
        cases hfull
      | ok val =>
        obtain ⟨pingResult, macAddr⟩ := val
        rw [hres] at hfull
        exact ih _ _ _ hfull
    · rw [if_neg hen]
      exact ⟨_, rfl, hext⟩

theorem pingHosts_disabled (echo : String → Nat → EchoOutcome) (sendARP : String → ArpReply)
    (enabled : Nat → Bool) (hosts : List String) (h0 : enabled 0 = false) :
    (pingHosts echo sendARP enabled hosts {} []).1 = Except.ok [] := by
  cases hosts with
  | nil => rfl
  | cons host rest =>
    rw [pingHosts]
    simp [h0]

theorem scanHost_events_link (scanPort : String → Int → Int) (enabled : Nat → Bool)
    (targetHost : String) (targetPorts : List Int) (st : WorkerState)
    (portResults : List NetworkPort) :
    (scanHost scanPort enabled targetHost targetPorts st portResults).2.probes =
      st.probes ++
        (scanHostEvents enabled targetHost targetPorts st.checks).1.filterMap
          WorkerEvent.probe? ∧
    (scanHost scanPort enabled targetHost targetPorts st portResults).2.checks =
      (scanHostEvents enabled targetHost targetPorts st.checks).2 := by
  induction targetPorts generalizing st portResults with
  | nil => simp [scanHost, scanHostEvents]
  | cons p rest ih =>
    rw [scanHost, scanHostEvents]
    by_cases hen : enabled st.checks = true
    · simp only [hen, Bool.not_true, Bool.false_eq_true, if_false]
      obtain ⟨h1, h2⟩ := ih
        { st with checks := st.checks + 1, probes := st.probes ++ [(targetHost, p)] }
        (portResults ++ [{ portNumber := p, portStatus := scanPort targetHost p == 0,
                           portReason := scanPort targetHost p }])
      refine ⟨?_, h2⟩
      rw [h1]
      simp [WorkerEvent.probe?]
    · have hf : enabled st.checks = false := by simpa using hen
      simp [hf, WorkerEvent.probe?]

theorem scanHosts_events_link (scanPort : String → Int → Int) (enabled : Nat → Bool)
    (targetPorts : List Int) (targetHosts : List String) (st : WorkerState)
    (hostResults : List NetworkNode) :
    (scanHosts scanPort enabled targetPorts targetHosts st hostResults).2.probes =
      st.probes ++
        (scanHostsEvents enabled targetPorts targetHosts st.checks).filterMap
          WorkerEvent.probe? := by
  induction targetHosts generalizing st hostResults with
  | nil => simp [scanHosts, scanHostsEvents]
  | cons h rest ih =>
    rw [scanHosts, scanHostsEvents]
    by_cases hen : enabled st.checks = true
    · simp only [hen, Bool.not_true, Bool.false_eq_true, if_false]
      obtain ⟨h1, h2⟩ := scanHost_events_link scanPort enabled h targetPorts
        { st with checks := st.checks + 1 } []
      rw [ih, h1, h2]
      simp [WorkerEvent.probe?]
    · have hf : enabled st.checks = false := by simpa using hen
      simp [hf, WorkerEvent.probe?]

theorem scanHostEvents_pairwise (enabled : Nat → Bool) (targetHost : String)
    (targetPorts : List Int) (checks : Nat) :
    (scanHostEvents enabled targetHost targetPorts checks).1.Pairwise
      (fun e₁ e₂ => e₁ = WorkerEvent.check false → e₂.probe? = none) := by
  induction targetPorts generalizing checks with
  | nil => simp [scanHostEvents]
  | cons p rest ih =>
    rw [scanHostEvents]
    by_cases hen : enabled checks = true
    · simp only [hen, Bool.not_true, Bool.false_eq_true, if_false]
      refine List.Pairwise.cons (fun _ _ h => by cases h)
        (List.Pairwise.cons (fun _ _ h => by cases h) (ih (checks + 1)))
    · have hf : enabled checks = false := by simpa using hen
      simp [hf]

theorem scanHostEvents_stop (enabled : Nat → Bool) (targetHost : String)
    (targetPorts : List Int) (checks : Nat) :
    checks ≤ (scanHostEvents enabled targetHost targetPorts checks).2 ∧
    (WorkerEvent.check false ∈ (scanHostEvents enabled targetHost targetPorts checks).1 →
      ∃ m, checks ≤ m ∧ m < (scanHostEvents enabled targetHost targetPorts checks).2 ∧
        enabled m = false) := by
  induction targetPorts generalizing checks with
  | nil => simp [scanHostEvents]
  | cons p rest ih =>
    rw [scanHostEvents]
    by_cases hen : enabled checks = true
    · simp only [hen, Bool.not_true, Bool.false_eq_true, if_false]
      obtain ⟨h1, h2⟩ := ih (checks + 1)
      refine ⟨by omega, ?_⟩
      intro hmem
      simp only [List.mem_cons] at hmem
      rcases hmem with h | h | h
      · cases h
      · cases h
      · obtain ⟨m, hm1, hm2, hm3⟩ := h2 h
        exact ⟨m, by omega, hm2, hm3⟩
    · have hf : enabled checks = false := by simpa using hen
      simp only [hf, Bool.not_false, if_true]
      exact ⟨by omega, fun _ => ⟨checks, le_refl _, by omega, hf⟩⟩

theorem scanHostsEvents_quiet (enabled : Nat → Bool) (targetPorts : List Int)
    (targetHosts : List String) (checks : Nat)
    (hq : ∀ m, checks ≤ m → enabled m = false) :
    ∀ e ∈ scanHostsEvents enabled targetPorts targetHosts checks, e.probe? = none := by
  cases targetHosts with
  | nil => simp [scanHostsEvents]
  | cons h rest =>
    rw [scanHostsEvents]
    simp [hq checks (le_refl _), WorkerEvent.probe?]

theorem scanHostsEvents_pairwise (enabled : Nat → Bool)
    (hmono : ∀ m n, m ≤ n → enabled m = false → enabled n = false)
    (targetPorts : List Int) (targetHosts : List String) (checks : Nat) :
    (scanHostsEvents enabled targetPorts targetHosts checks).Pairwise
      (fun e₁ e₂ => e₁ = WorkerEvent.check false → e₂.probe? = none) := by
  induction targetHosts generalizing checks with
  | nil => simp [scanHostsEvents]
  | cons h rest ih =>
    rw [scanHostsEvents]
    by_cases hen : enabled checks = true
    · simp only [hen, Bool.not_true, Bool.false_eq_true, if_false]
      refine List.Pairwise.cons (fun _ _ h => by cases h) ?_
      rw [List.pairwise_append]
      refine ⟨scanHostEvents_pairwise enabled h targetPorts (checks + 1), ih _, ?_⟩
      intro a ha b hb hab
      subst hab
      obtain ⟨m, _, hm2, hm3⟩ := (scanHostEvents_stop enabled h targetPorts (checks + 1)).2 ha
      exact scanHostsEvents_quiet enabled targetPorts rest _
        (fun n hn => hmono m n (by omega) hm3) b hb
    · have hf : enabled checks = false := by simpa using hen
      simp [hf]

theorem scanHost_take (scanPort : String → Int → Int) (enabled : Nat → Bool)
    (targetHost : String) (targetPorts : List Int) (st : WorkerState)
    (portResults : List NetworkPort) :
    ∃ k, k ≤ targetPorts.length ∧
      (scanHost scanPort enabled targetHost targetPorts st portResults).2.probes =
        st.probes ++ (targetPorts.take k).map (fun p => (targetHost, p)) ∧
      (scanHost scanPort enabled targetHost targetPorts st portResults).1 =
        { networkAddress := targetHost,
          requestedPorts :=
            portResults ++ (targetPorts.take k).map (probeResult scanPort targetHost) } ∧
      (k < targetPorts.length → ∃ m,
        m < (scanHost scanPort enabled targetHost targetPorts st portResults).2.checks ∧
          enabled m = false) := by
  induction targetPorts generalizing st portResults with
  | nil => exact ⟨0, le_refl _, by simp [scanHost], by simp [scanHost], by simp⟩
  | cons p rest ih =>
    rw [scanHost]
    by_cases hen : enabled st.checks = true
    · simp only [hen, Bool.not_true, Bool.false_eq_true, if_false]
      obtain ⟨k, hk, h1, h2, h3⟩ := ih
        { st with checks := st.checks + 1, probes := st.probes ++ [(targetHost, p)] }
        (portResults ++ [{ portNumber := p, portStatus := scanPort targetHost p == 0,
                           portReason := scanPort targetHost p }])
      refine ⟨k + 1, by simpa using hk, ?_, ?_, ?_⟩
      · rw [h1]
        simp
      · rw [h2]
        simp [probeResult]
      · intro hlt
        exact h3 (by simpa using hlt)
    · have hf : enabled st.checks = false := by simpa using hen
      simp only [hf, Bool.not_false, if_true]
      exact ⟨0, Nat.zero_le _, by simp, by simp, fun _ => ⟨st.checks, by simp, hf⟩⟩

theorem scanHosts_quiet (scanPort : String → Int → Int) (enabled : Nat → Bool)
    (targetPorts : List Int) (targetHosts : List String) (st : WorkerState)
    (hostResults : List NetworkNode) (hq : ∀ m, st.checks ≤ m → enabled m = false) :
    (scanHosts scanPort enabled targetPorts targetHosts st hostResults).1 = hostResults ∧
    (scanHosts scanPort enabled targetPorts targetHosts st hostResults).2.probes =
      st.probes := by
  cases targetHosts with
  | nil => simp [scanHosts]
  | cons h rest =>
    rw [scanHosts]
    simp [hq st.checks (le_refl _)]

theorem workerPortResults_append (l₁ l₂ : List NetworkNode) :
    workerPortResults (l₁ ++ l₂) = workerPortResults l₁ ++ workerPortResults l₂ := by
  simp [workerPortResults, List.flatMap_append]

theorem scanHosts_cancelled (scanPort : String → Int → Int) (enabled : Nat → Bool)
    (hmono : ∀ m n, m ≤ n → enabled m = false → enabled n = false)
    (targetPorts : List Int) (targetHosts : List String) (st : WorkerState)
    (hostResults : List NetworkNode) :
    ∃ X, X <+: targetHosts ×ˢ targetPorts ∧
      (scanHosts scanPort enabled targetPorts targetHosts st hostResults).2.probes =
        st.probes ++ X ∧
      workerPortResults (scanHosts scanPort enabled targetPorts targetHosts st hostResults).1 =
        workerPortResults hostResults ++
          X.map (fun hp => (hp.1, probeResult scanPort hp.1 hp.2)) := by
  induction targetHosts generalizing st hostResults with
  | nil => exact ⟨[], List.nil_prefix, by simp [scanHosts], by simp [scanHosts]⟩
  | cons h rest ih =>
    rw [scanHosts]
    by_cases hen : enabled st.checks = true
    · simp only [hen, Bool.not_true, Bool.false_eq_true, if_false]
      obtain ⟨k, hk, h1, h2, h3⟩ := scanHost_take scanPort enabled h targetPorts
        { st with checks := st.checks + 1 } []
      have hnode : workerPortResults
          [(scanHost scanPort enabled h targetPorts { st with checks := st.checks + 1 } []).1] =
          ((targetPorts.take k).map (fun p => (h, p))).map
            (fun hp => (hp.1, probeResult scanPort hp.1 hp.2)) := by
        rw [h2]
        simp only [workerPortResults, List.flatMap_cons, List.flatMap_nil, List.append_nil,
          List.nil_append, List.map_map]
        rfl
      rcases Nat.lt_or_ge k targetPorts.length with hlt | hge
      · obtain ⟨m, hm1, hm2⟩ := h3 hlt
        obtain ⟨q1, q2⟩ := scanHosts_quiet scanPort enabled targetPorts rest
          (scanHost scanPort enabled h targetPorts { st with checks := st.checks + 1 } []).2
          (hostResults ++
            [(scanHost scanPort enabled h targetPorts { st with checks := st.checks + 1 } []).1])
          (fun n hn => hmono m n (by omega) hm2)
        refine ⟨(targetPorts.take k).map (fun p => (h, p)), ?_, ?_, ?_⟩
        · rw [List.product_cons]
          exact ((List.take_prefix k targetPorts).map _).trans (List.prefix_append _ _)
        · rw [q2, h1]
        · rw [q1, workerPortResults_append, hnode]
      · have hk' : targetPorts.take k = targetPorts := List.take_of_length_le hge
        rw [hk'] at h1 hnode
        obtain ⟨X, hX1, hX2, hX3⟩ := ih
          (scanHost scanPort enabled h targetPorts { st with checks := st.checks + 1 } []).2
          (hostResults ++
            [(scanHost scanPort enabled h targetPorts { st with checks := st.checks + 1 } []).1])
        refine ⟨targetPorts.map (fun p => (h, p)) ++ X, ?_, ?_, ?_⟩
        · rw [List.product_cons]
          exact (List.prefix_append_right_inj _).mpr hX1
        · rw [hX2, h1]
          simp
        · rw [hX3, workerPortResults_append, hnode]
          simp
    · have hf : enabled st.checks = false := by simpa using hen
      simp only [hf, Bool.not_false, if_true]
      exact ⟨[], List.nil_prefix, by simp, by simp⟩

theorem scanHosts_full_portResults (scanPort : String → Int → Int) (targetPorts : List Int)
    (targetHosts : List String) :
    workerPortResults (scanHosts scanPort (fun _ => true) targetPorts targetHosts {} []).1 =
      (targetHosts ×ˢ targetPorts).map (fun hp => (hp.1, probeResult scanPort hp.1 hp.2)) := by
  rw [scanHosts_enabled_results, List.nil_append]
  induction targetHosts with
  | nil => rfl
  | cons h rest ih =>
    rw [List.map_cons, show (resultNode scanPort targetPorts h ::
      List.map (resultNode scanPort targetPorts) rest) =
      [resultNode scanPort targetPorts h] ++ List.map (resultNode scanPort targetPorts) rest
      from rfl, workerPortResults_append, ih, List.product_cons, List.map_append]
    simp [workerPortResults, resultNode, List.map_map, Function.comp]

/-- C17 does not hold as stated for the port-scan worker: the flag reads false
at check number 2 (the second port of the first host) and true again
afterwards; scanHost returns, but scanHosts reads the flag anew for the next
host and goes on to connect, so connect attempts follow a check that read
false, and the probes made are not a prefix of the full run's. -/
theorem cancellation_counterexample :
    (fun n => n != 2 : Nat → Bool) 2 = false ∧
    scanHostsEvents (fun n => n != 2) [22, 80] ["10.0.0.1", "10.0.0.2"] 0 =
      [WorkerEvent.check true, WorkerEvent.check true, WorkerEvent.connect "10.0.0.1" 22,
       WorkerEvent.check false,
       WorkerEvent.check true, WorkerEvent.check true, WorkerEvent.connect "10.0.0.2" 22,
       WorkerEvent.check true, WorkerEvent.connect "10.0.0.2" 80] ∧
    (scanHosts (fun _ _ => 0) (fun n => n != 2) [22, 80] ["10.0.0.1", "10.0.0.2"]
      {} []).2.probes = [("10.0.0.1", 22), ("10.0.0.2", 22), ("10.0.0.2", 80)] ∧
    ¬ ((scanHosts (fun _ _ => 0) (fun n => n != 2) [22, 80] ["10.0.0.1", "10.0.0.2"]
        {} []).2.probes <+:
      (scanHosts (fun _ _ => 0) (fun _ => true) [22, 80] ["10.0.0.1", "10.0.0.2"]
        {} []).2.probes) := by
  refine ⟨by decide, by decide, by decide, by decide⟩

/-- C17 (as the code behaves).  A ping worker, for every sequence of flag
values: no ping follows a check that read false, its results are a prefix of
the full run's results, and they are empty when the first check reads false.
A port-scan worker: its probes are the connect events of its run, and nothing
is returned or probed when the first check reads false; when the flag, once
read false, is never read true again, no connect follows a check that read
false, the probes are a prefix of the full run's probes, and the port results
returned, host by host in order, are a prefix of the full run's. -/
theorem cancellation_stops_worker (echo : String → Nat → EchoOutcome) (sendARP : String → ArpReply)
    (scanPort : String → Int → Int) (enabled : Nat → Bool) (hosts : List String)
    (ports : List Int) :
    ((pingHosts echo sendARP enabled hosts {} []).2.events.Pairwise
        (fun e₁ e₂ => e₁ = WorkerEvent.check false → ∀ h, e₂ ≠ WorkerEvent.ping h) ∧
      (∀ full, (pingHosts echo sendARP (fun _ => true) hosts {} []).1 = Except.ok full →
        ∃ r, (pingHosts echo sendARP enabled hosts {} []).1 = Except.ok r ∧ r <+: full) ∧
      (enabled 0 = false → (pingHosts echo sendARP enabled hosts {} []).1 = Except.ok [])) ∧
    ((scanHosts scanPort enabled ports hosts {} []).2.probes =
        (scanHostsEvents enabled ports hosts 0).filterMap WorkerEvent.probe? ∧
      (enabled 0 = false →
        (scanHosts scanPort enabled ports hosts {} []).1 = [] ∧
        (scanHosts scanPort enabled ports hosts {} []).2.probes = [])) ∧
    ((∀ m n, m ≤ n → enabled m = false → enabled n = false) →
      (scanHostsEvents enabled ports hosts 0).Pairwise
        (fun e₁ e₂ => e₁ = WorkerEvent.check false → e₂.probe? = none) ∧
      (scanHosts scanPort enabled ports hosts {} []).2.probes <+:
        (scanHosts scanPort (fun _ => true) ports hosts {} []).2.probes ∧
      workerPortResults (scanHosts scanPort enabled ports hosts {} []).1 <+:
        workerPortResults (scanHosts scanPort (fun _ => true) ports hosts {} []).1) := by
  refine ⟨⟨?_, ?_, ?_⟩, ⟨?_, ?_⟩, ?_⟩
  · obtain ⟨E, hE, hpw⟩ := pingHosts_events echo sendARP enabled hosts {} []
    rw [hE]
    simpa using hpw
  · intro full hfull
    exact pingHosts_cancelled echo sendARP enabled hosts {} {} [] full hfull
  · exact pingHosts_disabled echo sendARP enabled hosts
  · have h := scanHosts_events_link scanPort enabled ports hosts {} []
    simpa using h
  · intro h0
    cases hosts with
    | nil => simp [scanHosts]
    | cons h rest =>
      rw [scanHosts]
      have h0' : enabled ({} : WorkerState).checks = false := h0
      simp [h0']
  · intro hmono
    refine ⟨scanHostsEvents_pairwise enabled hmono ports hosts 0, ?_, ?_⟩
    · obtain ⟨X, hX1, hX2, _⟩ := scanHosts_cancelled scanPort enabled hmono ports hosts {} []
      rw [hX2, scanHosts_enabled_probes]
      exact (List.prefix_append_right_inj _).mpr hX1
    · obtain ⟨X, hX1, _, hX3⟩ := scanHosts_cancelled scanPort enabled hmono ports hosts {} []
      rw [hX3, scanHosts_full_portResults]
      have hnil : workerPortResults [] = [] := rfl
      rw [hnil, List.nil_append]
      exact hX1.map _

theorem cancellation_stops_worker_witness :
    (scanHostsEvents (fun n => decide (n < 4)) [22, 80] ["10.0.0.1", "10.0.0.2"] 0).Pairwise
        (fun e₁ e₂ => e₁ = WorkerEvent.check false → e₂.probe? = none) ∧
      (scanHosts (fun _ _ => 0) (fun n => decide (n < 4)) [22, 80] ["10.0.0.1", "10.0.0.2"]
        {} []).2.probes <+:
        (scanHosts (fun _ _ => 0) (fun _ => true) [22, 80] ["10.0.0.1", "10.0.0.2"]
          {} []).2.probes ∧
      workerPortResults (scanHosts (fun _ _ => 0) (fun n => decide (n < 4)) [22, 80]
          ["10.0.0.1", "10.0.0.2"] {} []).1 <+:
        workerPortResults (scanHosts (fun _ _ => 0) (fun _ => true) [22, 80]
          ["10.0.0.1", "10.0.0.2"] {} []).1 :=
  (cancellation_stops_worker (fun _ _ => EchoOutcome.noReply) (fun _ => ⟨NO_ERROR, []⟩)
    (fun _ _ => 0) (fun n => decide (n < 4)) ["10.0.0.1", "10.0.0.2"] [22, 80]).2.2
    (by
      intro m n hmn hm
      simp only [decide_eq_false_iff_not] at hm ⊢
      omega)


/-! ### What a connect attempt records -/

/-- C21 (where the code departs from it): scanHost of ScanHandler.cpp records
a probe as open exactly when `connect` returned 0, and as the reason it stores
the value `connect` returned, so a refused connection (return value
`SOCKET_ERROR`, error code 10061) is recorded closed with reason -1 whatever
the error code is; a successful connect is recorded open. -/
theorem scanHost_reason_is_return_value :
    (∀ (connect : String → Int → ConnectOutcome) (targetHost : String) (port : Int),
      (scanHost (scanPort connect) (fun _ => true) targetHost [port] {} []).1.requestedPorts =
        [{ portNumber := port,
           portStatus := (connect targetHost port).connectionResult == 0,
           portReason := (connect targetHost port).connectionResult }]) ∧
    (scanHost (scanPort (fun _ _ => ⟨SOCKET_ERROR, 10061⟩)) (fun _ => true) "10.0.0.1" [81]
        {} []).1.requestedPorts =
      [{ portNumber := 81, portStatus := false, portReason := -1 }] ∧
    (scanHost (scanPort (fun _ _ => ⟨0, 0⟩)) (fun _ => true) "10.0.0.1" [80]
        {} []).1.requestedPorts =
      [{ portNumber := 80, portStatus := true, portReason := 0 }] := by
  refine ⟨?_, ?_, ?_⟩
  · intro connect targetHost port
    simp [scanHost, scanPort]
  · decide
  · decide

/-- The older scanner portScan of NetHandler.cpp keeps the error code of a
failed connect: the connection to port 81 is refused with error code 10061,
the stop flag is found set before port 82, and the result returned holds the
code 10061 as the close reason of port 81. -/
theorem portScan_keeps_error_code :
    portScan (fun _ _ => ⟨SOCKET_ERROR, 10061⟩) (fun n => decide (1 ≤ n)) "10.0.0.1" [81, 82]
        0 false [] =
      some [{ portNumber := 81, portOpen := false, closeReason := 10061 }] := by
  decide

/-! ### Service names -/

/-- The branches of getExpectedService: for every port and map the label is
"unknown", the misspelt "unkown" or the stored name; a port without an entry
yields "unknown"; the misspelt label is what the branch for an empty stored
name returns. -/
theorem getExpectedService_empty_name :
    (∀ (netPort : NetworkPort) (serviceMap : Int → Option String),
      getExpectedService netPort serviceMap = "unknown" ∨
      getExpectedService netPort serviceMap = "unkown" ∨
      serviceMap netPort.portNumber = some (getExpectedService netPort serviceMap)) ∧
    (∀ (netPort : NetworkPort) (serviceMap : Int → Option String),
      getExpectedService netPort
        (fun n => if n = netPort.portNumber then none else serviceMap n) = "unknown") ∧
    getExpectedService { portNumber := 80, portStatus := true, portReason := 0 }
      (fun n => if n = 80 then some "" else none) = "unkown" ∧
    "unkown" ≠ "unknown" ∧ "unkown" ≠ "" := by
  refine ⟨?_, ?_, ?_, ?_, ?_⟩
  · intro netPort serviceMap
    unfold getExpectedService
    cases h : serviceMap netPort.portNumber with
    | none => exact Or.inl rfl
    | some serviceName =>
      by_cases h0 : serviceName.length = 0
      · simp [h0]
      · simp [h0]
  · intro netPort serviceMap
    simp [getExpectedService]
  · decide
  · decide
  · decide

theorem pingHosts_full_length (echo : String → Nat → EchoOutcome)
    (sendARP : String → ArpReply) (hosts : List String) (st : PingWorkerState)
    (pingResults full : List tempResult)
    (hfull : (pingHosts echo sendARP (fun _ => true) hosts st pingResults).1 = Except.ok full) :
    full.length = pingResults.length + hosts.length := by
  induction hosts generalizing st pingResults with
  | nil =>
    simp only [pingHosts] at hfull
    cases hfull
    simp
  | cons host rest ih =>
    simp only [pingHosts, if_true] at hfull
    split at hfull
    · cases hfull
    · have := ih _ _ hfull
      simp at this ⊢
      omega

theorem pingHosts_results_lengths (echo : String → Nat → EchoOutcome)
    (sendARP : String → ArpReply) (groups : List (List String))
    (futureResults : List (List tempResult))
    (hres : groups.map (fun g => (pingHosts echo sendARP (fun _ => true) g {} []).1) =
      futureResults.map Except.ok) :
    futureResults.map List.length = groups.map List.length := by
  apply List.ext_getElem
  · simpa using (congrArg List.length hres).symm
  · intro n h1 h2
    simp only [List.getElem_map]
    have hn := congrArg (fun l => l[n]?) hres
    simp only [List.getElem?_map] at hn
    simp only [List.length_map] at h1 h2
    rw [List.getElem?_eq_getElem h2, List.getElem?_eq_getElem h1] at hn
    simp only [Option.map_some'] at hn
    have := pingHosts_full_length echo sendARP _ _ _ _ (Option.some.inj hn)
    simpa using this

theorem pingSweepGroups_four_three (sample : Nat → List String → Nat → List String)
    (shuffle : Nat → List String → List String) (hostNames : List String)
    (hsample : ValidSample sample) (hshuffle : ValidShuffle shuffle)
    (hlen : hostNames.length = 4) (hdistinct : hostNames.Nodup) :
    ∃ groups, pingSweepGroups sample shuffle hostNames 3 = some groups ∧
      groups.map List.length = [2, 2, 0] := by
  have hsz : pingSizing hostNames.length 3 = some (3, 2) := by rw [hlen]; rfl
  refine ⟨pingGroupsLoop sample shuffle 2 3 0 hostNames, by simp only [pingSweepGroups, hsz], ?_⟩
  simp only [pingGroupsLoop, List.map_cons, List.map_nil, (hshuffle _ _).length_eq]
  have h0 := (hsample 0 hostNames 2).2
  have p0 := (sample_append_remaining_perm _ _ hdistinct (hsample 0 hostNames 2).1).length_eq
  have n0 : ((sample 0 hostNames 2).foldl eraseAll hostNames).Nodup := by
    rw [foldl_eraseAll]; exact hdistinct.filter _
  have h1 := (hsample (0 + 1) ((sample 0 hostNames 2).foldl eraseAll hostNames) 2).2
  have p1 := (sample_append_remaining_perm _ _ n0
    (hsample (0 + 1) ((sample 0 hostNames 2).foldl eraseAll hostNames) 2).1).length_eq
  have h2 := (hsample (0 + 1 + 1)
    ((sample (0 + 1) ((sample 0 hostNames 2).foldl eraseAll hostNames) 2).foldl eraseAll
      ((sample 0 hostNames 2).foldl eraseAll hostNames)) 2).2
  simp only [List.length_append] at p0 p1
  rw [hlen] at h0 p0
  have e0 : (sample 0 hostNames 2).length = 2 := by omega
  have e1 : (sample (0 + 1) ((sample 0 hostNames 2).foldl eraseAll hostNames) 2).length = 2 := by
    omega
  have e2 : (sample (0 + 1 + 1)
    ((sample (0 + 1) ((sample 0 hostNames 2).foldl eraseAll hostNames) 2).foldl eraseAll
      ((sample 0 hostNames 2).foldl eraseAll hostNames)) 2).length = 0 := by
    omega
  rw [e0, e1, e2]

theorem pingSweepJoins_two_two_zero (futureResults : List (List tempResult))
    (h : futureResults.map List.length = [2, 2, 0]) :
    pingSweepJoins 4 futureResults 0 {} = none := by
  match futureResults, h with
  | [], h => simp at h
  | [_], h => simp at h
  | [_, _], h => simp at h
  | _ :: _ :: _ :: _ :: _, h => simp at h
  | [a, b, c], h =>
    simp only [List.map_cons, List.map_nil, List.cons.injEq, and_true] at h
    obtain ⟨ha, hb, hc⟩ := h
    simp [pingSweepJoins, ConsoleThread.join, ha, hb, hc]

theorem pingSweepJoins_two_two (futureResults : List (List tempResult))
    (h : futureResults.map List.length = [2, 2]) :
    pingSweepJoins 4 futureResults 0 {} = some { joinable := false, joins := 1 } := by
  match futureResults, h with
  | [], h => simp at h
  | [_], h => simp at h
  | _ :: _ :: _ :: _, h => simp at h
  | [a, b], h =>
    simp only [List.map_cons, List.map_nil, List.cons.injEq, and_true] at h
    obtain ⟨ha, hb⟩ := h
    simp [pingSweepJoins, ConsoleThread.join, ha, hb]

/-- C23 does not hold for H = 4 and T = 3: the groups have sizes 2, 2 and 0,
so in every uncancelled run in which no worker throws the count reaches 4
after the second worker, the console thread is joined there, and after the
third, empty, result the test `pingCount == hostCount` holds again and the
thread that is no longer joinable is joined a second time, which throws. -/
theorem pingSweep_joins_twice (sample : Nat → List String → Nat → List String)
    (shuffle : Nat → List String → List String) (echo : String → Nat → EchoOutcome)
    (sendARP : String → ArpReply) (hostNames : List String)
    (futureResults : List (List tempResult))
    (hsample : ValidSample sample) (hshuffle : ValidShuffle shuffle)
    (hlen : hostNames.length = 4) (hdistinct : hostNames.Nodup) :
    ∃ groups, pingSweepGroups sample shuffle hostNames 3 = some groups ∧
      groups.map List.length = [2, 2, 0] ∧
      (groups.map (fun g => (pingHosts echo sendARP (fun _ => true) g {} []).1) =
          futureResults.map Except.ok →
        pingSweepJoins 4 futureResults 0 {} = none) := by
  obtain ⟨groups, hg, hl⟩ :=
    pingSweepGroups_four_three sample shuffle hostNames hsample hshuffle hlen hdistinct
  refine ⟨groups, hg, hl, fun hres => pingSweepJoins_two_two_zero futureResults ?_⟩
  rw [← hl]
  exact pingHosts_results_lengths echo sendARP groups futureResults hres

theorem pingSweep_joins_twice_witness :
    ∃ groups,
      pingSweepGroups (fun _ pool n => pool.take n) (fun _ l => l)
        ["10.0.0.1", "10.0.0.2", "10.0.0.3", "10.0.0.4"] 3 = some groups ∧
      groups.map List.length = [2, 2, 0] ∧
      (groups.map (fun g => (pingHosts (fun _ _ => EchoOutcome.noReply)
            (fun _ => ⟨NO_ERROR, []⟩) (fun _ => true) g {} []).1) =
          ([[{ hostAddress := "10.0.0.1" }, { hostAddress := "10.0.0.2" }],
            [{ hostAddress := "10.0.0.3" }, { hostAddress := "10.0.0.4" }],
            []] : List (List tempResult)).map Except.ok →
        pingSweepJoins 4
          [[{ hostAddress := "10.0.0.1" }, { hostAddress := "10.0.0.2" }],
            [{ hostAddress := "10.0.0.3" }, { hostAddress := "10.0.0.4" }],
            []] 0 {} = none) :=
  pingSweep_joins_twice (fun _ pool n => pool.take n) (fun _ l => l)
    (fun _ _ => EchoOutcome.noReply) (fun _ => ⟨NO_ERROR, []⟩)
    ["10.0.0.1", "10.0.0.2", "10.0.0.3", "10.0.0.4"]
    [[{ hostAddress := "10.0.0.1" }, { hostAddress := "10.0.0.2" }],
      [{ hostAddress := "10.0.0.3" }, { hostAddress := "10.0.0.4" }],
      []]
    (fun _ pool n => ⟨List.take_sublist n pool, List.length_take n pool⟩)
    (fun _ l => List.Perm.refl l) (by decide) (by decide)

/-! ### The validators -/

theorem isspace_of_isDigit (c : Char) (hc : c.isDigit = true) : isspace c = false := by
  simp only [Char.isDigit, Bool.and_eq_true, decide_eq_true_eq] at hc
  have h1 : 48 ≤ c.toNat := hc.1
  simp only [isspace, Bool.or_eq_false_iff, decide_eq_false_iff_not, Bool.and_eq_false_iff]
  omega

theorem stoi_digits (ds : List Char) (hds : IsDigits ds) :
    stoi (String.mk ds) =
      if 2147483647 < decVal ds then Except.error StoiException.out_of_range
      else Except.ok (decVal ds : Int) := by
  obtain ⟨hne, hdig⟩ := hds
  obtain ⟨c, cs, rfl⟩ := List.exists_cons_of_ne_nil hne
  have hc : c.isDigit = true := hdig c (List.mem_cons_self _ _)
  have hsp := isspace_of_isDigit c hc
  have hm : c ≠ '-' := by rintro rfl; simp at hc
  have hp : c ≠ '+' := by rintro rfl; simp at hc
  have hsd := scanDigits_all (c :: cs) hdig
  have hdw : (c :: cs).dropWhile isspace = c :: cs := by simp [List.dropWhile_cons, hsp]
  simp only [stoi, hdw, List.head?_cons, Option.some.injEq, hm, hp, or_self, if_false, hsd,
    reduceCtorEq]
  have h0 : ¬ ((decVal (c :: cs) : Int) < -2147483648) := by omega
  by_cases hbig : 2147483647 < decVal (c :: cs)
  · have : (2147483647 : Int) < (decVal (c :: cs) : Int) := by exact_mod_cast hbig
    simp [hbig, this]
  · have : ¬ (2147483647 : Int) < (decVal (c :: cs) : Int) := by
      intro h; exact hbig (by exact_mod_cast h)
    simp [hbig, this, h0]

/-- C24: for every non-empty string of decimal digits whose value fits in a
32-bit `int`, validatePort returns a result, and the result's outcome is true
exactly when the value is between 1 and 65355, both included. -/
theorem validatePort_range (ds : List Char) (hds : IsDigits ds)
    (hfit : decVal ds ≤ 2147483647) :
    ∃ r, validatePort (ArgValue.string (String.mk ds)) = Except.ok r ∧
      (r.outcome = true ↔ 1 ≤ decVal ds ∧ decVal ds ≤ 65355) := by
  have hs := stoi_digits ds hds
  rw [if_neg (by omega)] at hs
  simp only [validatePort, hs, PORT_LIMIT]
  by_cases hr : (decVal ds : Int) > 65355 ∨ (decVal ds : Int) ≤ 0
  · rw [if_pos hr]
    refine ⟨_, rfl, ?_⟩
    simp only [Bool.false_eq_true, false_iff]
    omega
  · rw [if_neg hr]
    refine ⟨_, rfl, ?_⟩
    simp only [true_iff]
    omega

theorem validatePort_range_witness :
    ∃ r, validatePort (ArgValue.string "65356") = Except.ok r ∧
      (r.outcome = true ↔ 1 ≤ decVal "65356".data ∧ decVal "65356".data ≤ 65355) :=
  validatePort_range "65356".data (by decide) (by decide)

theorem byteSize_ascii (l : List Char) (hascii : ∀ c ∈ l, c.toNat < 128) :
    byteSize (String.mk l) = l.length := by
  have hgo : ∀ l : List Char, (∀ c ∈ l, c.toNat < 128) →
      String.utf8ByteSize.go l = l.length := by
    intro l
    induction l with
    | nil => intro _; rfl
    | cons c cs ih =>
      intro h
      have hc : c.toNat < 128 := h c (List.mem_cons_self _ _)
      have hle : c.val ≤ 127 := Nat.lt_succ_iff.mp hc
      have h1 : c.utf8Size = 1 := by simp [Char.utf8Size, hle]
      simp only [String.utf8ByteSize.go, List.length_cons, h1,
        ih (fun x hx => h x (List.mem_cons_of_mem _ hx))]
  exact hgo l hascii

/-- C29 (where the code departs from it): the loop of validateTarget over the
characters has an `if` with an empty body, so no character is ever refused.
For every non-empty string of ASCII characters the outcome is true exactly
when the string has at most 253 characters and neither starts nor ends with a
hyphen, whatever its characters are; the targets "bad host", with a space, and
"bad_host", with an underscore, are accepted. -/
theorem validateTarget_ignores_characters (cs : List Char) (back : Char)
    (hascii : ∀ c ∈ cs ++ [back], c.toNat < 128) :
    (validateTarget (ArgValue.string (String.mk (cs ++ [back])))).map
        (fun r => r.outcome) =
      Except.ok (decide ((cs ++ [back]).length ≤ 253 ∧ (cs ++ [back]).head? ≠ some '-' ∧
        back ≠ '-')) ∧
    validateTarget (ArgValue.string "bad host") =
      Except.ok { outcome := true, outcomeMessage := "" } ∧
    validateTarget (ArgValue.string "bad_host") =
      Except.ok { outcome := true, outcomeMessage := "" } := by
  refine ⟨?_, by rfl, by rfl⟩
  have hsize := byteSize_ascii (cs ++ [back]) hascii
  have hlast : (cs ++ [back]).getLast? = some back := by simp
  obtain ⟨front, hfront⟩ : ∃ front, (cs ++ [back]).head? = some front := by
    cases cs with
    | nil => exact ⟨back, rfl⟩
    | cons c rest => exact ⟨c, rfl⟩
  simp only [validateTarget, hsize, hlast, hfront, HOST_LEN_MAX]
  by_cases hlen : (cs ++ [back]).length > 253
  · rw [if_pos hlen]
    have : ¬ (cs ++ [back]).length ≤ 253 := by omega
    simp only [Except.map]
    congr 1
    symm
    simp only [decide_eq_false_iff_not]
    exact fun h => this h.1
  · rw [if_neg hlen]
    have hle : (cs ++ [back]).length ≤ 253 := by omega
    by_cases hh : front = '-' ∨ back = '-'
    · rw [if_pos hh]
      simp only [Except.map]
      congr 1
      symm
      simp only [decide_eq_false_iff_not, ne_eq, Option.some.injEq, not_and, not_not]
      intro _ hf
      rcases hh with h | h
      · exact absurd h hf
      · exact h
    · rw [if_neg hh]
      simp only [Except.map]
      congr 1
      symm
      simp only [decide_eq_true_eq, ne_eq, Option.some.injEq]
      exact ⟨hle, fun h => hh (Or.inl h), fun h => hh (Or.inr h)⟩

theorem validateTarget_ignores_characters_witness :
    (validateTarget (ArgValue.string "my host_1")).map (fun r => r.outcome) =
      Except.ok (decide ("my host_1".data.length ≤ 253 ∧
        "my host_1".data.head? ≠ some '-' ∧ '1' ≠ '-')) ∧
    validateTarget (ArgValue.string "bad host") =
      Except.ok { outcome := true, outcomeMessage := "" } ∧
    validateTarget (ArgValue.string "bad_host") =
      Except.ok { outcome := true, outcomeMessage := "" } :=
  validateTarget_ignores_characters "my host_".data '1' (by decide)

set_option maxRecDepth 100000 in
/-- The length test of validateTarget counts bytes: a target of 127 characters
of two bytes each has 254 bytes and is refused. -/
theorem validateTarget_counts_bytes :
    byteSize (String.mk (List.replicate 127 (Char.ofNat 233))) = 254 ∧
    (validateTarget (ArgValue.string (String.mk (List.replicate 127 (Char.ofNat 233))))).map
      (fun r => r.outcome) = Except.ok false := by
  have h : byteSize (String.mk (List.replicate 127 (Char.ofNat 233))) = 254 := by decide
  refine ⟨h, ?_⟩
  simp only [validateTarget, h, HOST_LEN_MAX]
  rfl

/-! ### Command-line arguments -/

/-- C28 does not hold: with the arguments of the program, whose only required
one is the target, the command line made of the single token `-t` makes
parseArgs return true, since the flag alone marks the target as present, yet
no value was handled and the target has no default, so getHandledArg returns
the empty list for it. -/
theorem parseArgs_flag_without_value :
    ∀ (defaultPorts : List Int) (defaultThreads : Int),
      ((argSetup defaultPorts defaultThreads).filter (fun arg => arg.isRequired)).map
          (fun arg => arg.longFlag) = ["target"] ∧
      (parseArgs (newCLIHandler (argSetup defaultPorts defaultThreads)) ["-t"]).map
          (fun r => (r.1, (getHandledArg r.2 "target").length)) = Except.ok (true, 0) ∧
      (parseArgs (newCLIHandler (argSetup defaultPorts defaultThreads)) ["-t", "10.0.0.1"]).map
          (fun r => (r.1, (getHandledArg r.2 "target").length)) = Except.ok (true, 1) ∧
      (parseArgs (newCLIHandler (argSetup defaultPorts defaultThreads)) []).map
          (fun r => (r.1, (getHandledArg r.2 "target").length)) =
        Except.error (CLIFailure.invalidArgument "Missing argument: (target) is required!") := by
  intro defaultPorts defaultThreads
  exact ⟨rfl, rfl, rfl, rfl⟩

/-! ### The round-robin buckets -/

/-- C25: for every list and every thread count T of at least 1, the round
robin of TCPSweep builds T buckets, bucket `i` holds the elements at the
indices congruent to `i` modulo T in their original order, every index lies in
the index set of exactly one bucket, and for pairwise distinct elements two
different buckets have no element in common. -/
theorem roundRobin_buckets {α : Type} (d : α) (L : List α) (T : Nat) (hT : 1 ≤ T) :
    (roundRobin T L).length = T ∧
    (∀ i, i < T →
      (roundRobin T L).getD i [] =
        ((List.range L.length).filter (fun j => decide (j % T = i))).map
          (fun j => L.getD j d)) ∧
    (∀ j, j < L.length →
      ∃! i, i < T ∧ j ∈ (List.range L.length).filter (fun j => decide (j % T = i))) ∧
    (L.Nodup → ∀ i k, i < T → k < T → i ≠ k →
      List.Disjoint ((roundRobin T L).getD i []) ((roundRobin T L).getD k [])) := by
  refine ⟨roundRobin_length T L, fun i hi => roundRobin_getD T d L i hi, ?_, ?_⟩
  · intro j hj
    refine ⟨j % T, ⟨Nat.mod_lt _ (by omega), ?_⟩, ?_⟩
    · simp [hj]
    · rintro i ⟨_, hmem⟩
      simp only [List.mem_filter, decide_eq_true_eq] at hmem
      exact hmem.2.symm
  · intro hnodup i k hi hk hik x hxi hxk
    rw [roundRobin_getD T d L i hi] at hxi
    rw [roundRobin_getD T d L k hk] at hxk
    simp only [List.mem_map, List.mem_filter, List.mem_range, decide_eq_true_eq] at hxi hxk
    obtain ⟨j, ⟨hj, hji⟩, hjx⟩ := hxi
    obtain ⟨j2, ⟨hj2, hjk⟩, hjx2⟩ := hxk
    rw [List.getD_eq_getElem _ _ hj] at hjx
    rw [List.getD_eq_getElem _ _ hj2] at hjx2
    have hjj : j = j2 := (List.Nodup.getElem_inj_iff hnodup).mp (hjx.trans hjx2.symm)
    subst hjj
    exact hik (hji.symm.trans hjk)

theorem roundRobin_buckets_witness :
    (roundRobin 2 ["a", "b", "c", "d", "e"]).length = 2 ∧
    (∀ i, i < 2 →
      (roundRobin 2 ["a", "b", "c", "d", "e"]).getD i [] =
        ((List.range ["a", "b", "c", "d", "e"].length).filter
          (fun j => decide (j % 2 = i))).map (fun j => ["a", "b", "c", "d", "e"].getD j "")) ∧
    (∀ j, j < ["a", "b", "c", "d", "e"].length →
      ∃! i, i < 2 ∧
        j ∈ (List.range ["a", "b", "c", "d", "e"].length).filter
          (fun j => decide (j % 2 = i))) ∧
    (["a", "b", "c", "d", "e"].Nodup → ∀ i k, i < 2 → k < 2 → i ≠ k →
      List.Disjoint ((roundRobin 2 ["a", "b", "c", "d", "e"]).getD i [])
        ((roundRobin 2 ["a", "b", "c", "d", "e"]).getD k [])) :=
  roundRobin_buckets "" ["a", "b", "c", "d", "e"] 2 (by decide)

/-! ### The hosts the TCP sweep probes -/

theorem roundRobin_getD_subset {α : Type} (T : Nat) (hT : 1 ≤ T) (items : List α) (i : Nat)
    (x : α) (hx : x ∈ (roundRobin T items).getD i []) : x ∈ items := by
  by_cases hi : i < (roundRobin T items).length
  · rw [List.getD_eq_getElem _ _ hi] at hx
    exact (roundRobin_flatten_perm T hT items).subset
      (List.mem_flatten.mpr ⟨_, List.getElem_mem hi, hx⟩)
  · rw [List.getD_eq_default _ _ (by omega)] at hx
    cases hx

theorem roundRobin_mem_bucket {α : Type} (T : Nat) (hT : 1 ≤ T) (items : List α) (x : α)
    (hx : x ∈ items) : ∃ i, i < T ∧ x ∈ (roundRobin T items).getD i [] := by
  have hmem := (roundRobin_flatten_perm T hT items).symm.subset hx
  obtain ⟨bucket, hb, hxb⟩ := List.mem_flatten.mp hmem
  obtain ⟨i, hi, rfl⟩ := List.getElem_of_mem hb
  refine ⟨i, by rw [roundRobin_length] at hi; exact hi, ?_⟩
  rw [List.getD_eq_getElem _ _ hi]
  exact hxb

theorem roundRobin_bucket_ne_nil {α : Type} (T : Nat) (d : α) (items : List α) (i : Nat)
    (hi : i < T) (hlen : i < items.length) : (roundRobin T items).getD i [] ≠ [] := by
  rw [roundRobin_getD T d items i hi]
  intro h
  have hmem : i ∈ (List.range items.length).filter (fun j => decide (j % T = i)) := by
    simp [hlen, Nat.mod_eq_of_lt hi]
  have := List.mem_map_of_mem (fun j => items.getD j d) hmem
  rw [h] at this
  cases this

theorem TCPSweepJobs_hosts_covered (hostNames : List String) (targetPorts : List Int)
    (maxThreads : Nat) (hT : 1 ≤ maxThreads) (hP : targetPorts ≠ []) :
    ∃ jobs, TCPSweepJobs hostNames targetPorts maxThreads = some jobs ∧
      ∀ host, host ∈ hostNames ↔
        ∃ port, (host, port) ∈ (jobs.map (fun job => job.1 ×ˢ job.2)).flatten := by
  by_cases hlarge : maxThreads < hostNames.length ∧ maxThreads < targetPorts.length
  · refine ⟨_, TCPSweepJobs_both_large hostNames targetPorts maxThreads hT hlarge.1 hlarge.2, ?_⟩
    intro host
    simp only [List.mem_flatten, List.mem_map, List.mem_range, exists_exists_and_eq_and,
      List.mem_product]
    constructor
    · intro hh
      obtain ⟨i, hi, hmem⟩ := roundRobin_mem_bucket maxThreads hT hostNames host hh
      obtain ⟨port, hport⟩ := List.exists_mem_of_ne_nil _
        (roundRobin_bucket_ne_nil maxThreads (0 : Int) targetPorts i hi (by omega))
      exact ⟨port, i, hi, hmem, hport⟩
    · rintro ⟨port, i, _, hmem, _⟩
      exact roundRobin_getD_subset maxThreads hT hostNames i host hmem
  · obtain ⟨jobs, hjobs, hperm⟩ := TCPSweepJobs_probes_perm hostNames targetPorts maxThreads hT
      (by omega)
    refine ⟨jobs, hjobs, ?_⟩
    intro host
    obtain ⟨port0, hport0⟩ := List.exists_mem_of_ne_nil _ hP
    constructor
    · intro hh
      exact ⟨port0, hperm.symm.subset (List.mem_product.mpr ⟨hh, hport0⟩)⟩
    · rintro ⟨port, hmem⟩
      exact (List.mem_product.mp (hperm.subset hmem)).1

/-- C26: the connect attempts of ScanHandler::TCPSweep are built from the
session's host names, its thread count and the ports alone.  Two sessions with
the same host names and thread count make the same attempts whatever their
host records hold, so the liveness flags, set or not by an earlier ping sweep,
change nothing; and in an uncancelled sweep with at least one thread and at
least one port the hosts probed are exactly the hosts of the host list. -/
theorem TCPSweep_ignores_liveness (scanPort : String → Int → Int)
    (enabled : Nat → Nat → Bool) (s₁ s₂ : ScanHandler) (targetPorts : List Int)
    (hnames : s₁.hostNames = s₂.hostNames) (hthreads : s₁.maxThreads = s₂.maxThreads)
    (hT : 1 ≤ s₁.maxThreads) (hP : targetPorts ≠ []) :
    (ScanHandler.TCPSweep scanPort enabled s₁ targetPorts).map Prod.snd =
      (ScanHandler.TCPSweep scanPort enabled s₂ targetPorts).map Prod.snd ∧
    ∃ probes,
      (ScanHandler.TCPSweep scanPort (fun _ _ => true) s₁ targetPorts).map Prod.snd =
        some probes ∧
      ∀ host, host ∈ s₁.hostNames ↔ ∃ port, (host, port) ∈ probes.flatten := by
  refine ⟨?_, ?_⟩
  · simp only [ScanHandler.TCPSweep, Option.map_map, hnames, hthreads]
    rfl
  · obtain ⟨jobs, hjobs, hcov⟩ :=
      TCPSweepJobs_hosts_covered s₁.hostNames targetPorts s₁.maxThreads hT hP
    refine ⟨jobs.map (fun job => job.1 ×ˢ job.2), ?_, hcov⟩
    simp only [ScanHandler.TCPSweep, TCPSweepWorkers, hjobs, Option.map_some', Option.some.injEq]
    exact workers_probes_uncancelled scanPort jobs

theorem TCPSweep_ignores_liveness_witness :
    (ScanHandler.TCPSweep (fun _ _ => 0) (fun _ _ => true)
        (newScanHandler ["10.0.0.1", "10.0.0.2"] [80] 1) [80]).map Prod.snd =
      (ScanHandler.TCPSweep (fun _ _ => 0) (fun _ _ => true)
        ⟨(pingAggregate (initTargetHosts ["10.0.0.1", "10.0.0.2"] [80])
            [[{ hostAddress := "10.0.0.2", hostStatus := true, macAddr := "AA" }]]).1,
          ["10.0.0.1", "10.0.0.2"], 1⟩ [80]).map Prod.snd ∧
    ∃ probes,
      (ScanHandler.TCPSweep (fun _ _ => 0) (fun _ _ => true)
        (newScanHandler ["10.0.0.1", "10.0.0.2"] [80] 1) [80]).map Prod.snd = some probes ∧
      ∀ host, host ∈ (newScanHandler ["10.0.0.1", "10.0.0.2"] [80] 1).hostNames ↔
        ∃ port, (host, port) ∈ probes.flatten :=
  TCPSweep_ignores_liveness (fun _ _ => 0) (fun _ _ => true)
    (newScanHandler ["10.0.0.1", "10.0.0.2"] [80] 1)
    ⟨(pingAggregate (initTargetHosts ["10.0.0.1", "10.0.0.2"] [80])
        [[{ hostAddress := "10.0.0.2", hostStatus := true, macAddr := "AA" }]]).1,
      ["10.0.0.1", "10.0.0.2"], 1⟩
    [80] rfl rfl (by decide) (by decide)

/-! ### Octets above 255 in a CIDR target -/

theorem expandCIDR_octets_mod (da db dc dd dn ea eb ec ed : List Char)
    (ha : IsDigits da) (hb : IsDigits db) (hc : IsDigits dc) (hd : IsDigits dd)
    (hn : IsDigits dn)
    (hea : IsDigits ea) (heb : IsDigits eb) (hec : IsDigits ec) (hed : IsDigits ed)
    (hA : decVal da % 256 = decVal ea % 256) (hB : decVal db % 256 = decVal eb % 256)
    (hC : decVal dc % 256 = decVal ec % 256) (hD : decVal dd % 256 = decVal ed % 256) :
    expandCIDR (cidrText da db dc dd dn) = expandCIDR (cidrText ea eb ec ed dn) := by
  unfold expandCIDR
  rw [sscanf_cidrText da db dc dd dn ha hb hc hd hn,
    sscanf_cidrText ea eb ec ed dn hea heb hec hed hn, hA, hB, hC, hD]

/-- C27 does not hold: the target `300.1.1.1/24` matches the CIDR pattern, the
conversion `%hhu` stores 300 as 44, and the expansion returns, without an
error, the 254 host addresses `44.1.1.1` to `44.1.1.254` of another network;
the same octet is rejected by `inet_pton` in the plain address `300.1.1.1`. -/
theorem expandNetwork_octet_wraps :
    (∀ (m : Type → Type) [Monad m] (resolveHostname : String → m String),
      expandNetwork resolveHostname "300.1.1.1/24" = pure (expandCIDR "300.1.1.1/24")) ∧
    expandCIDR "300.1.1.1/24" = expandCIDR "44.1.1.1/24" ∧
    expandCIDR "300.1.1.1/24" =
      Except.ok ((List.range' (44 * 2 ^ 24 + 1 * 2 ^ 16 + 1 * 2 ^ 8 + 1) 254).map inet_ntop) ∧
    inet_ntop (44 * 2 ^ 24 + 1 * 2 ^ 16 + 1 * 2 ^ 8 + 1) = "44.1.1.1" ∧
    inet_ntop (44 * 2 ^ 24 + 1 * 2 ^ 16 + 1 * 2 ^ 8 + 254) = "44.1.1.254" ∧
    inet_pton "300.1.1.1" = false := by
  have hwrap : expandCIDR "300.1.1.1/24" = expandCIDR "44.1.1.1/24" :=
    expandCIDR_octets_mod "300".data "1".data "1".data "1".data "24".data
      "44".data "1".data "1".data "1".data
      (by decide) (by decide) (by decide) (by decide) (by decide)
      (by decide) (by decide) (by decide) (by decide)
      (by decide) (by decide) (by decide) (by decide)
  have h44 : expandCIDR "44.1.1.1/24" =
      Except.ok ((List.range' (44 * 2 ^ 24 + 1 * 2 ^ 16 + 1 * 2 ^ 8 + 1) 254).map inet_ntop) := by
    have h := expandCIDR_cidrText "44".data "1".data "1".data "1".data "24".data
      (by decide) (by decide) (by decide) (by decide) (by decide)
      (by decide) (by decide) (by decide) (by decide) (by decide)
    rw [if_neg (by decide), if_neg (by decide)] at h
    refine h.trans (congrArg Except.ok ?_)
    have h1 : (decVal "44".data * 2 ^ 24 + decVal "1".data * 2 ^ 16 + decVal "1".data * 2 ^ 8 +
        decVal "1".data) / 2 ^ (32 - decVal "24".data) * 2 ^ (32 - decVal "24".data) + 1 =
        44 * 2 ^ 24 + 1 * 2 ^ 16 + 1 * 2 ^ 8 + 1 := by decide
    have h2 : 2 ^ (32 - decVal "24".data) - 2 = 254 := by decide
    rw [h1, h2]
  refine ⟨?_, hwrap, hwrap.trans h44, by decide, by decide, by decide⟩
  intro m _ resolveHostname
  have hp : inet_pton "300.1.1.1/24" = false :=
    inet_pton_cidrText "300".data "1".data "1".data "1".data "24".data
      (by decide) (by decide) (by decide) (by decide)
  have hr : regexMatchCIDR "300.1.1.1/24" = true :=
    regexMatchCIDR_cidrText "300".data "1".data "1".data "1".data "24".data
      (by decide) (by decide) (by decide) (by decide) (by decide)
      (by decide) (by decide) (by decide) (by decide) (by decide)
  simp [expandNetwork, hp, hr]

/-! ### Duplicate hosts in the ping sweep -/

theorem pingAggregate_count (targetHosts : List NetworkNode)
    (futureResults : List (List tempResult)) :
    (pingAggregate targetHosts futureResults).2 = (futureResults.map List.length).sum := by
  have inner : ∀ (futureResult : List tempResult) (acc : List NetworkNode × Nat),
      (futureResult.foldl (fun a r => (mergePingResult a.1 r, a.2 + 1)) acc).2 =
        acc.2 + futureResult.length := by
    intro futureResult
    induction futureResult with
    | nil => intro acc; simp
    | cons r rest ih => intro acc; simp only [List.foldl_cons, ih, List.length_cons]; omega
  have outer : ∀ (frs : List (List tempResult)) (acc : List NetworkNode × Nat),
      (frs.foldl (fun acc futureResult =>
        futureResult.foldl (fun a r => (mergePingResult a.1 r, a.2 + 1)) acc) acc).2 =
        acc.2 + (frs.map List.length).sum := by
    intro frs
    induction frs with
    | nil => intro acc; simp
    | cons fr rest ih =>
      intro acc
      simp only [List.foldl_cons, ih, inner, List.map_cons, List.sum_cons]
      omega
  simpa [pingAggregate] using outer futureResults (targetHosts, 0)

theorem pingSweepGroups_twice (sample : Nat → List String → Nat → List String)
    (shuffle : Nat → List String → List String) (host : String)
    (hsample : ValidSample sample) (hshuffle : ValidShuffle shuffle) :
    ∃ groups, pingSweepGroups sample shuffle [host, host] 2 = some groups ∧
      groups.map List.length = [1, 0] := by
  have hsz : pingSizing [host, host].length 2 = some (2, 1) := by
    rw [show [host, host].length = 2 from rfl]; rfl
  refine ⟨pingGroupsLoop sample shuffle 1 2 0 [host, host],
    by simp only [pingSweepGroups, hsz], ?_⟩
  simp only [pingGroupsLoop, List.map_cons, List.map_nil, (hshuffle _ _).length_eq]
  have h0 := (hsample 0 [host, host] 1).2
  have e0 : (sample 0 [host, host] 1).length = 1 := by simpa using h0
  have hmem : host ∈ sample 0 [host, host] 1 := by
    obtain ⟨x, hx⟩ := List.length_eq_one.mp e0
    have hx2 : x ∈ [host, host] := (hsample 0 [host, host] 1).1.subset (by rw [hx]; simp)
    have : x = host := by simpa using hx2
    rw [hx, this]
    simp
  have hrem : (sample 0 [host, host] 1).foldl eraseAll [host, host] = [] := by
    rw [foldl_eraseAll]
    simp [hmem]
  have h1 := (hsample (0 + 1) ((sample 0 [host, host] 1).foldl eraseAll [host, host]) 1).2
  rw [hrem] at h1 ⊢
  have e1 : (sample (0 + 1) [] 1).length = 0 := by simpa using h1
  rw [e0, e1]

/-- C30 does not hold for a host list with a duplicate: for the list holding
the same address twice and T = 2, whatever the sampling draws, the first group
holds the address once, erasing it empties the pool, and the second group is
empty, so the group sizes sum to 1; an uncancelled sweep in which no worker
throws merges 1 result and `pingCount` ends at 1 while `hostCount` is 2. -/
theorem pingSweep_duplicates_lose_results (sample : Nat → List String → Nat → List String)
    (shuffle : Nat → List String → List String) (echo : String → Nat → EchoOutcome)
    (sendARP : String → ArpReply) (host : String) (targetPorts : List Int)
    (futureResults : List (List tempResult))
    (hsample : ValidSample sample) (hshuffle : ValidShuffle shuffle) :
    ∃ groups, pingSweepGroups sample shuffle [host, host] 2 = some groups ∧
      (groups.map List.length).sum = 1 ∧
      (groups.map (fun g => (pingHosts echo sendARP (fun _ => true) g {} []).1) =
          futureResults.map Except.ok →
        (pingAggregate (initTargetHosts [host, host] targetPorts) futureResults).2 = 1 ∧
        [host, host].length = 2) := by
  obtain ⟨groups, hg, hl⟩ := pingSweepGroups_twice sample shuffle host hsample hshuffle
  refine ⟨groups, hg, by rw [hl]; rfl, fun hres => ⟨?_, rfl⟩⟩
  rw [pingAggregate_count, pingHosts_results_lengths echo sendARP groups futureResults hres, hl]
  rfl

theorem pingSweep_duplicates_lose_results_witness :
    ∃ groups,
      pingSweepGroups (fun _ pool n => pool.take n) (fun _ l => l)
        ["10.0.0.1", "10.0.0.1"] 2 = some groups ∧
      (groups.map List.length).sum = 1 ∧
      (groups.map (fun g => (pingHosts (fun _ _ => EchoOutcome.noReply)
            (fun _ => ⟨NO_ERROR, []⟩) (fun _ => true) g {} []).1) =
          ([[{ hostAddress := "10.0.0.1" }], []] : List (List tempResult)).map Except.ok →
        (pingAggregate (initTargetHosts ["10.0.0.1", "10.0.0.1"] [80])
          [[{ hostAddress := "10.0.0.1" }], []]).2 = 1 ∧
        ["10.0.0.1", "10.0.0.1"].length = 2) :=
  pingSweep_duplicates_lose_results (fun _ pool n => pool.take n) (fun _ l => l)
    (fun _ _ => EchoOutcome.noReply) (fun _ => ⟨NO_ERROR, []⟩) "10.0.0.1" [80]
    [[{ hostAddress := "10.0.0.1" }], []]
    (fun _ pool n => ⟨List.take_sublist n pool, List.length_take n pool⟩)
    (fun _ l => List.Perm.refl l)
end NetMap
